import Mathlib

/-! # ChannelView: the virtualised chat-log view of chatterino2

A shallow embedding of `src/widgets/helper/channelview.cpp`.

Conventions of the embedding.
* C++ `float`/`double`/`qreal` values are exact rationals (`ℚ`), and their
  arithmetic is exact wherever no rounding is written out; C++ `int` values
  are unbounded `Int` (signed overflow is undefined behaviour in C++ and is
  not modelled); `size_t` indices are `Nat`.
* `(int)x` on a floating value is truncation toward zero (`truncQ`), and
  `fmod(x, 1)` is `x` minus that truncation (`fmod1`), which IEEE 754
  computes without rounding.
* IEEE 754 rounding to nearest, ties to even, is `toFloat` (binary32) and
  `toDouble` (binary64), subnormals included; a result beyond the largest
  finite value is not modelled. Each operation is evaluated in the type of
  its operands and rounded once, as C++ does where `FLT_EVAL_METHOD` is `0`
  (x86-64, ARM64), without fused operations. The row walks of `drawMessages`,
  `tryGetMessageAt` and `actuallyLayoutMessages` round the `double` product
  `getHeight() * fmod(current, 1)` before converting it to `int`.
* The wheel walk of `wheelEvent` is given twice: `wheelWalk` computes over
  exact rationals, the reading in which the spec states its pixel equations
  (the code follows the same path wherever the truncated products are whole
  and only its final value is rounded); `wheelWalkFloat` performs every
  narrowing to `float` and every rounding of the source's `float` and
  `double` arithmetic.
* A snapshot is a `List MessageLayout`; `snapshot[i]` outside the list is
  undefined behaviour in C++ and makes the embedded function return `none`.
* `MessageLayout::layout` is not among the sources: a row's `getHeight` is
  the pixel height that layout gives it at the view's width and scale, and
  laying a row out again does not change it.
-/

namespace chatterino

/-! ## Numeric conversions -/

/-- C++ conversion of a floating value to `int`: truncation toward zero. -/
def truncQ (q : ℚ) : Int :=
  if 0 ≤ q then ⌊q⌋ else ⌈q⌉

/-- C `fmod(q, 1)`: the fractional part, carrying the sign of `q`. -/
def fmod1 (q : ℚ) : ℚ :=
  q - truncQ q

/-- The nearest integer to `x`, the even one of the two when `x` is halfway. -/
def roundHalfEven (x : ℚ) : Int :=
  let f := ⌊x⌋
  if x - f < 1 / 2 then f
  else if 1 / 2 < x - f then f + 1
  else if f % 2 = 0 then f else f + 1

/-- IEEE 754 rounding to nearest, ties to even, into the binary format with
`p` significand bits whose smallest positive (subnormal) value is `2 ^ emin`:
`q` is rounded to a multiple of the unit in the last place, `2 ^ u` with
`u = max (floor(log2 |q|) - (p - 1)) emin`. -/
def roundBinary (p : Nat) (emin : Int) (q : ℚ) : ℚ :=
  let u : Int := max (Int.log 2 |q| - (p - 1)) emin
  (roundHalfEven (q / (2 : ℚ) ^ u) : ℚ) * (2 : ℚ) ^ u

/-- Conversion to C++ `float` (IEEE 754 binary32), and the rounding of every
`float` operation. -/
def toFloat (q : ℚ) : ℚ :=
  roundBinary 24 (-149) q

/-- Conversion to C++ `double` (IEEE 754 binary64), and the rounding of every
`double` operation. -/
def toDouble (q : ℚ) : ℚ :=
  roundBinary 53 (-1074) q

/-! ## Data model -/

/-- Modelled from the spec: a message record (`messages/message.hpp` is not
among the sources). It carries its scroll-highlight descriptor, the
do-not-notify flag, and the pixel height `MessageLayout::layout` computes for
it at the view's width and scale. -/
structure Message where
  scrollBarHighlight : Nat
  doNotTriggerNotification : Bool
  layoutHeight : Int
deriving DecidableEq, Repr

/-- Modelled from the spec: the per-message layout object
(`messages/layouts/messagelayout.hpp` is not among the sources). `id` is the
identity of the heap object a `MessageLayoutPtr` points to. -/
structure MessageLayout where
  id : Nat
  message : Message
deriving DecidableEq, Repr

/-- `MessageLayout::getHeight()`. -/
def MessageLayout.getHeight (m : MessageLayout) : Int :=
  m.message.layoutHeight

/-- A row with the given identity and pixel height (no highlight, no flags). -/
def mkRow (id : Nat) (h : Int) : MessageLayout :=
  ⟨id, ⟨0, false, h⟩⟩

/-- Rows with identities `k, k + 1, ..` and the given heights. -/
def rowsFrom : Nat → List Int → List MessageLayout
  | _, [] => []
  | k, h :: hs => mkRow k h :: rowsFrom (k + 1) hs

/-- Rows `0, 1, ..` with the given heights. -/
def rowsOfHeights (hs : List Int) : List MessageLayout :=
  rowsFrom 0 hs

/-- A snapshot of the view's message store: `LimitedQueueSnapshot`. -/
abbrev Snapshot := List MessageLayout

/-! ## The wheel walk of `ChannelView::wheelEvent`, over exact rationals -/

/-- The loop `for (; i >= 0; i--)` of the `delta > 0` branch of
`ChannelView::wheelEvent`, entered at row `i` with the current values of
`delta`, `desired`, `scrollFactor` and `currentScrollLeft`; it returns the
final `desired`. -/
def wheelUpLoop (snapshot : Snapshot) : Nat → ℚ → ℚ → ℚ → ℚ → Option ℚ
  | i, delta, desired, scrollFactor, currentScrollLeft =>
    if delta < currentScrollLeft then
      some (desired - scrollFactor * (delta / currentScrollLeft))
    else
      match i with
      | 0 => some 0
      | j + 1 =>
        match snapshot[j]? with
        | none => none
        | some prev =>
          wheelUpLoop snapshot j (delta - currentScrollLeft) (desired - scrollFactor)
            1 prev.getHeight

/-- The loop `for (; i < snapshotLength; i++)` of the `else` branch of
`ChannelView::wheelEvent`, entered at row `i`; it returns the final
`desired`. -/
def wheelDownLoop (snapshot : Snapshot) (i : Nat)
    (delta desired scrollFactor currentScrollLeft : ℚ) : Option ℚ :=
  if i < snapshot.length then
    if delta < currentScrollLeft then
      some (desired + scrollFactor * (delta / currentScrollLeft))
    else if i = snapshot.length - 1 then
      wheelDownLoop snapshot (i + 1) (delta - currentScrollLeft) (snapshot.length : ℚ)
        scrollFactor currentScrollLeft
    else
      match snapshot[i + 1]? with
      | none => none
      | some next =>
        wheelDownLoop snapshot (i + 1) (delta - currentScrollLeft) (desired + scrollFactor)
          1 next.getHeight
  else
    some desired
termination_by snapshot.length - i

/-- The body of `ChannelView::wheelEvent` between reading `desired` and the
call `setDesiredValue(desired, true)`, computed over exact rationals: given the
snapshot, the scrollbar's desired value and the effective pixel delta
(`event->delta() * 1.5 * mouseMultiplier`), the value handed to
`setDesiredValue`. `none` is an out-of-range `snapshot[i]`. The explicit
`(int)` truncation is kept; the roundings of the `float` variables are those of
`wheelWalkFloat`. -/
def wheelWalk (snapshot : Snapshot) (desired delta : ℚ) : Option ℚ :=
  let snapshotLength : Int := snapshot.length
  let i : Int := min (truncQ desired) snapshotLength
  if i < 0 then none
  else
    match snapshot[i.toNat]? with
    | none => none
    | some row =>
      if delta > 0 then
        let scrollFactor := fmod1 desired
        let currentScrollLeft : ℚ := truncQ (scrollFactor * row.getHeight)
        wheelUpLoop snapshot i.toNat delta desired scrollFactor currentScrollLeft
      else
        let delta := -delta
        let scrollFactor := 1 - fmod1 desired
        let currentScrollLeft : ℚ := truncQ (scrollFactor * row.getHeight)
        wheelDownLoop snapshot i.toNat delta desired scrollFactor currentScrollLeft

/-! ## The wheel walk in the source's floating-point arithmetic -/

/-- The loop `for (; i >= 0; i--)` of the `delta > 0` branch of
`ChannelView::wheelEvent` with its roundings: `delta`, `desired`,
`scrollFactor` and `currentScrollLeft` are `float` variables, so the quotient,
the product and each difference are rounded to `float`, and the `int` height of
the previous row is converted to `float`. -/
def wheelUpLoopFloat (snapshot : Snapshot) : Nat → ℚ → ℚ → ℚ → ℚ → Option ℚ
  | i, delta, desired, scrollFactor, currentScrollLeft =>
    if delta < currentScrollLeft then
      some (toFloat (desired - toFloat (scrollFactor * toFloat (delta / currentScrollLeft))))
    else
      match i with
      | 0 => some 0
      | j + 1 =>
        match snapshot[j]? with
        | none => none
        | some prev =>
          wheelUpLoopFloat snapshot j (toFloat (delta - currentScrollLeft))
            (toFloat (desired - scrollFactor)) 1 (toFloat prev.getHeight)

/-- The loop `for (; i < snapshotLength; i++)` of the `else` branch of
`ChannelView::wheelEvent` with its roundings. In
`desired += scrollFactor * ((double)delta / currentScrollLeft)` the quotient,
the product and the sum are `double` operations and the sum is then narrowed to
the `float` variable; the other updates are `float` operations, and
`desired = snapshot.getLength()` converts a `size_t` to `float`. -/
def wheelDownLoopFloat (snapshot : Snapshot) (i : Nat)
    (delta desired scrollFactor currentScrollLeft : ℚ) : Option ℚ :=
  if i < snapshot.length then
    if delta < currentScrollLeft then
      some (toFloat (toDouble
        (desired + toDouble (scrollFactor * toDouble (delta / currentScrollLeft)))))
    else if i = snapshot.length - 1 then
      wheelDownLoopFloat snapshot (i + 1) (toFloat (delta - currentScrollLeft))
        (toFloat (snapshot.length : ℚ)) scrollFactor currentScrollLeft
    else
      match snapshot[i + 1]? with
      | none => none
      | some next =>
        wheelDownLoopFloat snapshot (i + 1) (toFloat (delta - currentScrollLeft))
          (toFloat (desired + scrollFactor)) 1 (toFloat next.getHeight)
  else
    some desired
termination_by snapshot.length - i

/-- The body of `ChannelView::wheelEvent` between reading `desired` and the
call `setDesiredValue(desired, true)`, with every rounding of the source:
`float desired = getDesiredValue()` and `float delta = ...` narrow the two
`double` values to `float`; `fmod(desired, 1)` is exact; `1 - fmod(desired, 1)`
is a `double` difference narrowed to `float`; in
`(int)(scrollFactor * snapshot[i]->getHeight())` the height is converted to
`float`, the product is rounded to `float` and then truncated, and the `int` is
converted back to `float`. The result is the `float` handed (widened, which is
exact) to `setDesiredValue`. `none` is an out-of-range `snapshot[i]`. -/
def wheelWalkFloat (snapshot : Snapshot) (desired delta : ℚ) : Option ℚ :=
  let desired := toFloat desired
  let delta := toFloat delta
  let snapshotLength : Int := snapshot.length
  let i : Int := min (truncQ desired) snapshotLength
  if i < 0 then none
  else
    match snapshot[i.toNat]? with
    | none => none
    | some row =>
      if delta > 0 then
        let scrollFactor := toFloat (fmod1 desired)
        let currentScrollLeft : ℚ :=
          toFloat (truncQ (toFloat (scrollFactor * toFloat row.getHeight)))
        wheelUpLoopFloat snapshot i.toNat delta desired scrollFactor currentScrollLeft
      else
        let delta := -delta
        let scrollFactor := toFloat (toDouble (1 - fmod1 desired))
        let currentScrollLeft : ℚ :=
          toFloat (truncQ (toFloat (scrollFactor * toFloat row.getHeight)))
        wheelDownLoopFloat snapshot i.toNat delta desired scrollFactor currentScrollLeft

/-! ## Pixel offsets of scroll positions (specification side) -/

/-- Height of row `i`, and `0` past the end of the snapshot. -/
def rowHeight (snapshot : Snapshot) (i : Nat) : Int :=
  match snapshot[i]? with
  | some row => row.getHeight
  | none => 0

/-- Pixel offset of the top edge of row `i`: the heights of the rows before it. -/
def rowTop (snapshot : Snapshot) (i : Nat) : Int :=
  ((snapshot.take i).map MessageLayout.getHeight).sum

/-- Total pixel height of the snapshot. -/
def totalHeight (snapshot : Snapshot) : Int :=
  (snapshot.map MessageLayout.getHeight).sum

/-- Pixel offset `pos(d)` of a fractional scroll position `d`: the heights of
the rows before row `floor(d)` plus `frac(d)` times the height of that row. -/
def pixelPos (snapshot : Snapshot) (d : ℚ) : ℚ :=
  rowTop snapshot ⌊d⌋₊ + Int.fract d * rowHeight snapshot ⌊d⌋₊

/-- The scroll position `d` sits on a whole pixel of its row:
`frac(d) * height(floor d)` is an integer. -/
def PixelAligned (snapshot : Snapshot) (d : ℚ) : Prop :=
  Int.fract (Int.fract d * rowHeight snapshot ⌊d⌋₊) = 0

instance (snapshot : Snapshot) (d : ℚ) : Decidable (PixelAligned snapshot d) :=
  inferInstanceAs (Decidable (Int.fract (Int.fract d * rowHeight snapshot ⌊d⌋₊) = 0))

/-! ## Selection -/

/-- Modelled from the spec: `SelectionItem` (`messages/selection.hpp` is not
among the sources), a `(messageIndex, charIndex)` pair of C++ `int`s. -/
structure SelectionItem where
  messageIndex : Int
  charIndex : Int
deriving DecidableEq, Repr

/-- Modelled from the spec: `Selection` (`messages/selection.hpp` is not among
the sources): the anchors `start` and `end`, and the same pair sorted as `min`
and `max`. -/
structure Selection where
  start : SelectionItem
  end_ : SelectionItem
  min : SelectionItem
  max : SelectionItem
deriving DecidableEq, Repr

/-! ## Scrollbar -/

/-- Modelled from the spec: the state of `Scrollbar` (`widgets/scrollbar.hpp`
is not among the sources): visibility, `maximum`, `largeChange`, the `current`
and `desired` positions and the highlight markers, head first. -/
structure Scrollbar where
  visible : Bool
  maximum : ℚ
  largeChange : ℚ
  currentValue : ℚ
  desiredValue : ℚ
  highlights : List Nat
deriving DecidableEq, Repr

namespace Scrollbar

/-- Modelled from the spec: `Scrollbar::setVisible`. -/
def setVisible (sb : Scrollbar) (value : Bool) : Scrollbar :=
  { sb with visible := value }

/-- Modelled from the spec: `Scrollbar::setMaximum`. -/
def setMaximum (sb : Scrollbar) (value : ℚ) : Scrollbar :=
  { sb with maximum := value }

/-- Modelled from the spec: `Scrollbar::setLargeChange`. -/
def setLargeChange (sb : Scrollbar) (value : ℚ) : Scrollbar :=
  { sb with largeChange := value }

/-- Modelled from the spec: `setDesiredValue(v, animate)` clamps `v` to
`[0, maximum]`; when `animate` is false `current` snaps to it at once. -/
def setDesiredValue (sb : Scrollbar) (value : ℚ) (animate : Bool) : Scrollbar :=
  let v := max 0 (min sb.maximum value)
  if animate then { sb with desiredValue := v }
  else { sb with desiredValue := v, currentValue := v }

/-- Modelled from the spec: `scrollToBottom(animate)` is
`setDesiredValue(maximum, animate)`. -/
def scrollToBottom (sb : Scrollbar) (animate : Bool) : Scrollbar :=
  sb.setDesiredValue sb.maximum animate

/-- Modelled from the spec: `offset(rows)` shifts `current` and `desired` by
`rows`, clamped to `[0, maximum]`. -/
def offset (sb : Scrollbar) (rows : ℚ) : Scrollbar :=
  { sb with
    currentValue := max 0 (min sb.maximum (sb.currentValue + rows))
    desiredValue := max 0 (min sb.maximum (sb.desiredValue + rows)) }

/-- Modelled from the spec: `isAtBottom()`, `current` at or past the bottom
position `maximum` that `scrollToBottom` targets. -/
def isAtBottom (sb : Scrollbar) : Bool :=
  decide (sb.maximum ≤ sb.currentValue)

/-- Modelled from the spec: `addHighlight` appends a marker for a tail row. -/
def addHighlight (sb : Scrollbar) (highlight : Nat) : Scrollbar :=
  { sb with highlights := sb.highlights ++ [highlight] }

/-- Modelled from the spec: `addHighlightsAtStart` prepends the markers of a
head batch. -/
def addHighlightsAtStart (sb : Scrollbar) (batch : List Nat) : Scrollbar :=
  { sb with highlights := batch ++ sb.highlights }

end Scrollbar

/-! ## Message store -/

/-- Modelled from the spec: the bounded message store `LimitedQueue`
(`messages/limitedqueue.hpp` is not among the sources): an ordered sequence of
at most `limit` items. -/
structure LimitedQueue (α : Type) where
  items : List α
  limit : Nat
deriving DecidableEq, Repr

namespace LimitedQueue

variable {α : Type}

/-- Modelled from the spec: `getSnapshot()`, the sequence at this moment. -/
def getSnapshot (q : LimitedQueue α) : List α :=
  q.items

/-- Modelled from the spec: `clear()`. -/
def clear (q : LimitedQueue α) : LimitedQueue α :=
  { q with items := [] }

/-- Modelled from the spec: `pushBack(item, deleted)` appends; at capacity it
evicts the head record and returns it; a zero-capacity store is left as is. -/
def pushBack (q : LimitedQueue α) (item : α) : LimitedQueue α × Option α :=
  if q.limit = 0 then (q, none)
  else if q.items.length < q.limit then ({ q with items := q.items ++ [item] }, none)
  else ({ q with items := q.items.tail ++ [item] }, q.items.head?)

/-- Modelled from the spec: `pushFront(batch)` prepends the batch and evicts
from the tail as needed to respect capacity; it returns the evicted records. -/
def pushFront (q : LimitedQueue α) (batch : List α) : LimitedQueue α × List α :=
  ({ q with items := (batch ++ q.items).take q.limit }, (batch ++ q.items).drop q.limit)

end LimitedQueue

/-! ## The view -/

/-- The two settings of `singletons::SettingManager` the view reads. -/
structure Settings where
  enableSmoothScrollingNewMessages : Bool
  mouseScrollMultiplier : ℚ
deriving DecidableEq, Repr

/-- The members of `ChannelView` the embedded functions read or write.
`height` is the widget's `height()`; `messagesOnScreen` holds the identities
of the layouts in the on-screen set; `nextLayoutId` is the identity the next
`new MessageLayout` gets. -/
structure ChannelView where
  messages : LimitedQueue MessageLayout
  snapshot : Snapshot
  paused : Bool
  scrollBar : Scrollbar
  selection : Selection
  messagesOnScreen : List Nat
  showingLatestMessages : Bool
  enableScrollingToBottom : Bool
  messageWasAdded : Bool
  height : Int
  nextLayoutId : Nat
deriving DecidableEq, Repr

namespace ChannelView

/-- `ChannelView::getMessagesSnapshot`: refreshes the cached snapshot unless the
view is paused, and returns it. -/
def getMessagesSnapshot (view : ChannelView) : ChannelView × Snapshot :=
  if !view.paused then
    ({ view with snapshot := view.messages.getSnapshot }, view.messages.getSnapshot)
  else
    (view, view.snapshot)

/-- The bottom-up loop `for (int i = length - 1; i >= 0; i--)` of
`actuallyLayoutMessages`, entered with `rows = i + 1` rows still to visit and
the remaining budget `h`; it returns the `largeChange` it sets when it decides
to show the scrollbar, and `none` when it runs out of rows. -/
def thumbLoop (snapshot : Snapshot) : Nat → Int → Option ℚ
  | 0, _ => none
  | i + 1, h =>
    match snapshot[i]? with
    | none => none
    | some message =>
      let h := h - message.getHeight
      if h < 0 then
        some (((snapshot.length - i : Nat) : ℚ) + (h : ℚ) / message.getHeight)
      else
        thumbLoop snapshot i h

/-- `ChannelView::actuallyLayoutMessages`. The top-down loop over the visible
window only lays rows out and is not a state change here; a requested repaint
(`queueUpdate`) is an output signal and is not followed. -/
def actuallyLayoutMessages (settings : Settings) (view : ChannelView) : ChannelView :=
  let (view, messagesSnapshot) := view.getMessagesSnapshot
  if messagesSnapshot.length = 0 then
    { view with scrollBar := view.scrollBar.setVisible false }
  else
    let showingLatestMessages := view.scrollBar.isAtBottom || !view.scrollBar.visible
    let view := { view with showingLatestMessages := showingLatestMessages }
    let h := view.height - 8
    let largeChange := thumbLoop messagesSnapshot messagesSnapshot.length h
    let showScrollbar := largeChange.isSome
    let scrollBar :=
      match largeChange with
      | some value => view.scrollBar.setLargeChange value
      | none => view.scrollBar
    let scrollBar := scrollBar.setVisible showScrollbar
    let scrollBar := if !showScrollbar then scrollBar.setDesiredValue 0 false else scrollBar
    let scrollBar := scrollBar.setMaximum messagesSnapshot.length
    if view.enableScrollingToBottom && showingLatestMessages && showScrollbar then
      { view with
        scrollBar := scrollBar.scrollToBottom
          (view.messageWasAdded && settings.enableSmoothScrollingNewMessages)
        messageWasAdded := false }
    else
      { view with scrollBar := scrollBar }

/-- `ChannelView::layoutMessages`. -/
def layoutMessages (settings : Settings) (view : ChannelView) : ChannelView :=
  actuallyLayoutMessages settings view

/-- The handler `setChannel` connects to `messageRemovedFromStart`. -/
def messageRemovedFromStart (settings : Settings) (view : ChannelView) : ChannelView :=
  let selection := view.selection
  let selection :=
    { selection with min := { selection.min with messageIndex := selection.min.messageIndex - 1 } }
  let selection :=
    { selection with max := { selection.max with messageIndex := selection.max.messageIndex - 1 } }
  let selection :=
    { selection with
      start := { selection.start with messageIndex := selection.start.messageIndex - 1 } }
  let selection :=
    { selection with
      end_ := { selection.end_ with messageIndex := selection.end_.messageIndex - 1 } }
  layoutMessages settings { view with selection := selection }

/-- The loop of the `messagesAddedAtStart` handler that wraps each message of
the batch in a `new MessageLayout`. -/
def newLayouts : Nat → List Message → List MessageLayout
  | _, [] => []
  | nextId, message :: rest => ⟨nextId, message⟩ :: newLayouts (nextId + 1) rest

/-- The handler `setChannel` connects to `messagesAddedAtStart`. -/
def messagesAddedAtStart (settings : Settings) (view : ChannelView)
    (messages : List Message) : ChannelView :=
  let messageRefs := newLayouts view.nextLayoutId messages
  let view := { view with nextLayoutId := view.nextLayoutId + messages.length }
  let view :=
    if !view.paused then
      let (queue, result) := view.messages.pushFront messageRefs
      let view := { view with messages := queue }
      if result.length > 0 then
        if view.scrollBar.isAtBottom then
          { view with scrollBar := view.scrollBar.scrollToBottom false }
        else
          { view with scrollBar := view.scrollBar.offset (messages.length : ℚ) }
      else view
    else view
  let highlights := messages.map Message.scrollBarHighlight
  let view := { view with scrollBar := view.scrollBar.addHighlightsAtStart highlights }
  let view := { view with messageWasAdded := true }
  layoutMessages settings view

/-- The painting loop of `drawMessages` over the rows from `start` on, entered
with the running `y`: the rows `paint` is called on, in order (the last one is
`end`). -/
def paintLoop (viewHeight : Int) : List MessageLayout → Int → List MessageLayout
  | [], _ => []
  | layout :: rest, y =>
    let y := y + layout.getHeight
    if y > viewHeight then [layout] else layout :: paintLoop viewHeight rest y

/-- The loop of `drawMessages` that erases every row from `start` on from
`messagesOnScreen`. -/
def eraseLoop : List MessageLayout → List Nat → List Nat
  | [], onScreen => onScreen
  | layout :: rest, onScreen => eraseLoop rest (onScreen.filter (fun x => x ≠ layout.id))

/-- The loop of `drawMessages` that inserts the rows from `start` on into
`messagesOnScreen` until it has inserted `end`. -/
def insertLoop (endId : Nat) : List MessageLayout → List Nat → List Nat
  | [], onScreen => onScreen
  | layout :: rest, onScreen =>
    let onScreen := if layout.id ∈ onScreen then onScreen else layout.id :: onScreen
    if layout.id = endId then onScreen else insertLoop endId rest onScreen

/-- What the body of `drawMessages` does after taking the snapshot: the
on-screen set it leaves, the layouts `paint` was called on (in order), and the
layouts `deleteBuffer` was called on. -/
structure DrawPass where
  messagesOnScreen : List Nat
  painted : List Nat
  buffersDeleted : List Nat
deriving DecidableEq, Repr

/-- What a pass of `drawMessages` does: the view after it, the layouts `paint`
was called on, and the layouts `deleteBuffer` was called on. -/
structure DrawResult where
  view : ChannelView
  painted : List Nat
  buffersDeleted : List Nat
deriving DecidableEq, Repr

/-- The conversion `size_t start = this->scrollBar.getCurrentValue()`, for
`current >= 0`, where it is `floor(current)`. The spec's scrollbar invariant
keeps the current value in `[0, maximum]`; converting a negative `double` to
`size_t` is undefined in C++, and the general statements about the painting
and hit-testing walks assume `0 <= current`. -/
def startRow (current : ℚ) : Nat :=
  (truncQ current).toNat

/-- The body of `ChannelView::drawMessages` after `getMessagesSnapshot()`, on
the snapshot, the scrollbar's current value, `height()` and the on-screen set
of the previous pass. -/
def drawPass (messagesSnapshot : Snapshot) (current : ℚ) (viewHeight : Int)
    (messagesOnScreen : List Nat) : DrawPass :=
  let start : Nat := startRow current
  if start ≥ messagesSnapshot.length then ⟨messagesOnScreen, [], []⟩
  else
    match messagesSnapshot[start]? with
    | none => ⟨messagesOnScreen, [], []⟩
    | some first =>
      let y : Int := truncQ (-(toDouble ((first.getHeight : ℚ) * fmod1 current)))
      let painted := paintLoop viewHeight (messagesSnapshot.drop start) y
      match painted.getLast? with
      | none => ⟨messagesOnScreen, painted.map MessageLayout.id, []⟩
      | some endLayout =>
        let messagesOnScreen := eraseLoop (messagesSnapshot.drop start) messagesOnScreen
        let buffersDeleted := messagesOnScreen
        let messagesOnScreen := insertLoop endLayout.id (messagesSnapshot.drop start) []
        ⟨messagesOnScreen, painted.map MessageLayout.id, buffersDeleted⟩

/-- `ChannelView::drawMessages`. -/
def drawMessages (view : ChannelView) : DrawResult :=
  let (view, messagesSnapshot) := view.getMessagesSnapshot
  let pass := drawPass messagesSnapshot view.scrollBar.currentValue view.height
    view.messagesOnScreen
  ⟨{ view with messagesOnScreen := pass.messagesOnScreen }, pass.painted, pass.buffersDeleted⟩

/-- `ChannelView::wheelEvent`: when the scrollbar is visible, the wheel walk
from the scrollbar's desired value with the effective delta
`event->delta() * 1.5 * mouseMultiplier`, then `setDesiredValue(desired, true)`.
`none` is an out-of-range `snapshot[i]`. -/
def wheelEvent (settings : Settings) (view : ChannelView) (eventDelta : Int) :
    Option ChannelView :=
  if view.scrollBar.visible then
    let desired := view.scrollBar.desiredValue
    let delta : ℚ := eventDelta * (3 / 2) * settings.mouseScrollMultiplier
    let (view, snapshot) := view.getMessagesSnapshot
    match wheelWalk snapshot desired delta with
    | none => none
    | some desired => some { view with scrollBar := view.scrollBar.setDesiredValue desired true }
  else
    some view

end ChannelView

/-- The accumulated `y` of the painting walk after row `j`: the (negative)
offset of the first painted row, `-(getHeight() * fmod(current, 1))` with the
`double` product rounded and then converted to `int`, plus the heights of the
rows from `floor(current)` up to and including `j`. -/
def yAfter (snapshot : Snapshot) (current : ℚ) (j : Nat) : Int :=
  truncQ (-(toDouble ((rowHeight snapshot (ChannelView.startRow current) : ℚ) * fmod1 current))) +
    (((snapshot.drop (ChannelView.startRow current)).take (j + 1 - ChannelView.startRow current)).map
      MessageLayout.getHeight).sum

/-- An unpaused view over the given rows, with viewport height `height`, the
scrollbar at `current`, the given on-screen set and all selection anchors at
`anchor`. -/
def viewOf (rows : List MessageLayout) (height : Int) (current : ℚ) (onScreen : List Nat)
    (anchor : SelectionItem) : ChannelView :=
  { messages := ⟨rows, 1000⟩
    snapshot := rows
    paused := false
    scrollBar := ⟨true, rows.length, 1, current, current, []⟩
    selection := ⟨anchor, anchor, anchor, anchor⟩
    messagesOnScreen := onScreen
    showingLatestMessages := false
    enableScrollingToBottom := true
    messageWasAdded := false
    height := height
    nextLayoutId := rows.length }

/-- Twelve rows of height 10 in a viewport of height 65, scrolled to row 3
after a pass that had rows 5 to 11 on screen. -/
def scrolledUpView : ChannelView :=
  viewOf (rowsOfHeights [10, 10, 10, 10, 10, 10, 10, 10, 10, 10, 10, 10]) 65 3
    [5, 6, 7, 8, 9, 10, 11] ⟨0, 0⟩

/-- The value `currentScrollLeft` gets on entry to the forward (`else`) branch
of `wheelEvent` when the `float` variable `desired` holds `d >= 0`: the pixels
of the start row below `d`, computed as `(int)(scrollFactor * getHeight())`
with `scrollFactor = 1 - fmod(desired, 1)` in the source's arithmetic. -/
def forwardExtentFloat (snapshot : Snapshot) (d : ℚ) : ℚ :=
  toFloat (truncQ
    (toFloat (toFloat (toDouble (1 - Int.fract d)) * toFloat (rowHeight snapshot ⌊d⌋₊))))

/-! ## Scrollbar calls, store replacement, and the remaining handlers -/

/-- A call `actuallyLayoutMessages` makes on the scrollbar. -/
inductive ScrollbarCall where
  | setVisible (value : Bool)
  | setLargeChange (value : ℚ)
  | setDesiredValue (value : ℚ) (animate : Bool)
  | setMaximum (value : ℚ)
  | scrollToBottom (animate : Bool)
deriving DecidableEq, Repr

/-- The effect of one call on the scrollbar. -/
def Scrollbar.call (sb : Scrollbar) : ScrollbarCall → Scrollbar
  | ScrollbarCall.setVisible value => sb.setVisible value
  | ScrollbarCall.setLargeChange value => sb.setLargeChange value
  | ScrollbarCall.setDesiredValue value animate => sb.setDesiredValue value animate
  | ScrollbarCall.setMaximum value => sb.setMaximum value
  | ScrollbarCall.scrollToBottom animate => sb.scrollToBottom animate

/-- Modelled from the spec: `replaceHighlight(index, highlight)` replaces the
marker at `index`; an index past the markers is a no-op. -/
def Scrollbar.replaceHighlight (sb : Scrollbar) (index : Nat) (highlight : Nat) : Scrollbar :=
  { sb with highlights := sb.highlights.set index highlight }

/-- Replaces the first item equal to `item`, and tells whether it found one. -/
def replaceFirst {α : Type} [DecidableEq α] (item replacement : α) : List α → List α × Bool
  | [] => ([], false)
  | x :: xs =>
    if x = item then (replacement :: xs, true)
    else ((x :: (replaceFirst item replacement xs).1), (replaceFirst item replacement xs).2)

/-- Modelled from the spec: `replaceItem(item, replacement)` replaces the
record in place, without changing the length or the order; a stale reference
is a no-op, signalled as "not found". -/
def LimitedQueue.replaceItem {α : Type} [DecidableEq α] (q : LimitedQueue α)
    (item replacement : α) : LimitedQueue α × Bool :=
  ({ q with items := (replaceFirst item replacement q.items).1 },
    (replaceFirst item replacement q.items).2)

/-- Modelled from the spec: `Selection()`, the empty selection at the origin. -/
def Selection.empty : Selection :=
  ⟨⟨0, 0⟩, ⟨0, 0⟩, ⟨0, 0⟩, ⟨0, 0⟩⟩

/-- Modelled from the spec: `Selection::isEmpty()`, true exactly when
`start == end`. -/
def Selection.isEmpty (selection : Selection) : Bool :=
  decide (selection.start = selection.end_)

/-- A viewport point, `QPoint`. -/
structure QPoint where
  x : Int
  y : Int
deriving DecidableEq, Repr

namespace ChannelView

/-- The calls `actuallyLayoutMessages` makes on the scrollbar, in order. -/
def layoutCalls (settings : Settings) (view : ChannelView) : List ScrollbarCall :=
  let (view, messagesSnapshot) := view.getMessagesSnapshot
  if messagesSnapshot.length = 0 then
    [ScrollbarCall.setVisible false]
  else
    let showingLatestMessages := view.scrollBar.isAtBottom || !view.scrollBar.visible
    let h := view.height - 8
    let largeChange := thumbLoop messagesSnapshot messagesSnapshot.length h
    let showScrollbar := largeChange.isSome
    (match largeChange with
      | some value => [ScrollbarCall.setLargeChange value]
      | none => []) ++
    [ScrollbarCall.setVisible showScrollbar] ++
    (if !showScrollbar then [ScrollbarCall.setDesiredValue 0 false] else []) ++
    [ScrollbarCall.setMaximum messagesSnapshot.length] ++
    (if view.enableScrollingToBottom && showingLatestMessages && showScrollbar then
      [ScrollbarCall.scrollToBottom
        (view.messageWasAdded && settings.enableSmoothScrollingNewMessages)]
    else [])

/-- `ChannelView::clearMessages` (the forced repaint is an output signal). -/
def clearMessages (settings : Settings) (view : ChannelView) : ChannelView :=
  layoutMessages settings { view with messages := view.messages.clear }

/-- `ChannelView::hasSelection`. -/
def hasSelection (view : ChannelView) : Bool :=
  !view.selection.isEmpty

/-- `ChannelView::clearSelection`. -/
def clearSelection (settings : Settings) (view : ChannelView) : ChannelView :=
  layoutMessages settings { view with selection := Selection.empty }

/-- The handler `setChannel` connects to `messageAppended` (the
`highlightedMessageReceived` signal is an output and is not followed). -/
def messageAppended (settings : Settings) (view : ChannelView) (message : Message) :
    ChannelView :=
  let messageRef : MessageLayout := ⟨view.nextLayoutId, message⟩
  let view := { view with nextLayoutId := view.nextLayoutId + 1 }
  let (queue, deleted) := view.messages.pushBack messageRef
  let view := { view with messages := queue }
  let view :=
    if deleted.isSome then
      if !view.paused then
        if view.scrollBar.isAtBottom then
          { view with scrollBar := view.scrollBar.scrollToBottom false }
        else
          { view with scrollBar := view.scrollBar.offset (-1) }
      else view
    else view
  let view := { view with scrollBar := view.scrollBar.addHighlight message.scrollBarHighlight }
  let view := { view with messageWasAdded := true }
  layoutMessages settings view

/-- The handler `setChannel` connects to `messageReplaced`. `none` is an
out-of-range `getSnapshot()[index]`. -/
def messageReplaced (settings : Settings) (view : ChannelView) (index : Nat)
    (replacement : Message) : Option ChannelView :=
  let newItem : MessageLayout := ⟨view.nextLayoutId, replacement⟩
  let view := { view with nextLayoutId := view.nextLayoutId + 1 }
  let view :=
    { view with
      scrollBar := view.scrollBar.replaceHighlight index replacement.scrollBarHighlight }
  match view.messages.getSnapshot[index]? with
  | none => none
  | some item =>
    some (layoutMessages settings
      { view with messages := (view.messages.replaceItem item newItem).1 })

/-- The loop of `tryGetMessageAt` over the rows from `start` on, entered at row
`i` with the running `y`: the layout, `relativePos` and `index` it returns. -/
def hitLoop (p : QPoint) : List MessageLayout → Nat → Int → Option (MessageLayout × QPoint × Nat)
  | [], _, _ => none
  | message :: rest, i, y =>
    if p.y < y + message.getHeight then some (message, ⟨p.x, p.y - y⟩, i)
    else hitLoop p rest (i + 1) (y + message.getHeight)

/-- `ChannelView::tryGetMessageAt`: the view (its snapshot cache refreshed as
by `getMessagesSnapshot`) and, when the function returns true, the values of
`_message`, `relativePos` and `index`. -/
def tryGetMessageAt (view : ChannelView) (p : QPoint) :
    ChannelView × Option (MessageLayout × QPoint × Nat) :=
  let (view, messagesSnapshot) := view.getMessagesSnapshot
  let start : Nat := startRow view.scrollBar.currentValue
  if start ≥ messagesSnapshot.length then (view, none)
  else
    match messagesSnapshot[start]? with
    | none => (view, none)
    | some first =>
      let y : Int := truncQ (-(toDouble ((first.getHeight : ℚ) * fmod1 view.scrollBar.currentValue)))
      (view, hitLoop p (messagesSnapshot.drop start) start y)

end ChannelView

namespace ChannelView

/-- `ChannelView::leaveEvent`, which lifts the pause. -/
def leaveEvent (view : ChannelView) : ChannelView :=
  { view with paused := false }

end ChannelView

/-- The view `scrolledUpView`, paused. -/
def pausedView : ChannelView :=
  { scrolledUpView with paused := true }

/-- The snapshot a pass over the view works on. -/
def passRows (view : ChannelView) : Snapshot :=
  view.getMessagesSnapshot.2

/-- The row the painting walk starts at, `floor(current)`. -/
def passStart (view : ChannelView) : Nat :=
  ChannelView.startRow view.scrollBar.currentValue

/-- Bottom edge of row `j` as the painting walk positions it: the first row's
top is at `-trunc(height(start) * frac(current))`, the product being the
`double` product of the source, and each next row is directly below. -/
def rowBottomEdge (view : ChannelView) (j : Nat) : Int :=
  yAfter (passRows view) view.scrollBar.currentValue j

/-- Top edge of row `j` as the painting walk positions it. -/
def rowTopEdge (view : ChannelView) (j : Nat) : Int :=
  rowBottomEdge view j - rowHeight (passRows view) j

namespace ChannelView

/-- The top-down loop of `actuallyLayoutMessages` ("layout the visible messages
in the view") over the rows from `start` on, entered with the running `y`: the
rows `layout` is called on, in order. -/
def layoutLoop (viewHeight : Int) : List MessageLayout → Int → List MessageLayout
  | [], _ => []
  | message :: rest, y =>
    let y := y + message.getHeight
    if y ≥ viewHeight then [message] else message :: layoutLoop viewHeight rest y

/-- The block of `actuallyLayoutMessages` around that loop, on the snapshot, the
scrollbar's current value and `height()`: the layouts `layout` is called on. -/
def layoutWindow (messagesSnapshot : Snapshot) (current : ℚ) (viewHeight : Int) : List Nat :=
  let start : Nat := startRow current
  if messagesSnapshot.length > start then
    match messagesSnapshot[start]? with
    | none => []
    | some first =>
      let y : Int := truncQ (-(toDouble ((first.getHeight : ℚ) * fmod1 current)))
      (layoutLoop viewHeight (messagesSnapshot.drop start) y).map MessageLayout.id
  else []

end ChannelView

/-- Five rows of height 10 in a viewport of height 30, scrolled to the top: the
third row ends exactly at the viewport's bottom edge. -/
def boundaryView : ChannelView :=
  viewOf (rowsOfHeights [10, 10, 10, 10, 10]) 30 0 [] ⟨0, 0⟩

/-- Twelve rows of height 10 in a viewport of height 67, scrolled to the
`double` nearest to `0.3`, which is `5404319552844595 / 2^54` and lies below
`0.3`: the exact product with the row height is just below `3`, and the
`double` product is `3`. -/
def fractionalView : ChannelView :=
  viewOf (rowsOfHeights [10, 10, 10, 10, 10, 10, 10, 10, 10, 10, 10, 10]) 67
    (5404319552844595 / 18014398509481984) [] ⟨0, 0⟩

/-! ## Numeric lemmas -/

theorem truncQ_of_nonneg {q : ℚ} (h : 0 ≤ q) : truncQ q = ⌊q⌋ := by
  simp [truncQ, h]

theorem truncQ_eq_of (q : ℚ) (z : Int) (h0 : 0 ≤ q) (h1 : (z : ℚ) ≤ q) (h2 : q < z + 1) :
    truncQ q = z := by
  rw [truncQ_of_nonneg h0]
  exact Int.floor_eq_iff.mpr ⟨h1, h2⟩

theorem truncQ_intCast (z : Int) : truncQ (z : ℚ) = z := by
  unfold truncQ
  split <;> simp

theorem fmod1_of_nonneg {q : ℚ} (h : 0 ≤ q) : fmod1 q = Int.fract q := by
  unfold fmod1
  rw [truncQ_of_nonneg h]
  rfl

theorem fract_eq_zero_iff_int (x : ℚ) : Int.fract x = 0 ↔ ∃ c : Int, x = c := by
  constructor
  · intro h
    refine ⟨⌊x⌋, ?_⟩
    have := Int.floor_add_fract x
    rw [h, add_zero] at this
    exact this.symm
  · rintro ⟨c, rfl⟩
    exact Int.fract_intCast c

theorem pixelAligned_iff {snapshot : Snapshot} {d : ℚ} :
    PixelAligned snapshot d ↔ ∃ c : Int, Int.fract d * rowHeight snapshot ⌊d⌋₊ = c :=
  fract_eq_zero_iff_int _

/-! ## IEEE 754 rounding -/

theorem roundHalfEven_intCast (z : Int) : roundHalfEven (z : ℚ) = z := by
  simp [roundHalfEven]

theorem roundHalfEven_eq_of_near (x : ℚ) (n : Int) (h : |x - n| < 1 / 2) :
    roundHalfEven x = n := by
  rw [abs_lt] at h
  obtain ⟨h1, h2⟩ := h
  by_cases hx : (n : ℚ) ≤ x
  · have hf : ⌊x⌋ = n := by
      rw [Int.floor_eq_iff]
      constructor
      · exact hx
      · linarith
    have h3 : x - (n : ℚ) < 1 / 2 := h2
    simp only [roundHalfEven, hf, h3, if_true]
  · push_neg at hx
    have hf : ⌊x⌋ = n - 1 := by
      rw [Int.floor_eq_iff]
      push_cast
      constructor <;> linarith
    have h3 : ¬ (x - ((n - 1 : Int) : ℚ) < 1 / 2) := by
      push_cast
      linarith
    have h4 : 1 / 2 < x - ((n - 1 : Int) : ℚ) := by
      push_cast
      linarith
    simp only [roundHalfEven, hf, h3, h4, if_true, if_false]
    ring

/-- A value halfway below an even integer rounds up to it. -/
theorem roundHalfEven_tie_up (n : Int) (hn : n % 2 = 0) :
    roundHalfEven ((n : ℚ) - 1 / 2) = n := by
  have hf : ⌊(n : ℚ) - 1 / 2⌋ = n - 1 := by
    rw [Int.floor_eq_iff]
    push_cast
    constructor <;> linarith
  have h3 : ¬ ((n : ℚ) - 1 / 2 - ((n - 1 : Int) : ℚ) < 1 / 2) := by
    push_cast
    linarith
  have h4 : ¬ (1 / 2 < (n : ℚ) - 1 / 2 - ((n - 1 : Int) : ℚ)) := by
    push_cast
    linarith
  have h5 : ¬ ((n - 1) % 2 = 0) := by omega
  simp only [roundHalfEven, hf, h3, h4, h5, if_false]
  ring

theorem roundHalfEven_nonneg {x : ℚ} (h : 0 ≤ x) : 0 ≤ roundHalfEven x := by
  have hf : 0 ≤ ⌊x⌋ := Int.floor_nonneg.mpr h
  unfold roundHalfEven
  simp only
  split_ifs <;> omega

theorem two_zpow_pos (u : Int) : (0 : ℚ) < (2 : ℚ) ^ u := by positivity

theorem roundBinary_nonneg (p : Nat) (emin : Int) {q : ℚ} (h : 0 ≤ q) :
    0 ≤ roundBinary p emin q := by
  unfold roundBinary
  simp only
  apply mul_nonneg
  · exact_mod_cast roundHalfEven_nonneg (div_nonneg h (two_zpow_pos _).le)
  · exact (two_zpow_pos _).le

theorem roundBinary_zero (p : Nat) (emin : Int) : roundBinary p emin 0 = 0 := by
  simp [roundBinary, roundHalfEven]

/-- A value `m * 2 ^ e` with `|m| < 2 ^ p` and `emin ≤ e` is in the format: it
rounds to itself. -/
theorem roundBinary_exact (p : Nat) (emin : Int) (m e : Int) (hm : |m| < 2 ^ p)
    (he : emin ≤ e) : roundBinary p emin ((m : ℚ) * (2 : ℚ) ^ e) = (m : ℚ) * (2 : ℚ) ^ e := by
  by_cases hm0 : m = 0
  · subst hm0
    simp [roundBinary_zero]
  have hq : (0 : ℚ) < |(m : ℚ) * (2 : ℚ) ^ e| := by
    rw [abs_pos]
    exact mul_ne_zero (by exact_mod_cast hm0) (two_zpow_pos e).ne'
  have hlog : Int.log 2 |(m : ℚ) * (2 : ℚ) ^ e| < e + p := by
    rw [← Int.lt_zpow_iff_log_lt (by norm_num) hq]
    rw [abs_mul, abs_of_pos (two_zpow_pos e), zpow_add₀ (by norm_num), mul_comm]
    apply mul_lt_mul_of_pos_left _ (two_zpow_pos e)
    have : ((|m| : Int) : ℚ) < ((2 ^ p : Int) : ℚ) := by exact_mod_cast hm
    simpa using this
  unfold roundBinary
  simp only
  set u : Int := max (Int.log 2 |(m : ℚ) * (2 : ℚ) ^ e| - (p - 1)) emin with hu
  have hue : u ≤ e := by
    rw [hu]
    apply max_le _ he
    omega
  obtain ⟨k, hk⟩ := Int.eq_ofNat_of_zero_le (sub_nonneg.mpr hue)
  have he' : e = u + k := by omega
  have hdiv : (m : ℚ) * (2 : ℚ) ^ e / (2 : ℚ) ^ u = ((m * 2 ^ k : Int) : ℚ) := by
    rw [he', zpow_add₀ (by norm_num), zpow_natCast]
    field_simp
    ring
  rw [hdiv, roundHalfEven_intCast, he', zpow_add₀ (by norm_num), zpow_natCast]
  push_cast
  ring

/-- Evaluation of a rounding: for `2 ^ L ≤ |q| < 2 ^ (L + 1)` in the normal
range, `q` rounds to `n` units in the last place when `n` is within half a unit
of `q`. -/
theorem roundBinary_eval (p : Nat) (emin : Int) (q : ℚ) (L n : Int)
    (h1 : (2 : ℚ) ^ L ≤ |q|) (h2 : |q| < (2 : ℚ) ^ (L + 1)) (he : emin ≤ L - (p - 1))
    (hn : |q / (2 : ℚ) ^ (L - (p - 1)) - n| < 1 / 2) :
    roundBinary p emin q = (n : ℚ) * (2 : ℚ) ^ (L - (p - 1)) := by
  have hq : (0 : ℚ) < |q| := lt_of_lt_of_le (two_zpow_pos L) h1
  have hlog : Int.log 2 |q| = L := by
    apply le_antisymm
    · have := (Int.lt_zpow_iff_log_lt (b := 2) (by norm_num) hq).mp (by exact_mod_cast h2)
      omega
    · exact (Int.zpow_le_iff_le_log (b := 2) (by norm_num) hq).mp (by exact_mod_cast h1)
  unfold roundBinary
  simp only
  rw [hlog, max_eq_left he, roundHalfEven_eq_of_near _ n hn]

theorem roundHalfEven_sub_le (x : ℚ) : |(roundHalfEven x : ℚ) - x| ≤ 1 / 2 := by
  have h1 := Int.floor_le x
  have h2 := Int.lt_floor_add_one x
  unfold roundHalfEven
  simp only
  rw [abs_le]
  split_ifs with ha hb hc
  · constructor <;> linarith
  · push_cast
    constructor <;> linarith
  · constructor <;> linarith
  · push_cast
    constructor <;> linarith

/-- What a rounding returns is in the format: `n * 2 ^ u` with `|n| ≤ 2 ^ p`
and `emin ≤ u`. -/
theorem roundBinary_repr (p : Nat) (emin : Int) (q : ℚ) :
    ∃ n u : Int, roundBinary p emin q = (n : ℚ) * (2 : ℚ) ^ u ∧ |n| ≤ 2 ^ p ∧ emin ≤ u := by
  set u : Int := max (Int.log 2 |q| - (p - 1)) emin with hu
  refine ⟨roundHalfEven (q / (2 : ℚ) ^ u), u, rfl, ?_, le_max_right _ _⟩
  have hlt : |q| < (2 : ℚ) ^ (Int.log 2 |q| + 1) := by
    exact_mod_cast Int.lt_zpow_succ_log_self (b := 2) (by norm_num) |q|
  have hle : (2 : ℚ) ^ (Int.log 2 |q| + 1) ≤ (2 : ℚ) ^ (u + p) := by
    apply zpow_le_zpow_right₀ (by norm_num)
    have := le_max_left (Int.log 2 |q| - (p - 1)) emin
    omega
  have habs : |q / (2 : ℚ) ^ u| < (2 : ℚ) ^ (p : Int) := by
    rw [abs_div, abs_of_pos (two_zpow_pos u), div_lt_iff₀ (two_zpow_pos u),
      ← zpow_add₀ (by norm_num), add_comm]
    exact lt_of_lt_of_le hlt hle
  rw [zpow_natCast] at habs
  have hnear := roundHalfEven_sub_le (q / (2 : ℚ) ^ u)
  have htri : |(roundHalfEven (q / (2 : ℚ) ^ u) : ℚ)| ≤
      |(roundHalfEven (q / (2 : ℚ) ^ u) : ℚ) - q / (2 : ℚ) ^ u| + |q / (2 : ℚ) ^ u| := by
    have := abs_add ((roundHalfEven (q / (2 : ℚ) ^ u) : ℚ) - q / (2 : ℚ) ^ u)
      (q / (2 : ℚ) ^ u)
    simpa using this
  have hq : ((|roundHalfEven (q / (2 : ℚ) ^ u)| : Int) : ℚ) < ((2 ^ p + 1 : Int) : ℚ) := by
    push_cast
    linarith
  have : |roundHalfEven (q / (2 : ℚ) ^ u)| < 2 ^ p + 1 := by exact_mod_cast hq
  omega

/-- Rounding is idempotent: a rounded value is in the format. -/
theorem roundBinary_idem (p : Nat) (emin : Int) (hp : 1 ≤ p) (q : ℚ) :
    roundBinary p emin (roundBinary p emin q) = roundBinary p emin q := by
  obtain ⟨n, u, hr, hn, hu⟩ := roundBinary_repr p emin q
  rw [hr]
  rcases lt_or_eq_of_le hn with hlt | heq
  · exact roundBinary_exact p emin n u hlt hu
  · have hone : |(1 : Int)| < 2 ^ p := by
      rw [abs_one]
      exact one_lt_pow₀ (by norm_num) (by omega)
    have hmone : |(-1 : Int)| < 2 ^ p := by
      rw [abs_neg]
      exact hone
    have hpow : ((2 : ℚ) ^ p) * (2 : ℚ) ^ u = (2 : ℚ) ^ (u + p) := by
      rw [zpow_add₀ (by norm_num), zpow_natCast]
      ring
    rcases abs_eq (by positivity : (0 : Int) ≤ 2 ^ p) |>.mp heq with h | h
    · have e1 : (n : ℚ) * (2 : ℚ) ^ u = ((1 : Int) : ℚ) * (2 : ℚ) ^ (u + p) := by
        rw [h]
        push_cast
        rw [hpow]
        ring
      rw [e1]
      exact roundBinary_exact p emin 1 (u + p) hone (by omega)
    · have e1 : (n : ℚ) * (2 : ℚ) ^ u = ((-1 : Int) : ℚ) * (2 : ℚ) ^ (u + p) := by
        rw [h]
        push_cast
        rw [← hpow]
        ring
      rw [e1]
      exact roundBinary_exact p emin (-1) (u + p) hmone (by omega)

/-- A value narrowed to `float` is a `float`. -/
theorem toFloat_idem (q : ℚ) : toFloat (toFloat q) = toFloat q :=
  roundBinary_idem 24 (-149) (by norm_num) q

/-- Evaluation of a rounding to `double` at a tie: a positive `q` in the
normal range that lies halfway below `n` units in the last place, `n` even,
goes to `n` units. -/
theorem toDouble_eval_tie (q r : ℚ) (L n : Int) (h1 : (2 : ℚ) ^ L ≤ q)
    (h2 : q < (2 : ℚ) ^ (L + 1)) (he : -1022 ≤ L)
    (hx : q / (2 : ℚ) ^ (L - 52) = (n : ℚ) - 1 / 2) (hn : n % 2 = 0)
    (hr : r = (n : ℚ) * (2 : ℚ) ^ (L - 52)) : toDouble q = r := by
  have hq : 0 < q := lt_of_lt_of_le (two_zpow_pos L) h1
  have hlog : Int.log 2 |q| = L := by
    rw [abs_of_pos hq]
    apply le_antisymm
    · have := (Int.lt_zpow_iff_log_lt (b := 2) (by norm_num) hq).mp (by exact_mod_cast h2)
      omega
    · exact (Int.zpow_le_iff_le_log (b := 2) (by norm_num) hq).mp (by exact_mod_cast h1)
  have hu : max (L - ((53 : Nat) - 1 : Int)) (-1074) = L - 52 := by
    rw [max_eq_left (by push_cast; omega)]
    push_cast
    ring
  unfold toDouble roundBinary
  simp only
  rw [hlog, hu, hx, roundHalfEven_tie_up n hn, hr]

theorem toFloat_zero : toFloat 0 = 0 :=
  roundBinary_zero _ _

theorem toDouble_zero : toDouble 0 = 0 :=
  roundBinary_zero _ _

theorem toFloat_nonneg {q : ℚ} (h : 0 ≤ q) : 0 ≤ toFloat q :=
  roundBinary_nonneg _ _ h

theorem toDouble_nonneg {q : ℚ} (h : 0 ≤ q) : 0 ≤ toDouble q :=
  roundBinary_nonneg _ _ h

/-- A value `m * 2 ^ e` with `|m| < 2 ^ 24` is a `float`. -/
theorem toFloat_of_repr (q : ℚ) (m e : Int) (hq : q = (m : ℚ) * (2 : ℚ) ^ e)
    (hm : |m| < 2 ^ 24) (he : -149 ≤ e) : toFloat q = q := by
  rw [hq]
  exact roundBinary_exact 24 (-149) m e hm he

/-- A value `m * 2 ^ e` with `|m| < 2 ^ 53` is a `double`. -/
theorem toDouble_of_repr (q : ℚ) (m e : Int) (hq : q = (m : ℚ) * (2 : ℚ) ^ e)
    (hm : |m| < 2 ^ 53) (he : -1074 ≤ e) : toDouble q = q := by
  rw [hq]
  exact roundBinary_exact 53 (-1074) m e hm he

/-- Integers below `2 ^ 24` in magnitude are `float` values. -/
theorem toFloat_intCast (z : Int) (h : |z| < 2 ^ 24) : toFloat (z : ℚ) = z :=
  toFloat_of_repr _ z 0 (by simp) h (by norm_num)

/-- Integers below `2 ^ 53` in magnitude are `double` values. -/
theorem toDouble_intCast (z : Int) (h : |z| < 2 ^ 53) : toDouble (z : ℚ) = z :=
  toDouble_of_repr _ z 0 (by simp) h (by norm_num)

/-- Every `float` value is a `double` value. -/
theorem toDouble_of_toFloat {q : ℚ} (h : toFloat q = q) : toDouble q = q := by
  obtain ⟨n, u, hq, hn, hu⟩ := roundBinary_repr 24 (-149) q
  refine toDouble_of_repr q n u (h.symm.trans hq) ?_ (by omega)
  calc |n| ≤ 2 ^ 24 := hn
    _ < 2 ^ 53 := by norm_num

/-- Evaluation of a conversion to `float` at a positive value in the normal
range: `q` in `[2 ^ L, 2 ^ (L + 1))` goes to `n` units in the last place when
`n` is within half a unit of `q`. -/
theorem toFloat_eval (q r : ℚ) (L n : Int) (h1 : (2 : ℚ) ^ L ≤ q)
    (h2 : q < (2 : ℚ) ^ (L + 1)) (he : -126 ≤ L)
    (hlo : (n : ℚ) - 1 / 2 < q / (2 : ℚ) ^ (L - 23))
    (hhi : q / (2 : ℚ) ^ (L - 23) < (n : ℚ) + 1 / 2)
    (hr : r = (n : ℚ) * (2 : ℚ) ^ (L - 23)) : toFloat q = r := by
  have hq : 0 < q := lt_of_lt_of_le (two_zpow_pos L) h1
  have := roundBinary_eval 24 (-149) q L n (by rwa [abs_of_pos hq]) (by rwa [abs_of_pos hq])
    (by push_cast; omega)
    (by rw [abs_lt]; push_cast; constructor <;> linarith)
  rw [hr]
  simpa using this

/-- Evaluation of a rounding to `double` at a positive value in the normal
range. -/
theorem toDouble_eval (q r : ℚ) (L n : Int) (h1 : (2 : ℚ) ^ L ≤ q)
    (h2 : q < (2 : ℚ) ^ (L + 1)) (he : -1022 ≤ L)
    (hlo : (n : ℚ) - 1 / 2 < q / (2 : ℚ) ^ (L - 52))
    (hhi : q / (2 : ℚ) ^ (L - 52) < (n : ℚ) + 1 / 2)
    (hr : r = (n : ℚ) * (2 : ℚ) ^ (L - 52)) : toDouble q = r := by
  have hq : 0 < q := lt_of_lt_of_le (two_zpow_pos L) h1
  have := roundBinary_eval 53 (-1074) q L n (by rwa [abs_of_pos hq]) (by rwa [abs_of_pos hq])
    (by push_cast; omega)
    (by rw [abs_lt]; push_cast; constructor <;> linarith)
  rw [hr]
  simpa using this

/-! ## Row geometry -/

theorem rowHeight_of_getElem? {snapshot : Snapshot} {i : Nat} {row : MessageLayout}
    (h : snapshot[i]? = some row) : rowHeight snapshot i = row.getHeight := by
  simp [rowHeight, h]

theorem rowHeight_of_le {snapshot : Snapshot} {i : Nat} (h : snapshot.length ≤ i) :
    rowHeight snapshot i = 0 := by
  simp [rowHeight, List.getElem?_eq_none h]

theorem getElem?_of_lt {snapshot : Snapshot} {i : Nat} (h : i < snapshot.length) :
    ∃ row, snapshot[i]? = some row ∧ row ∈ snapshot :=
  ⟨snapshot[i], List.getElem?_eq_getElem h, List.getElem_mem h⟩

theorem rowTop_zero (snapshot : Snapshot) : rowTop snapshot 0 = 0 := by
  simp [rowTop]

theorem rowTop_succ (snapshot : Snapshot) (i : Nat) :
    rowTop snapshot (i + 1) = rowTop snapshot i + rowHeight snapshot i := by
  induction snapshot generalizing i with
  | nil => simp [rowTop, rowHeight]
  | cons a t ih =>
    cases i with
    | zero => simp [rowTop, rowHeight]
    | succ k =>
      have := ih k
      simp only [rowTop, rowHeight, List.take_succ_cons, List.map_cons, List.sum_cons,
        List.getElem?_cons_succ] at this ⊢
      omega

theorem rowTop_of_le {snapshot : Snapshot} {i : Nat} (h : snapshot.length ≤ i) :
    rowTop snapshot i = totalHeight snapshot := by
  simp [rowTop, totalHeight, List.take_of_length_le h]

/-! ## Pixel offsets -/

theorem floor_add_fract_nat {d : ℚ} (h : 0 ≤ d) : ((⌊d⌋₊ : ℕ) : ℚ) + Int.fract d = d := by
  have h1 : ((⌊d⌋₊ : ℕ) : ℚ) = ((⌊d⌋ : ℤ) : ℚ) := by
    rw [← Int.floor_toNat]
    have : (0 : ℤ) ≤ ⌊d⌋ := Int.floor_nonneg.mpr h
    exact_mod_cast congrArg (fun z : ℤ => (z : ℚ)) (Int.toNat_of_nonneg this)
  rw [h1]
  exact Int.floor_add_fract d

/-! ## The backward walk is exact on whole-pixel extents -/

theorem wheelWalk_entry {snapshot : Snapshot} {d : ℚ} (h0 : 0 ≤ d)
    (hlen : ⌊d⌋₊ < snapshot.length) :
    ∃ row, snapshot[⌊d⌋₊]? = some row ∧
      wheelWalk snapshot d = fun delta =>
        if delta > 0 then
          wheelUpLoop snapshot ⌊d⌋₊ delta d (Int.fract d)
            (truncQ (Int.fract d * row.getHeight))
        else
          wheelDownLoop snapshot ⌊d⌋₊ (-delta) d (1 - Int.fract d)
            (truncQ ((1 - Int.fract d) * row.getHeight)) := by
  obtain ⟨row, hrow, -⟩ := getElem?_of_lt hlen
  refine ⟨row, hrow, ?_⟩
  funext delta
  have hfl0 : (0 : ℤ) ≤ ⌊d⌋ := Int.floor_nonneg.mpr h0
  have htn : ⌊d⌋.toNat = ⌊d⌋₊ := Int.floor_toNat d
  have hlt : ⌊d⌋ < (snapshot.length : ℤ) := by
    have : (⌊d⌋.toNat : ℤ) < snapshot.length := by rw [htn]; exact_mod_cast hlen
    rwa [Int.toNat_of_nonneg hfl0] at this
  have hmin : min (truncQ d) (snapshot.length : ℤ) = ⌊d⌋ := by
    rw [truncQ_of_nonneg h0]; exact min_eq_left hlt.le
  simp only [wheelWalk, hmin, htn, hrow, fmod1_of_nonneg h0, if_neg (not_lt.mpr hfl0)]

theorem rowHeight_nonneg {snapshot : Snapshot}
    (hpos : ∀ row ∈ snapshot, 0 < row.getHeight) (i : Nat) : 0 ≤ rowHeight snapshot i := by
  rcases Nat.lt_or_ge i snapshot.length with h | h
  · obtain ⟨row, hrow, hmem⟩ := getElem?_of_lt h
    rw [rowHeight_of_getElem? hrow]
    exact (hpos row hmem).le
  · rw [rowHeight_of_le h]

theorem rowHeight_pos {snapshot : Snapshot}
    (hpos : ∀ row ∈ snapshot, 0 < row.getHeight) {i : Nat} (h : i < snapshot.length) :
    0 < rowHeight snapshot i := by
  obtain ⟨row, hrow, hmem⟩ := getElem?_of_lt h
  rw [rowHeight_of_getElem? hrow]
  exact hpos row hmem

theorem rowTop_mono {snapshot : Snapshot}
    (hpos : ∀ row ∈ snapshot, 0 < row.getHeight) {i j : Nat} (hij : i ≤ j) :
    rowTop snapshot i ≤ rowTop snapshot j := by
  induction j with
  | zero =>
    have : i = 0 := by omega
    rw [this]
  | succ k ih =>
    rcases Nat.lt_or_ge i (k + 1) with h | h
    · have := ih (by omega)
      have hk := rowHeight_nonneg hpos k
      rw [rowTop_succ]
      omega
    · have : i = k + 1 := by omega
      rw [this]

theorem rowTop_nonneg {snapshot : Snapshot}
    (hpos : ∀ row ∈ snapshot, 0 < row.getHeight) (i : Nat) : 0 ≤ rowTop snapshot i := by
  have := rowTop_mono hpos (Nat.zero_le i)
  rwa [rowTop_zero] at this

theorem pixelPos_nonneg {snapshot : Snapshot}
    (hpos : ∀ row ∈ snapshot, 0 < row.getHeight) (d : ℚ) : 0 ≤ pixelPos snapshot d := by
  have h1 : (0 : ℚ) ≤ rowTop snapshot ⌊d⌋₊ := by exact_mod_cast rowTop_nonneg hpos _
  have h2 : (0 : ℚ) ≤ rowHeight snapshot ⌊d⌋₊ := by exact_mod_cast rowHeight_nonneg hpos _
  have := mul_nonneg (Int.fract_nonneg d) h2
  unfold pixelPos
  linarith

theorem pixelPos_strictMono {snapshot : Snapshot}
    (hpos : ∀ row ∈ snapshot, 0 < row.getHeight) {x y : ℚ} (hx : 0 ≤ x) (hxy : x < y)
    (hy : y ≤ snapshot.length) : pixelPos snapshot x < pixelPos snapshot y := by
  have hy0 : 0 ≤ y := hx.trans hxy.le
  have hfx := floor_add_fract_nat hx
  have hfy := floor_add_fract_nat hy0
  have hij : ⌊x⌋₊ ≤ ⌊y⌋₊ := Nat.floor_mono hxy.le
  have hilen : ⌊x⌋₊ < snapshot.length := by
    have h1 : x < snapshot.length := lt_of_lt_of_le hxy hy
    exact (Nat.floor_lt hx).mpr h1
  have hhi : (0 : ℚ) < rowHeight snapshot ⌊x⌋₊ := by exact_mod_cast rowHeight_pos hpos hilen
  have hhj : (0 : ℚ) ≤ rowHeight snapshot ⌊y⌋₊ := by exact_mod_cast rowHeight_nonneg hpos _
  rcases Nat.lt_or_ge ⌊x⌋₊ ⌊y⌋₊ with hlt | hge
  · have h1 : (rowTop snapshot (⌊x⌋₊ + 1) : ℚ) ≤ rowTop snapshot ⌊y⌋₊ := by
      exact_mod_cast rowTop_mono hpos (Nat.succ_le_of_lt hlt)
    have h2 : (rowTop snapshot (⌊x⌋₊ + 1) : ℚ) =
        rowTop snapshot ⌊x⌋₊ + rowHeight snapshot ⌊x⌋₊ := by
      exact_mod_cast rowTop_succ snapshot ⌊x⌋₊
    have h3 : Int.fract x * rowHeight snapshot ⌊x⌋₊ < rowHeight snapshot ⌊x⌋₊ := by
      have := Int.fract_lt_one x
      nlinarith
    have h4 := mul_nonneg (Int.fract_nonneg y) hhj
    unfold pixelPos
    linarith
  · have heq : ⌊x⌋₊ = ⌊y⌋₊ := le_antisymm hij hge
    have hfr : Int.fract x < Int.fract y := by
      rw [heq] at hfx
      linarith
    unfold pixelPos
    rw [← heq]
    have := mul_lt_mul_of_pos_right hfr hhi
    linarith

theorem pixelPos_injOn {snapshot : Snapshot}
    (hpos : ∀ row ∈ snapshot, 0 < row.getHeight) {x y : ℚ} (hx : 0 ≤ x)
    (hxl : x ≤ snapshot.length) (hy : 0 ≤ y) (hyl : y ≤ snapshot.length)
    (h : pixelPos snapshot x = pixelPos snapshot y) : x = y := by
  rcases lt_trichotomy x y with hlt | heq | hgt
  · exact absurd h (pixelPos_strictMono hpos hx hlt hyl).ne
  · exact heq
  · exact absurd h.symm (pixelPos_strictMono hpos hy hgt hxl).ne

/-! ## Evaluation helpers for concrete positions -/

theorem natFloor_eq_of (q : ℚ) (n : Nat) (h1 : (n : ℚ) ≤ q) (h2 : q < n + 1) : ⌊q⌋₊ = n :=
  (Nat.floor_eq_iff ((Nat.cast_nonneg n).trans h1)).mpr ⟨h1, h2⟩

theorem fract_eq_of (q : ℚ) (n : Nat) (h1 : (n : ℚ) ≤ q) (h2 : q < n + 1) :
    Int.fract q = q - n :=
  Int.fract_eq_iff.mpr ⟨by linarith, by linarith, n, by simp⟩

theorem wheelWalk_eval_up (snapshot : Snapshot) (d delta : ℚ) (n : Nat) (row : MessageLayout)
    (h1 : (n : ℚ) ≤ d) (h2 : d < n + 1) (hrow : snapshot[n]? = some row) (hD : 0 < delta) :
    wheelWalk snapshot d delta =
      wheelUpLoop snapshot n delta d (d - n) (truncQ ((d - n) * row.getHeight)) := by
  have h0 : 0 ≤ d := (Nat.cast_nonneg n).trans h1
  have hn := natFloor_eq_of d n h1 h2
  have hlen : ⌊d⌋₊ < snapshot.length := by
    rw [hn]
    by_contra hc
    rw [List.getElem?_eq_none (not_lt.mp hc)] at hrow
    exact Option.noConfusion hrow
  obtain ⟨row2, hrow2, hw⟩ := wheelWalk_entry h0 hlen
  rw [hn, hrow] at hrow2
  cases hrow2
  rw [hw, hn, fract_eq_of d n h1 h2]
  simp only [gt_iff_lt, if_pos hD]

theorem wheelWalk_eval_down (snapshot : Snapshot) (d delta : ℚ) (n : Nat)
    (row : MessageLayout) (h1 : (n : ℚ) ≤ d) (h2 : d < n + 1) (hrow : snapshot[n]? = some row)
    (hD : delta ≤ 0) :
    wheelWalk snapshot d delta =
      wheelDownLoop snapshot n (-delta) d (1 - (d - n))
        (truncQ ((1 - (d - n)) * row.getHeight)) := by
  have h0 : 0 ≤ d := (Nat.cast_nonneg n).trans h1
  have hn := natFloor_eq_of d n h1 h2
  have hlen : ⌊d⌋₊ < snapshot.length := by
    rw [hn]
    by_contra hc
    rw [List.getElem?_eq_none (not_lt.mp hc)] at hrow
    exact Option.noConfusion hrow
  obtain ⟨row2, hrow2, hw⟩ := wheelWalk_entry h0 hlen
  rw [hn, hrow] at hrow2
  cases hrow2
  rw [hw, hn, fract_eq_of d n h1 h2]
  simp only [gt_iff_lt, if_neg (not_lt.mpr hD)]

/-- One turn of the forward loop that stops inside the current row. -/
theorem wheelDownLoop_stop (snapshot : Snapshot) (i : Nat) (delta desired sf csl : ℚ)
    (hi : i < snapshot.length) (hlt : delta < csl) :
    wheelDownLoop snapshot i delta desired sf csl = some (desired + sf * (delta / csl)) := by
  rw [wheelDownLoop, if_pos hi, if_pos hlt]

/-- One turn of the forward loop that consumes the current row and moves on. -/
theorem wheelDownLoop_next (snapshot : Snapshot) (i : Nat) (delta desired sf csl : ℚ)
    (next : MessageLayout) (hnext : snapshot[i + 1]? = some next) (hge : csl ≤ delta) :
    wheelDownLoop snapshot i delta desired sf csl =
      wheelDownLoop snapshot (i + 1) (delta - csl) (desired + sf) 1 next.getHeight := by
  have hi1 : i + 1 < snapshot.length := by
    by_contra hc
    rw [List.getElem?_eq_none (not_lt.mp hc)] at hnext
    exact Option.noConfusion hnext
  have hne : ¬ i = snapshot.length - 1 := by omega
  rw [wheelDownLoop, if_pos (by omega), if_neg (not_lt.mpr hge), if_neg hne]
  simp only [hnext]

/-- The turn of the forward loop that consumes the last row. -/
theorem wheelDownLoop_last (snapshot : Snapshot) (i : Nat) (delta desired sf csl : ℚ)
    (hi : i + 1 = snapshot.length) (hge : csl ≤ delta) :
    wheelDownLoop snapshot i delta desired sf csl = some (snapshot.length : ℚ) := by
  have hnot : ¬ (i + 1 < snapshot.length) := by omega
  rw [wheelDownLoop, if_pos (by omega), if_neg (not_lt.mpr hge), if_pos (by omega),
    wheelDownLoop, if_neg hnot]

/-! ## Uniform row heights -/

theorem getMessagesSnapshot_selection (view : ChannelView) :
    view.getMessagesSnapshot.1.selection = view.selection := by
  unfold ChannelView.getMessagesSnapshot
  split <;> rfl

theorem actuallyLayoutMessages_selection (settings : Settings) (view : ChannelView) :
    (ChannelView.actuallyLayoutMessages settings view).selection = view.selection := by
  have h := getMessagesSnapshot_selection view
  unfold ChannelView.actuallyLayoutMessages
  simp only
  split_ifs <;> exact h

theorem layoutMessages_selection (settings : Settings) (view : ChannelView) :
    (ChannelView.layoutMessages settings view).selection = view.selection :=
  actuallyLayoutMessages_selection settings view

theorem selection_after_removal (settings : Settings) (view : ChannelView) :
    (ChannelView.messageRemovedFromStart settings view).selection =
      { start := ⟨view.selection.start.messageIndex - 1, view.selection.start.charIndex⟩
        end_ := ⟨view.selection.end_.messageIndex - 1, view.selection.end_.charIndex⟩
        min := ⟨view.selection.min.messageIndex - 1, view.selection.min.charIndex⟩
        max := ⟨view.selection.max.messageIndex - 1, view.selection.max.charIndex⟩ } := by
  unfold ChannelView.messageRemovedFromStart
  rw [layoutMessages_selection]

theorem selection_after_removals (settings : Settings) (n : Nat)
    (view : ChannelView) :
    ((ChannelView.messageRemovedFromStart settings)^[n] view).selection =
      { start := ⟨view.selection.start.messageIndex - n, view.selection.start.charIndex⟩
        end_ := ⟨view.selection.end_.messageIndex - n, view.selection.end_.charIndex⟩
        min := ⟨view.selection.min.messageIndex - n, view.selection.min.charIndex⟩
        max := ⟨view.selection.max.messageIndex - n, view.selection.max.charIndex⟩ } := by
  induction n generalizing view with
  | zero => simp
  | succ k ih =>
    rw [Function.iterate_succ_apply, ih, selection_after_removal]
    simp only [Selection.mk.injEq, SelectionItem.mk.injEq, and_true]
    push_cast
    refine ⟨?_, ?_, ?_, ?_⟩ <;> ring

/-! ## The thumb-sizing pass and the scrollbar's visibility -/

theorem rowHeight_nonneg_of_nonneg {snapshot : Snapshot}
    (hnn : ∀ row ∈ snapshot, 0 ≤ row.getHeight) (i : Nat) : 0 ≤ rowHeight snapshot i := by
  rcases Nat.lt_or_ge i snapshot.length with h | h
  · obtain ⟨row, hrow, hmem⟩ := getElem?_of_lt h
    rw [rowHeight_of_getElem? hrow]
    exact hnn row hmem
  · rw [rowHeight_of_le h]

theorem rowTop_nonneg_of_nonneg {snapshot : Snapshot}
    (hnn : ∀ row ∈ snapshot, 0 ≤ row.getHeight) (i : Nat) : 0 ≤ rowTop snapshot i := by
  induction i with
  | zero => rw [rowTop_zero]
  | succ k ih =>
    have := rowHeight_nonneg_of_nonneg hnn k
    rw [rowTop_succ]
    omega

theorem thumbLoop_eq_none_iff (snapshot : Snapshot)
    (hnn : ∀ row ∈ snapshot, 0 ≤ row.getHeight) :
    ∀ (k : Nat) (h : Int), k ≤ snapshot.length → 0 ≤ h →
      (ChannelView.thumbLoop snapshot k h = none ↔ rowTop snapshot k ≤ h) := by
  intro k
  induction k with
  | zero =>
    intro h _ h0
    simp [ChannelView.thumbLoop, rowTop_zero, h0]
  | succ i ih =>
    intro h hk h0
    obtain ⟨message, hmsg, -⟩ := getElem?_of_lt (Nat.lt_of_succ_le hk)
    have htop := rowTop_succ snapshot i
    have hrh := rowHeight_of_getElem? hmsg
    have hti := rowTop_nonneg_of_nonneg hnn i
    unfold ChannelView.thumbLoop
    simp only [hmsg]
    by_cases hneg : h - message.getHeight < 0
    · rw [if_pos hneg]
      constructor
      · intro hc
        exact Option.noConfusion hc
      · intro hle
        omega
    · rw [if_neg hneg, ih (h - message.getHeight) (by omega) (by omega)]
      omega

theorem thumbLoop_isSome_iff (snapshot : Snapshot)
    (hnn : ∀ row ∈ snapshot, 0 ≤ row.getHeight) (hne : snapshot ≠ []) (h : Int) :
    (ChannelView.thumbLoop snapshot snapshot.length h).isSome = true ↔
      h < totalHeight snapshot := by
  have hlen : 0 < snapshot.length := List.length_pos.mpr hne
  have htot : rowTop snapshot snapshot.length = totalHeight snapshot := rowTop_of_le (le_refl _)
  rcases lt_or_le h 0 with hneg | h0
  · obtain ⟨i, hi⟩ : ∃ i, snapshot.length = i + 1 := ⟨snapshot.length - 1, by omega⟩
    obtain ⟨message, hmsg, hmem⟩ := getElem?_of_lt (show i < snapshot.length by omega)
    have hm := hnn message hmem
    have htn := rowTop_nonneg_of_nonneg hnn snapshot.length
    have hstep : ChannelView.thumbLoop snapshot (i + 1) h =
        some (((snapshot.length - i : Nat) : ℚ) +
          ((h - message.getHeight : Int) : ℚ) / message.getHeight) := by
      unfold ChannelView.thumbLoop
      simp only [hmsg]
      rw [if_pos (by omega)]
    rw [hi, hstep]
    simp only [Option.isSome_some, true_iff]
    omega
  · have := thumbLoop_eq_none_iff snapshot hnn snapshot.length h (le_refl _) h0
    rw [htot] at this
    rw [Option.isSome_iff_ne_none, Ne, this]
    omega

@[simp] theorem setDesiredValue_visible (sb : Scrollbar) (v : ℚ) (a : Bool) :
    (sb.setDesiredValue v a).visible = sb.visible := by
  unfold Scrollbar.setDesiredValue
  split <;> rfl

@[simp] theorem scrollToBottom_visible (sb : Scrollbar) (a : Bool) :
    (sb.scrollToBottom a).visible = sb.visible := by
  simp [Scrollbar.scrollToBottom]

theorem actuallyLayoutMessages_visible (settings : Settings) (view : ChannelView)
    (hne : view.getMessagesSnapshot.2 ≠ []) :
    (ChannelView.actuallyLayoutMessages settings view).scrollBar.visible =
      (ChannelView.thumbLoop view.getMessagesSnapshot.2 view.getMessagesSnapshot.2.length
        (view.height - 8)).isSome := by
  have hh : view.getMessagesSnapshot.1.height = view.height := by
    unfold ChannelView.getMessagesSnapshot
    split <;> rfl
  have hlen : ¬ view.getMessagesSnapshot.2.length = 0 := by
    simpa [List.length_eq_zero] using hne
  unfold ChannelView.actuallyLayoutMessages
  simp only [hlen, if_false, hh]
  split_ifs <;>
    simp [Scrollbar.setVisible, Scrollbar.setMaximum]

theorem scrollBar_hidden_iff_fits (settings : Settings) (view : ChannelView)
    (hne : view.getMessagesSnapshot.2 ≠ [])
    (hnn : ∀ row ∈ view.getMessagesSnapshot.2, 0 ≤ row.getHeight) :
    (ChannelView.actuallyLayoutMessages settings view).scrollBar.visible = false ↔
      totalHeight view.getMessagesSnapshot.2 ≤ view.height - 8 := by
  rw [actuallyLayoutMessages_visible settings view hne, ← not_lt,
    ← thumbLoop_isSome_iff _ hnn hne (view.height - 8)]
  simp

/-! ## The painting pass and the on-screen set -/

theorem paintLoop_spec (viewHeight : Int) :
    ∀ (rows : List MessageLayout) (y : Int), rows ≠ [] →
      ∃ k, k < rows.length ∧ ChannelView.paintLoop viewHeight rows y = rows.take (k + 1) ∧
        (∀ j, j < k →
          y + ((rows.take (j + 1)).map MessageLayout.getHeight).sum ≤ viewHeight) ∧
        (viewHeight < y + ((rows.take (k + 1)).map MessageLayout.getHeight).sum ∨
          k + 1 = rows.length) := by
  intro rows
  induction rows with
  | nil => intro y h; exact absurd rfl h
  | cons a t ih =>
    intro y _
    unfold ChannelView.paintLoop
    by_cases hgt : y + a.getHeight > viewHeight
    · refine ⟨0, by simp, by simp [hgt], fun j hj => absurd hj (Nat.not_lt_zero j), Or.inl ?_⟩
      simpa using hgt
    · simp only [hgt, if_false]
      rcases t with _ | ⟨b, t'⟩
      · refine ⟨0, by simp, by simp [ChannelView.paintLoop],
          fun j hj => absurd hj (Nat.not_lt_zero j), Or.inr rfl⟩
      · obtain ⟨k, hk, hp, hbefore, hlast⟩ := ih (y + a.getHeight) (List.cons_ne_nil b t')
        refine ⟨k + 1, by simpa using hk, by rw [hp]; rfl, ?_, ?_⟩
        · intro j hj
          cases j with
          | zero => simpa using not_lt.mp hgt
          | succ j' =>
            have := hbefore j' (by omega)
            simp only [List.take_succ_cons, List.map_cons, List.sum_cons] at this ⊢
            omega
        · rcases hlast with h | h
          · left
            simp only [List.take_succ_cons, List.map_cons, List.sum_cons] at h ⊢
            omega
          · right
            simp only [List.length_cons] at h ⊢
            omega

theorem eraseLoop_mem :
    ∀ (rows : List MessageLayout) (onScreen : List Nat) (x : Nat),
      x ∈ ChannelView.eraseLoop rows onScreen ↔ x ∈ onScreen ∧ x ∉ rows.map MessageLayout.id := by
  intro rows
  induction rows with
  | nil => intro onScreen x; simp [ChannelView.eraseLoop]
  | cons a t ih =>
    intro onScreen x
    unfold ChannelView.eraseLoop
    rw [ih]
    simp only [List.mem_filter, decide_eq_true_eq, List.map_cons, List.mem_cons, not_or]
    tauto

theorem insertLoop_mem :
    ∀ (rows : List MessageLayout) (k : Nat) (onScreen : List Nat) (e : MessageLayout),
      rows[k]? = some e → (rows.map MessageLayout.id).Nodup → ∀ x,
        (x ∈ ChannelView.insertLoop e.id rows onScreen ↔
          x ∈ onScreen ∨ x ∈ (rows.take (k + 1)).map MessageLayout.id) := by
  intro rows
  induction rows with
  | nil => intro k onScreen e he; simp at he
  | cons a t ih =>
    intro k onScreen e he hnd x
    have hins : ∀ y, y ∈ (if a.id ∈ onScreen then onScreen else a.id :: onScreen) ↔
        y ∈ onScreen ∨ y = a.id := by
      intro y
      split_ifs with hmem
      · constructor
        · exact Or.inl
        · rintro (h | h)
          · exact h
          · rw [h]; exact hmem
      · simp only [List.mem_cons]; tauto
    unfold ChannelView.insertLoop
    cases k with
    | zero =>
      simp only [List.getElem?_cons_zero, Option.some.injEq] at he
      subst he
      simp only [if_true, hins, zero_add, List.take_succ_cons, List.take_zero, List.map_cons,
        List.map_nil, List.mem_singleton]
    | succ k' =>
      simp only [List.getElem?_cons_succ] at he
      simp only [List.map_cons, List.nodup_cons] at hnd
      have hne : a.id ≠ e.id := by
        intro heq
        apply hnd.1
        rw [heq]
        exact List.mem_map_of_mem _ (List.getElem?_mem he)
      simp only [hne, if_false]
      rw [ih k' _ e he hnd.2 x, hins]
      simp only [List.take_succ_cons, List.map_cons, List.mem_cons]
      tauto

theorem getMessagesSnapshot_fst_fields (view : ChannelView) :
    view.getMessagesSnapshot.1.scrollBar = view.scrollBar ∧
    view.getMessagesSnapshot.1.height = view.height ∧
    view.getMessagesSnapshot.1.messagesOnScreen = view.messagesOnScreen := by
  unfold ChannelView.getMessagesSnapshot
  split <;> exact ⟨rfl, rfl, rfl⟩

theorem drawMessages_eq (view : ChannelView) :
    (ChannelView.drawMessages view).view.messagesOnScreen =
        (ChannelView.drawPass view.getMessagesSnapshot.2 view.scrollBar.currentValue view.height
          view.messagesOnScreen).messagesOnScreen ∧
    (ChannelView.drawMessages view).painted =
        (ChannelView.drawPass view.getMessagesSnapshot.2 view.scrollBar.currentValue view.height
          view.messagesOnScreen).painted ∧
    (ChannelView.drawMessages view).buffersDeleted =
        (ChannelView.drawPass view.getMessagesSnapshot.2 view.scrollBar.currentValue view.height
          view.messagesOnScreen).buffersDeleted := by
  obtain ⟨h1, h2, h3⟩ := getMessagesSnapshot_fst_fields view
  refine ⟨?_, ?_, ?_⟩ <;> simp only [ChannelView.drawMessages, h1, h2, h3]

theorem drawPass_spec (snapshot : Snapshot) (current : ℚ) (viewHeight : Int)
    (onScreen : List Nat)
    (hstart : ChannelView.startRow current < snapshot.length)
    (hnodup : (snapshot.map MessageLayout.id).Nodup) :
    ∃ e, ChannelView.startRow current ≤ e ∧ e < snapshot.length ∧
      (∀ j, ChannelView.startRow current ≤ j → j < e → yAfter snapshot current j ≤ viewHeight) ∧
      (viewHeight < yAfter snapshot current e ∨ e + 1 = snapshot.length) ∧
      (ChannelView.drawPass snapshot current viewHeight onScreen).painted =
        ((snapshot.drop (ChannelView.startRow current)).take
          (e + 1 - ChannelView.startRow current)).map MessageLayout.id ∧
      (∀ x, x ∈ (ChannelView.drawPass snapshot current viewHeight onScreen).messagesOnScreen ↔
        x ∈ (ChannelView.drawPass snapshot current viewHeight onScreen).painted) ∧
      (∀ x ∈ (ChannelView.drawPass snapshot current viewHeight onScreen).messagesOnScreen,
        x ∉ (ChannelView.drawPass snapshot current viewHeight onScreen).buffersDeleted) := by
  obtain ⟨first, hfirst, -⟩ := getElem?_of_lt hstart
  have hrh := rowHeight_of_getElem? hfirst
  have hrows : snapshot.drop (ChannelView.startRow current) ≠ [] := by
    intro h
    have := congrArg List.length h
    simp only [List.length_drop, List.length_nil] at this
    omega
  obtain ⟨k, hk, hp, hbefore, hlast⟩ := paintLoop_spec viewHeight _
    (truncQ (-(toDouble ((first.getHeight : ℚ) * fmod1 current)))) hrows
  have hklen : k < snapshot.length - ChannelView.startRow current := by
    simpa [List.length_drop] using hk
  obtain ⟨endLayout, hend, -⟩ := getElem?_of_lt hk
  have hgl : (ChannelView.paintLoop viewHeight (snapshot.drop (ChannelView.startRow current))
      (truncQ (-(toDouble ((first.getHeight : ℚ) * fmod1 current))))).getLast? = some endLayout := by
    rw [hp, List.getLast?_take]
    simp [hend]
  have hnd : ((snapshot.drop (ChannelView.startRow current)).map MessageLayout.id).Nodup :=
    hnodup.sublist ((List.drop_sublist _ _).map _)
  have hpass : ChannelView.drawPass snapshot current viewHeight onScreen =
      ⟨ChannelView.insertLoop endLayout.id (snapshot.drop (ChannelView.startRow current)) [],
        ((snapshot.drop (ChannelView.startRow current)).take (k + 1)).map MessageLayout.id,
        ChannelView.eraseLoop (snapshot.drop (ChannelView.startRow current)) onScreen⟩ := by
    rw [hp] at hgl
    unfold ChannelView.drawPass
    simp only [ge_iff_le, not_le.mpr hstart, if_false, hfirst, hp, hgl]
  have hmem := insertLoop_mem _ k [] endLayout hend hnd
  rw [hpass]
  refine ⟨ChannelView.startRow current + k, by omega, by omega, ?_, ?_, ?_, ?_, ?_⟩
  · intro j hj hjk
    have := hbefore (j - ChannelView.startRow current) (by omega)
    have e1 : j - ChannelView.startRow current + 1 = j + 1 - ChannelView.startRow current := by
      omega
    rw [e1] at this
    unfold yAfter
    rw [hrh]
    exact this
  · rcases hlast with h | h
    · left
      have e1 : k + 1 =
          ChannelView.startRow current + k + 1 - ChannelView.startRow current := by omega
      rw [e1] at h
      unfold yAfter
      rw [hrh]
      exact h
    · right
      simp only [List.length_drop] at h
      omega
  · have e1 : ChannelView.startRow current + k + 1 - ChannelView.startRow current = k + 1 := by
      omega
    rw [e1]
  · intro x
    rw [hmem x]
    simp
  · intro x hx hdel
    have h1 := (hmem x).mp hx
    have h2 := (eraseLoop_mem _ _ x).mp hdel
    rcases h1 with h1 | h1
    · simp at h1
    · apply h2.2
      obtain ⟨row, hrow, hid⟩ := List.mem_map.mp h1
      exact List.mem_map.mpr ⟨row, List.mem_of_mem_take hrow, hid⟩

theorem scrolledUpView_drawPass :
    ChannelView.drawPass scrolledUpView.getMessagesSnapshot.2
        scrolledUpView.scrollBar.currentValue scrolledUpView.height
        scrolledUpView.messagesOnScreen =
      ⟨[9, 8, 7, 6, 5, 4, 3], [3, 4, 5, 6, 7, 8, 9], []⟩ := by
  have t3 : truncQ 3 = 3 := truncQ_intCast 3
  have t0 : truncQ 0 = 0 := truncQ_intCast 0
  have hs : ChannelView.startRow 3 = 3 := by simp [ChannelView.startRow, t3]
  have hf : fmod1 3 = 0 := by simp [fmod1, t3]
  have hsnap : scrolledUpView.getMessagesSnapshot.2 =
      rowsOfHeights [10, 10, 10, 10, 10, 10, 10, 10, 10, 10, 10, 10] := rfl
  have hcur : scrolledUpView.scrollBar.currentValue = 3 := rfl
  have hh : scrolledUpView.height = 65 := rfl
  have hon : scrolledUpView.messagesOnScreen = [5, 6, 7, 8, 9, 10, 11] := rfl
  rw [hsnap, hcur, hh, hon]
  unfold ChannelView.drawPass
  simp only [hs, hf, mul_zero, toDouble_zero, neg_zero, t0]
  decide

/-- At the `double` nearest to `0.3` the product with a row height of 10 rounds
to `3`: the first row's top is at `-3`, where the exact product would give
`-2`. -/
theorem fractionalView_first_top :
    ChannelView.startRow (5404319552844595 / 18014398509481984) = 0 ∧
    fmod1 (5404319552844595 / 18014398509481984) = 5404319552844595 / 18014398509481984 ∧
    truncQ (-(toDouble ((10 : ℚ) * (5404319552844595 / 18014398509481984)))) = -3 ∧
    truncQ (-((10 : ℚ) * (5404319552844595 / 18014398509481984))) = -2 := by
  have t0 : truncQ (5404319552844595 / 18014398509481984) = 0 :=
    truncQ_eq_of _ _ (by norm_num) (by norm_num) (by norm_num)
  have hd : toDouble ((10 : ℚ) * (5404319552844595 / 18014398509481984)) = 3 :=
    toDouble_eval _ _ 1 6755399441055744 (by norm_num) (by norm_num) (by norm_num)
      (by norm_num) (by norm_num) (by norm_num)
  refine ⟨by simp [ChannelView.startRow, t0], by simp [fmod1, t0], ?_, ?_⟩
  · rw [hd]
    exact truncQ_intCast (-3)
  · unfold truncQ
    rw [if_neg (by norm_num), Int.ceil_eq_iff]
    norm_num

theorem fractionalView_drawPass :
    ChannelView.drawPass fractionalView.getMessagesSnapshot.2
        fractionalView.scrollBar.currentValue fractionalView.height
        fractionalView.messagesOnScreen =
      ⟨[7, 6, 5, 4, 3, 2, 1, 0], [0, 1, 2, 3, 4, 5, 6, 7], []⟩ := by
  obtain ⟨hs, hf, ht, -⟩ := fractionalView_first_top
  have hsnap : fractionalView.getMessagesSnapshot.2 =
      rowsOfHeights [10, 10, 10, 10, 10, 10, 10, 10, 10, 10, 10, 10] := rfl
  have hcur : fractionalView.scrollBar.currentValue =
      5404319552844595 / 18014398509481984 := rfl
  have hh : fractionalView.height = 67 := rfl
  have hon : fractionalView.messagesOnScreen = [] := rfl
  have hrow : (rowsOfHeights [10, 10, 10, 10, 10, 10, 10, 10, 10, 10, 10, 10])[0]? =
      some (mkRow 0 10) := rfl
  have hh10 : (((mkRow 0 10).getHeight : Int) : ℚ) = 10 := by
    simp [mkRow, MessageLayout.getHeight]
  rw [hsnap, hcur, hh, hon]
  unfold ChannelView.drawPass
  simp only [hs, hf, hrow, hh10, ht]
  decide

theorem fractionalView_hit :
    (ChannelView.tryGetMessageAt fractionalView ⟨0, 0⟩).2 = some (mkRow 0 10, ⟨0, 3⟩, 0) := by
  obtain ⟨hs, hf, ht, -⟩ := fractionalView_first_top
  have hrow : (rowsOfHeights [10, 10, 10, 10, 10, 10, 10, 10, 10, 10, 10, 10])[0]? =
      some (mkRow 0 10) := rfl
  have hh10 : (((mkRow 0 10).getHeight : Int) : ℚ) = 10 := by
    simp [mkRow, MessageLayout.getHeight]
  have hv : fractionalView.getMessagesSnapshot =
      (fractionalView, rowsOfHeights [10, 10, 10, 10, 10, 10, 10, 10, 10, 10, 10, 10]) := rfl
  have hcur : fractionalView.scrollBar.currentValue =
      5404319552844595 / 18014398509481984 := rfl
  unfold ChannelView.tryGetMessageAt
  simp only [hv, hcur, hs, hf, hrow, hh10, ht]
  decide

/-! ## The scrollbar calls of a layout pass -/

theorem getMessagesSnapshot_fst_flags (view : ChannelView) :
    view.getMessagesSnapshot.1.enableScrollingToBottom = view.enableScrollingToBottom ∧
    view.getMessagesSnapshot.1.messageWasAdded = view.messageWasAdded ∧
    view.getMessagesSnapshot.1.messages = view.messages ∧
    view.getMessagesSnapshot.1.paused = view.paused := by
  unfold ChannelView.getMessagesSnapshot
  split <;> exact ⟨rfl, rfl, rfl, rfl⟩

theorem layoutCalls_of_empty (settings : Settings) (view : ChannelView)
    (hempty : view.getMessagesSnapshot.2 = []) :
    ChannelView.layoutCalls settings view = [ScrollbarCall.setVisible false] ∧
    (ChannelView.actuallyLayoutMessages settings view).scrollBar =
      view.scrollBar.setVisible false := by
  obtain ⟨h1, -, -⟩ := getMessagesSnapshot_fst_fields view
  constructor
  · unfold ChannelView.layoutCalls
    simp only [hempty, List.length_nil, if_true]
  · unfold ChannelView.actuallyLayoutMessages
    simp only [hempty, List.length_nil, if_true, h1]

theorem layoutCalls_of_nonempty (settings : Settings) (view : ChannelView)
    (hne : view.getMessagesSnapshot.2 ≠ []) :
    ChannelView.layoutCalls settings view =
      (match ChannelView.thumbLoop view.getMessagesSnapshot.2
          view.getMessagesSnapshot.2.length (view.height - 8) with
        | some value => [ScrollbarCall.setLargeChange value]
        | none => []) ++
      [ScrollbarCall.setVisible (ChannelView.thumbLoop view.getMessagesSnapshot.2
          view.getMessagesSnapshot.2.length (view.height - 8)).isSome] ++
      (if !(ChannelView.thumbLoop view.getMessagesSnapshot.2
          view.getMessagesSnapshot.2.length (view.height - 8)).isSome then
        [ScrollbarCall.setDesiredValue 0 false] else []) ++
      [ScrollbarCall.setMaximum view.getMessagesSnapshot.2.length] ++
      (if view.enableScrollingToBottom &&
          (view.scrollBar.isAtBottom || !view.scrollBar.visible) &&
          (ChannelView.thumbLoop view.getMessagesSnapshot.2
            view.getMessagesSnapshot.2.length (view.height - 8)).isSome then
        [ScrollbarCall.scrollToBottom
          (view.messageWasAdded && settings.enableSmoothScrollingNewMessages)]
      else []) := by
  obtain ⟨h1, h2, -⟩ := getMessagesSnapshot_fst_fields view
  obtain ⟨h3, h4, -, -⟩ := getMessagesSnapshot_fst_flags view
  have hlen : ¬ view.getMessagesSnapshot.2.length = 0 := by
    simpa [List.length_eq_zero] using hne
  unfold ChannelView.layoutCalls
  simp only [hlen, if_false, h1, h2, h3, h4]

theorem actuallyLayoutMessages_of_nonempty (settings : Settings) (view : ChannelView)
    (hne : view.getMessagesSnapshot.2 ≠ []) :
    (ChannelView.actuallyLayoutMessages settings view).scrollBar =
        (ChannelView.layoutCalls settings view).foldl Scrollbar.call view.scrollBar ∧
    (ChannelView.actuallyLayoutMessages settings view).messageWasAdded =
        (if view.enableScrollingToBottom &&
            (view.scrollBar.isAtBottom || !view.scrollBar.visible) &&
            (ChannelView.thumbLoop view.getMessagesSnapshot.2
              view.getMessagesSnapshot.2.length (view.height - 8)).isSome then false
          else view.messageWasAdded) := by
  rw [layoutCalls_of_nonempty settings view hne]
  obtain ⟨h1, h2, -⟩ := getMessagesSnapshot_fst_fields view
  obtain ⟨h3, h4, -, -⟩ := getMessagesSnapshot_fst_flags view
  have hlen : ¬ view.getMessagesSnapshot.2.length = 0 := by
    simpa [List.length_eq_zero] using hne
  unfold ChannelView.actuallyLayoutMessages
  simp only [hlen, if_false, h1, h2, h3, h4]
  cases hloop : ChannelView.thumbLoop view.getMessagesSnapshot.2
      view.getMessagesSnapshot.2.length (view.height - 8) <;>
    cases view.enableScrollingToBottom <;>
    cases (view.scrollBar.isAtBottom || !view.scrollBar.visible) <;>
    simp [Scrollbar.call]

theorem actuallyLayoutMessages_scrollBar_eq_calls (settings : Settings) (view : ChannelView) :
    (ChannelView.actuallyLayoutMessages settings view).scrollBar =
      (ChannelView.layoutCalls settings view).foldl Scrollbar.call view.scrollBar := by
  by_cases hempty : view.getMessagesSnapshot.2 = []
  · obtain ⟨h1, h2⟩ := layoutCalls_of_empty settings view hempty
    rw [h1, h2]
    rfl
  · exact (actuallyLayoutMessages_of_nonempty settings view hempty).1

theorem hidden_pass_resets_desired (settings : Settings) (view : ChannelView)
    (hne : view.getMessagesSnapshot.2 ≠ [])
    (hhid : (ChannelView.actuallyLayoutMessages settings view).scrollBar.visible = false) :
    ScrollbarCall.setDesiredValue 0 false ∈ ChannelView.layoutCalls settings view ∧
    (ChannelView.actuallyLayoutMessages settings view).scrollBar.desiredValue = 0 := by
  rw [actuallyLayoutMessages_visible settings view hne] at hhid
  have hnone : ChannelView.thumbLoop view.getMessagesSnapshot.2
      view.getMessagesSnapshot.2.length (view.height - 8) = none := by
    cases h : ChannelView.thumbLoop view.getMessagesSnapshot.2
        view.getMessagesSnapshot.2.length (view.height - 8) with
    | none => rfl
    | some v => rw [h] at hhid; exact absurd hhid (by simp)
  have hcalls := layoutCalls_of_nonempty settings view hne
  rw [hnone] at hcalls
  rw [actuallyLayoutMessages_scrollBar_eq_calls, hcalls]
  constructor
  · simp
  · simp [Scrollbar.call, Scrollbar.setVisible, Scrollbar.setDesiredValue, Scrollbar.setMaximum]

theorem scrollToBottom_mem_layoutCalls (settings : Settings) (view : ChannelView)
    (hne : view.getMessagesSnapshot.2 ≠ []) (a : Bool) :
    ScrollbarCall.scrollToBottom a ∈ ChannelView.layoutCalls settings view ↔
      (view.enableScrollingToBottom &&
          (view.scrollBar.isAtBottom || !view.scrollBar.visible) &&
          (ChannelView.thumbLoop view.getMessagesSnapshot.2
            view.getMessagesSnapshot.2.length (view.height - 8)).isSome) = true ∧
        a = (view.messageWasAdded && settings.enableSmoothScrollingNewMessages) := by
  rw [layoutCalls_of_nonempty settings view hne]
  cases hloop : ChannelView.thumbLoop view.getMessagesSnapshot.2
      view.getMessagesSnapshot.2.length (view.height - 8) <;>
    cases view.enableScrollingToBottom <;>
    cases (view.scrollBar.isAtBottom || !view.scrollBar.visible) <;>
    simp

/-! ## What the handlers do to the store and the highlights -/

theorem call_highlights (sb : Scrollbar) (c : ScrollbarCall) :
    (sb.call c).highlights = sb.highlights := by
  cases c <;>
    simp only [Scrollbar.call, Scrollbar.setVisible, Scrollbar.setLargeChange,
      Scrollbar.setMaximum, Scrollbar.scrollToBottom, Scrollbar.setDesiredValue] <;>
    split_ifs <;> rfl

theorem foldl_call_highlights (calls : List ScrollbarCall) (sb : Scrollbar) :
    (calls.foldl Scrollbar.call sb).highlights = sb.highlights := by
  induction calls generalizing sb with
  | nil => rfl
  | cons c rest ih => rw [List.foldl_cons, ih, call_highlights]

theorem actuallyLayoutMessages_highlights (settings : Settings) (view : ChannelView) :
    (ChannelView.actuallyLayoutMessages settings view).scrollBar.highlights =
      view.scrollBar.highlights := by
  rw [actuallyLayoutMessages_scrollBar_eq_calls, foldl_call_highlights]

theorem actuallyLayoutMessages_messages (settings : Settings) (view : ChannelView) :
    (ChannelView.actuallyLayoutMessages settings view).messages = view.messages ∧
    (ChannelView.actuallyLayoutMessages settings view).paused = view.paused := by
  obtain ⟨-, -, h3, h4⟩ := getMessagesSnapshot_fst_flags view
  unfold ChannelView.actuallyLayoutMessages
  simp only
  split_ifs <;> exact ⟨h3, h4⟩

theorem messagesAddedAtStart_paused (settings : Settings) (view : ChannelView)
    (messages : List Message) (hp : view.paused = true) :
    (ChannelView.messagesAddedAtStart settings view messages).messages = view.messages ∧
    (ChannelView.messagesAddedAtStart settings view messages).paused = true := by
  unfold ChannelView.messagesAddedAtStart ChannelView.layoutMessages
  simp only [hp, Bool.not_true, Bool.false_eq_true, if_false]
  rw [(actuallyLayoutMessages_messages _ _).1, (actuallyLayoutMessages_messages _ _).2]
  exact ⟨rfl, rfl⟩

theorem messagesAddedAtStart_highlights (settings : Settings) (view : ChannelView)
    (messages : List Message) :
    (ChannelView.messagesAddedAtStart settings view messages).scrollBar.highlights =
      messages.map Message.scrollBarHighlight ++ view.scrollBar.highlights := by
  unfold ChannelView.messagesAddedAtStart ChannelView.layoutMessages
  rw [actuallyLayoutMessages_highlights]
  simp only [Scrollbar.addHighlightsAtStart]
  split_ifs <;>
    simp [Scrollbar.scrollToBottom, Scrollbar.setDesiredValue, Scrollbar.offset]

theorem messageAppended_messages (settings : Settings) (view : ChannelView)
    (message : Message) :
    (ChannelView.messageAppended settings view message).messages =
      (view.messages.pushBack ⟨view.nextLayoutId, message⟩).1 := by
  unfold ChannelView.messageAppended ChannelView.layoutMessages
  rw [(actuallyLayoutMessages_messages _ _).1]
  simp only
  split_ifs <;> rfl

theorem messageAppended_highlights (settings : Settings) (view : ChannelView)
    (message : Message) :
    (ChannelView.messageAppended settings view message).scrollBar.highlights =
      view.scrollBar.highlights ++ [message.scrollBarHighlight] := by
  unfold ChannelView.messageAppended ChannelView.layoutMessages
  rw [actuallyLayoutMessages_highlights]
  simp only [Scrollbar.addHighlight]
  split_ifs <;>
    simp [Scrollbar.scrollToBottom, Scrollbar.setDesiredValue, Scrollbar.offset]

theorem messageReplaced_of_le (settings : Settings) (view : ChannelView) (index : Nat)
    (replacement : Message) (hle : view.messages.items.length ≤ index) :
    ChannelView.messageReplaced settings view index replacement = none := by
  unfold ChannelView.messageReplaced
  simp only [LimitedQueue.getSnapshot, List.getElem?_eq_none hle]

/-! ## Hit-testing -/

theorem sum_take_heights_mono (rows : List MessageLayout)
    (hnn : ∀ row ∈ rows, 0 ≤ row.getHeight) :
    ∀ (a b : Nat), a ≤ b →
      ((rows.take a).map MessageLayout.getHeight).sum ≤
        ((rows.take b).map MessageLayout.getHeight).sum := by
  induction rows with
  | nil => intro a b _; simp
  | cons r t ih =>
    intro a b hab
    cases a with
    | zero =>
      simp only [List.take_zero, List.map_nil, List.sum_nil]
      apply List.sum_nonneg
      intro x hx
      obtain ⟨row, hrow, rfl⟩ := List.mem_map.mp hx
      exact hnn row (List.mem_of_mem_take hrow)
    | succ a' =>
      cases b with
      | zero => omega
      | succ b' =>
        have := ih (fun row hrow => hnn row (List.mem_cons_of_mem _ hrow)) a' b' (by omega)
        simp only [List.take_succ_cons, List.map_cons, List.sum_cons]
        omega

theorem sum_take_succ_heights (rows : List MessageLayout) (k : Nat) (m : MessageLayout)
    (hk : rows[k]? = some m) :
    ((rows.take (k + 1)).map MessageLayout.getHeight).sum =
      ((rows.take k).map MessageLayout.getHeight).sum + m.getHeight := by
  rw [List.take_succ, hk]
  simp

theorem hitLoop_eq_none_iff (p : QPoint) :
    ∀ (rows : List MessageLayout) (i : Nat) (y : Int),
      ChannelView.hitLoop p rows i y = none ↔
        ∀ k, k < rows.length →
          y + ((rows.take (k + 1)).map MessageLayout.getHeight).sum ≤ p.y := by
  intro rows
  induction rows with
  | nil => intro i y; simp [ChannelView.hitLoop]
  | cons r t ih =>
    intro i y
    unfold ChannelView.hitLoop
    by_cases hlt : p.y < y + r.getHeight
    · simp only [hlt, if_true]
      constructor
      · intro h
        exact Option.noConfusion h
      · intro h
        have := h 0 (by simp)
        simp at this
        omega
    · simp only [hlt, if_false, ih]
      constructor
      · intro h k hk
        cases k with
        | zero => simp; omega
        | succ k' =>
          have := h k' (by simpa using hk)
          simp only [List.take_succ_cons, List.map_cons, List.sum_cons]
          omega
      · intro h k hk
        have := h (k + 1) (by simpa using hk)
        simp only [List.take_succ_cons, List.map_cons, List.sum_cons] at this
        omega

theorem hitLoop_eq_some (p : QPoint) :
    ∀ (rows : List MessageLayout) (i : Nat) (y : Int) (m : MessageLayout) (rel : QPoint)
      (idx : Nat), ChannelView.hitLoop p rows i y = some (m, rel, idx) →
      ∃ k, k < rows.length ∧ idx = i + k ∧ rows[k]? = some m ∧
        p.y < y + ((rows.take (k + 1)).map MessageLayout.getHeight).sum ∧
        (∀ j, j < k → y + ((rows.take (j + 1)).map MessageLayout.getHeight).sum ≤ p.y) ∧
        rel = ⟨p.x, p.y - (y + ((rows.take k).map MessageLayout.getHeight).sum)⟩ := by
  intro rows
  induction rows with
  | nil => intro i y m rel idx h; simp [ChannelView.hitLoop] at h
  | cons r t ih =>
    intro i y m rel idx h
    unfold ChannelView.hitLoop at h
    by_cases hlt : p.y < y + r.getHeight
    · simp only [hlt, if_true, Option.some.injEq, Prod.mk.injEq] at h
      obtain ⟨rfl, rfl, rfl⟩ := h
      refine ⟨0, by simp, rfl, by simp, by simpa using hlt, ?_, by simp⟩
      intro j hj
      omega
    · simp only [hlt, if_false] at h
      obtain ⟨k, hk, hidx, hget, hbelow, hbefore, hrel⟩ := ih (i + 1) (y + r.getHeight) m rel idx h
      refine ⟨k + 1, by simpa using hk, by omega, by simpa using hget, ?_, ?_, ?_⟩
      · simp only [List.take_succ_cons, List.map_cons, List.sum_cons]
        omega
      · intro j hj
        cases j with
        | zero => simp; omega
        | succ j' =>
          have := hbefore j' (by omega)
          simp only [List.take_succ_cons, List.map_cons, List.sum_cons]
          omega
      · rw [hrel]
        simp only [List.take_succ_cons, List.map_cons, List.sum_cons, QPoint.mk.injEq, true_and]
        omega

theorem truncQ_nonpos {q : ℚ} (h : q ≤ 0) : truncQ q ≤ 0 := by
  unfold truncQ
  split
  · have : q = 0 := le_antisymm h (by assumption)
    rw [this]
    simp
  · exact Int.ceil_le.mpr (by simpa using h)

theorem tryGetMessageAt_eq (view : ChannelView) (p : QPoint) :
    (ChannelView.tryGetMessageAt view p).2 =
      if ChannelView.startRow view.scrollBar.currentValue ≥ view.getMessagesSnapshot.2.length
      then none
      else ChannelView.hitLoop p
        (view.getMessagesSnapshot.2.drop (ChannelView.startRow view.scrollBar.currentValue))
        (ChannelView.startRow view.scrollBar.currentValue)
        (truncQ (-(toDouble ((rowHeight view.getMessagesSnapshot.2
          (ChannelView.startRow view.scrollBar.currentValue) : ℚ) *
            fmod1 view.scrollBar.currentValue)))) := by
  obtain ⟨h1, -, -⟩ := getMessagesSnapshot_fst_fields view
  unfold ChannelView.tryGetMessageAt
  simp only [h1]
  split_ifs with hge
  · rfl
  · obtain ⟨first, hfirst, -⟩ := getElem?_of_lt (not_le.mp hge)
    simp only [hfirst, rowHeight_of_getElem? hfirst]

/-! ## The large change set by the thumb-sizing pass -/

theorem paintLoop_eq_layoutLoop_append (viewHeight : Int) :
    ∀ (rows : List MessageLayout) (y : Int),
      ∃ t, ChannelView.paintLoop viewHeight rows y =
          ChannelView.layoutLoop viewHeight rows y ++ t ∧
        ((∀ row ∈ rows, 0 < row.getHeight) → t.length ≤ 1) := by
  intro rows
  induction rows with
  | nil => intro y; exact ⟨[], rfl, fun _ => by simp⟩
  | cons a r ih =>
    intro y
    unfold ChannelView.paintLoop ChannelView.layoutLoop
    by_cases hgt : y + a.getHeight > viewHeight
    · have hge : y + a.getHeight ≥ viewHeight := le_of_lt hgt
      exact ⟨[], by simp [hgt, hge], fun _ => by simp⟩
    · by_cases hge : y + a.getHeight ≥ viewHeight
      · refine ⟨ChannelView.paintLoop viewHeight r (y + a.getHeight), by simp [hgt, hge], ?_⟩
        intro hpos
        have heq : y + a.getHeight = viewHeight := le_antisymm (not_lt.mp hgt) hge
        rcases r with _ | ⟨b, r'⟩
        · simp [ChannelView.paintLoop]
        · have hb : 0 < b.getHeight := hpos b (by simp)
          unfold ChannelView.paintLoop
          have : y + a.getHeight + b.getHeight > viewHeight := by omega
          simp [this]
      · obtain ⟨t, ht, hlen⟩ := ih (y + a.getHeight)
        refine ⟨t, by simp [hgt, hge, ht], ?_⟩
        intro hpos
        exact hlen (fun row hrow => hpos row (List.mem_cons_of_mem _ hrow))

theorem painted_eq_layoutWindow_append (snapshot : Snapshot) (current : ℚ) (viewHeight : Int)
    (onScreen : List Nat) :
    ∃ t, (ChannelView.drawPass snapshot current viewHeight onScreen).painted =
        ChannelView.layoutWindow snapshot current viewHeight ++ t ∧
      ((∀ row ∈ snapshot, 0 < row.getHeight) → t.length ≤ 1) := by
  unfold ChannelView.drawPass ChannelView.layoutWindow
  by_cases hlt : ChannelView.startRow current < snapshot.length
  · obtain ⟨first, hfirst, -⟩ := getElem?_of_lt hlt
    obtain ⟨t, ht, hlen⟩ := paintLoop_eq_layoutLoop_append viewHeight
      (snapshot.drop (ChannelView.startRow current))
      (truncQ (-(toDouble ((first.getHeight : ℚ) * fmod1 current))))
    refine ⟨t.map MessageLayout.id, ?_, ?_⟩
    · simp only [ge_iff_le, not_le.mpr hlt, if_false, gt_iff_lt, hlt, if_true, hfirst]
      split <;> simp [ht]
    · intro hpos
      rw [List.length_map]
      exact hlen (fun row hrow => hpos row (List.mem_of_mem_drop hrow))
  · refine ⟨[], ?_, fun _ => by simp⟩
    simp only [ge_iff_le, not_lt.mp hlt, if_true, gt_iff_lt, hlt, if_false, List.append_nil]

/-! ## The wheel walk in floating-point arithmetic -/

theorem toFloat_int_of_bounds (z : Int) (h0 : 0 ≤ z) (h1 : z < 2 ^ 24) :
    toFloat (z : ℚ) = z :=
  toFloat_intCast z (by rw [abs_of_nonneg h0]; exact h1)

theorem toFloat_natCast (n : Nat) (h : (n : Int) < 2 ^ 24) : toFloat (n : ℚ) = n := by
  have := toFloat_int_of_bounds (n : Int) (Int.natCast_nonneg n) h
  exact_mod_cast this

theorem toDouble_natCast (n : Nat) (h : (n : Int) < 2 ^ 24) : toDouble (n : ℚ) = n :=
  toDouble_of_toFloat (toFloat_natCast n h)

/-- With positive row heights a row's top edge is at least its index. -/
theorem index_le_rowTop {snapshot : Snapshot}
    (hpos : ∀ row ∈ snapshot, 0 < row.getHeight) {i : Nat} (hi : i ≤ snapshot.length) :
    (i : Int) ≤ rowTop snapshot i := by
  induction i with
  | zero => simp [rowTop_zero]
  | succ j ih =>
    have h1 := ih (by omega)
    have h2 := rowHeight_pos hpos (show j < snapshot.length by omega)
    rw [rowTop_succ]
    push_cast
    omega

theorem rowTop_le_totalHeight {snapshot : Snapshot}
    (hpos : ∀ row ∈ snapshot, 0 < row.getHeight) (i : Nat) :
    rowTop snapshot i ≤ totalHeight snapshot := by
  rw [← rowTop_of_le (le_max_right i snapshot.length)]
  exact rowTop_mono hpos (le_max_left i snapshot.length)

theorem length_le_totalHeight {snapshot : Snapshot}
    (hpos : ∀ row ∈ snapshot, 0 < row.getHeight) :
    (snapshot.length : Int) ≤ totalHeight snapshot := by
  rw [← rowTop_of_le (le_refl snapshot.length)]
  exact index_le_rowTop hpos (le_refl _)

theorem rowHeight_le_totalHeight {snapshot : Snapshot}
    (hpos : ∀ row ∈ snapshot, 0 < row.getHeight) (i : Nat) :
    rowHeight snapshot i ≤ totalHeight snapshot := by
  have h1 := rowTop_le_totalHeight hpos (i + 1)
  have h2 := rowTop_nonneg hpos i
  rw [rowTop_succ] at h1
  omega

/-- The turn of the forward loop that stops inside the current row. -/
theorem wheelDownLoopFloat_stop (snapshot : Snapshot) (i : Nat) (delta desired sf csl : ℚ)
    (hi : i < snapshot.length) (hlt : delta < csl) :
    wheelDownLoopFloat snapshot i delta desired sf csl =
      some (toFloat (toDouble (desired + toDouble (sf * toDouble (delta / csl))))) := by
  rw [wheelDownLoopFloat, if_pos hi, if_pos hlt]

/-- One turn of the forward loop that consumes the current row and moves on. -/
theorem wheelDownLoopFloat_next (snapshot : Snapshot) (i : Nat) (delta desired sf csl : ℚ)
    (next : MessageLayout) (hnext : snapshot[i + 1]? = some next) (hge : csl ≤ delta) :
    wheelDownLoopFloat snapshot i delta desired sf csl =
      wheelDownLoopFloat snapshot (i + 1) (toFloat (delta - csl)) (toFloat (desired + sf)) 1
        (toFloat next.getHeight) := by
  have hi1 : i + 1 < snapshot.length := by
    by_contra hc
    rw [List.getElem?_eq_none (not_lt.mp hc)] at hnext
    exact Option.noConfusion hnext
  have hne : ¬ i = snapshot.length - 1 := by omega
  rw [wheelDownLoopFloat, if_pos (by omega), if_neg (not_lt.mpr hge), if_neg hne]
  simp only [hnext]

/-- The turn of the backward loop that stops inside the current row. -/
theorem wheelUpLoopFloat_stop (snapshot : Snapshot) (i : Nat) (delta desired sf csl : ℚ)
    (hlt : delta < csl) :
    wheelUpLoopFloat snapshot i delta desired sf csl =
      some (toFloat (desired - toFloat (sf * toFloat (delta / csl)))) := by
  cases i <;> rw [wheelUpLoopFloat, if_pos hlt]

/-- One turn of the backward loop that consumes the current row and moves on. -/
theorem wheelUpLoopFloat_next (snapshot : Snapshot) (j : Nat) (delta desired sf csl : ℚ)
    (prev : MessageLayout) (hprev : snapshot[j]? = some prev) (hge : csl ≤ delta) :
    wheelUpLoopFloat snapshot (j + 1) delta desired sf csl =
      wheelUpLoopFloat snapshot j (toFloat (delta - csl)) (toFloat (desired - sf)) 1
        (toFloat prev.getHeight) := by
  rw [wheelUpLoopFloat, if_neg (not_lt.mpr hge)]
  simp only [hprev]

/-- The turn of the backward loop that consumes row 0. -/
theorem wheelUpLoopFloat_head (snapshot : Snapshot) (delta desired sf csl : ℚ)
    (hge : csl ≤ delta) :
    wheelUpLoopFloat snapshot 0 delta desired sf csl = some 0 := by
  rw [wheelUpLoopFloat, if_neg (not_lt.mpr hge)]

/-- Entry of the walk for a desired value that is a `float`. -/
theorem wheelWalkFloat_entry {snapshot : Snapshot} {d : ℚ} (h0 : 0 ≤ d)
    (hlen : ⌊d⌋₊ < snapshot.length) (hd : toFloat d = d) :
    ∃ row, snapshot[⌊d⌋₊]? = some row ∧
      wheelWalkFloat snapshot d = fun delta =>
        if toFloat delta > 0 then
          wheelUpLoopFloat snapshot ⌊d⌋₊ (toFloat delta) d (toFloat (Int.fract d))
            (toFloat (truncQ (toFloat (toFloat (Int.fract d) * toFloat row.getHeight))))
        else
          wheelDownLoopFloat snapshot ⌊d⌋₊ (-toFloat delta) d
            (toFloat (toDouble (1 - Int.fract d)))
            (toFloat (truncQ
              (toFloat (toFloat (toDouble (1 - Int.fract d)) * toFloat row.getHeight)))) := by
  obtain ⟨row, hrow, -⟩ := getElem?_of_lt hlen
  refine ⟨row, hrow, ?_⟩
  funext delta
  have hfl0 : (0 : ℤ) ≤ ⌊d⌋ := Int.floor_nonneg.mpr h0
  have htn : ⌊d⌋.toNat = ⌊d⌋₊ := Int.floor_toNat d
  have hlt : ⌊d⌋ < (snapshot.length : ℤ) := by
    have : (⌊d⌋.toNat : ℤ) < snapshot.length := by rw [htn]; exact_mod_cast hlen
    rwa [Int.toNat_of_nonneg hfl0] at this
  have hmin : min (truncQ d) (snapshot.length : ℤ) = ⌊d⌋ := by
    rw [truncQ_of_nonneg h0]; exact min_eq_left hlt.le
  simp only [wheelWalkFloat, hd, hmin, htn, hrow, fmod1_of_nonneg h0,
    if_neg (not_lt.mpr hfl0)]

/-- Entry of the walk at a concrete `float` position in row `n`. -/
theorem wheelWalkFloat_eval_up (snapshot : Snapshot) (d delta : ℚ) (n : Nat)
    (row : MessageLayout) (h1 : (n : ℚ) ≤ d) (h2 : d < n + 1) (hd : toFloat d = d)
    (hrow : snapshot[n]? = some row) (hD : 0 < toFloat delta) :
    wheelWalkFloat snapshot d delta =
      wheelUpLoopFloat snapshot n (toFloat delta) d (toFloat (d - n))
        (toFloat (truncQ (toFloat (toFloat (d - n) * toFloat row.getHeight)))) := by
  have h0 : 0 ≤ d := (Nat.cast_nonneg n).trans h1
  have hn := natFloor_eq_of d n h1 h2
  have hlen : ⌊d⌋₊ < snapshot.length := by
    rw [hn]
    by_contra hc
    rw [List.getElem?_eq_none (not_lt.mp hc)] at hrow
    exact Option.noConfusion hrow
  obtain ⟨row2, hrow2, hw⟩ := wheelWalkFloat_entry h0 hlen hd
  rw [hn, hrow] at hrow2
  cases hrow2
  rw [hw, hn, fract_eq_of d n h1 h2]
  simp only [gt_iff_lt, if_pos hD]

/-- Entry of the forward walk at a concrete `float` position in row `n`. -/
theorem wheelWalkFloat_eval_down (snapshot : Snapshot) (d delta : ℚ) (n : Nat)
    (row : MessageLayout) (h1 : (n : ℚ) ≤ d) (h2 : d < n + 1) (hd : toFloat d = d)
    (hrow : snapshot[n]? = some row) (hD : toFloat delta ≤ 0) :
    wheelWalkFloat snapshot d delta =
      wheelDownLoopFloat snapshot n (-toFloat delta) d (toFloat (toDouble (1 - (d - n))))
        (toFloat (truncQ
          (toFloat (toFloat (toDouble (1 - (d - n))) * toFloat row.getHeight)))) := by
  have h0 : 0 ≤ d := (Nat.cast_nonneg n).trans h1
  have hn := natFloor_eq_of d n h1 h2
  have hlen : ⌊d⌋₊ < snapshot.length := by
    rw [hn]
    by_contra hc
    rw [List.getElem?_eq_none (not_lt.mp hc)] at hrow
    exact Option.noConfusion hrow
  obtain ⟨row2, hrow2, hw⟩ := wheelWalkFloat_entry h0 hlen hd
  rw [hn, hrow] at hrow2
  cases hrow2
  rw [hw, hn, fract_eq_of d n h1 h2]
  simp only [gt_iff_lt, if_neg (not_lt.mpr hD)]

/-- The walk only sees the desired value as narrowed to `float`. -/
theorem wheelWalkFloat_narrowed (snapshot : Snapshot) (d delta : ℚ) :
    wheelWalkFloat snapshot d delta = wheelWalkFloat snapshot (toFloat d) delta := by
  simp only [wheelWalkFloat, toFloat_idem]

/-- A zero delta leaves a `float` position with a positive extent below it. -/
theorem wheelWalkFloat_zero_of_extent {snapshot : Snapshot} {d : ℚ} (h0 : 0 ≤ d)
    (hlen : ⌊d⌋₊ < snapshot.length) (hd : toFloat d = d)
    (hpix : 0 < forwardExtentFloat snapshot d) :
    wheelWalkFloat snapshot d 0 = some d := by
  obtain ⟨row, hrow, hw⟩ := wheelWalkFloat_entry h0 hlen hd
  unfold forwardExtentFloat at hpix
  rw [rowHeight_of_getElem? hrow] at hpix
  rw [hw]
  simp only [toFloat_zero, gt_iff_lt, lt_self_iff_false, if_false, neg_zero]
  rw [wheelDownLoopFloat_stop _ _ _ _ _ _ hlen hpix]
  simp only [zero_div, toDouble_zero, mul_zero, add_zero, toDouble_of_toFloat hd, hd]

/-- The whole pixel count `c = frac(d) * height` of a position inside a row of
positive height satisfies `0 ≤ c < height`. -/
theorem pixel_count_bounds {f : ℚ} {h c : Int} (hf0 : 0 ≤ f) (hf1 : f < 1) (hh : 0 < h)
    (hc : f * (h : ℚ) = (c : ℚ)) : 0 ≤ c ∧ c < h := by
  have hhq : (0 : ℚ) < (h : ℚ) := by exact_mod_cast hh
  constructor
  · have : (0 : ℚ) ≤ (c : ℚ) := by rw [← hc]; exact mul_nonneg hf0 hhq.le
    exact_mod_cast this
  · have : (c : ℚ) < (h : ℚ) := by
      rw [← hc]
      calc f * (h : ℚ) < 1 * (h : ℚ) := mul_lt_mul_of_pos_right hf1 hhq
        _ = h := one_mul _
    exact_mod_cast this

/-- Forward over whole rows to a `float` position: entered at the top of row
`i` with the pixel distance to the position `e` as delta, the loop stops at
`e` exactly. Every intermediate value is an integer below `2 ^ 24`, and the
last quotient is `frac(e)`, a `float`. -/
theorem wheelDownLoopFloat_to_position {snapshot : Snapshot}
    (hpos : ∀ row ∈ snapshot, 0 < row.getHeight) (hsize : totalHeight snapshot < 2 ^ 24)
    {e : ℚ} {r : Int} (he0 : 0 ≤ e) (hlen : ⌊e⌋₊ < snapshot.length)
    (hef : toFloat e = e) (hfe : toFloat (Int.fract e) = Int.fract e)
    (hr : Int.fract e * rowHeight snapshot ⌊e⌋₊ = r) :
    ∀ (k i : Nat), i + k = ⌊e⌋₊ →
      wheelDownLoopFloat snapshot i
        ((rowTop snapshot (i + k) - rowTop snapshot i + r : Int) : ℚ)
        (i : ℚ) 1 ((rowHeight snapshot i : Int) : ℚ) = some e := by
  have hlenb := length_le_totalHeight hpos
  have hhm := rowHeight_pos hpos hlen
  obtain ⟨hr0, hr1⟩ := pixel_count_bounds (Int.fract_nonneg e) (Int.fract_lt_one e) hhm hr
  have htopm := rowTop_le_totalHeight hpos (⌊e⌋₊ + 1)
  rw [rowTop_succ] at htopm
  intro k
  induction k with
  | zero =>
    intro i hi
    rw [add_zero] at hi
    subst hi
    have hlt : (((rowTop snapshot (⌊e⌋₊ + 0) - rowTop snapshot ⌊e⌋₊ + r : Int)) : ℚ) <
        ((rowHeight snapshot ⌊e⌋₊ : Int) : ℚ) := by
      exact_mod_cast (show rowTop snapshot (⌊e⌋₊ + 0) - rowTop snapshot ⌊e⌋₊ + r <
        rowHeight snapshot ⌊e⌋₊ by simpa using hr1)
    rw [wheelDownLoopFloat_stop _ _ _ _ _ _ hlen hlt]
    have hq : (((rowTop snapshot (⌊e⌋₊ + 0) - rowTop snapshot ⌊e⌋₊ + r : Int)) : ℚ) /
        ((rowHeight snapshot ⌊e⌋₊ : Int) : ℚ) = Int.fract e := by
      have hne : ((rowHeight snapshot ⌊e⌋₊ : Int) : ℚ) ≠ 0 := by exact_mod_cast hhm.ne'
      rw [div_eq_iff hne, hr]
      push_cast
      simp
    rw [hq, toDouble_of_toFloat hfe, one_mul, toDouble_of_toFloat hfe,
      floor_add_fract_nat he0, toDouble_of_toFloat hef, hef]
  | succ k ih =>
    intro i hi
    obtain ⟨next, hnext, -⟩ := getElem?_of_lt (show i + 1 < snapshot.length by omega)
    have hmono := rowTop_mono hpos (show i + 1 ≤ i + (k + 1) by omega)
    have hsucc := rowTop_succ snapshot i
    have hnn := rowTop_nonneg hpos (i + 1)
    have hnni := rowTop_nonneg hpos i
    have hik : i + (k + 1) = ⌊e⌋₊ := hi
    have hge : ((rowHeight snapshot i : Int) : ℚ) ≤
        ((rowTop snapshot (i + (k + 1)) - rowTop snapshot i + r : Int) : ℚ) := by
      exact_mod_cast (show rowHeight snapshot i ≤
        rowTop snapshot (i + (k + 1)) - rowTop snapshot i + r by omega)
    rw [wheelDownLoopFloat_next _ _ _ _ _ _ next hnext hge]
    have e1 : (((rowTop snapshot (i + (k + 1)) - rowTop snapshot i + r : Int) : ℚ) -
        ((rowHeight snapshot i : Int) : ℚ)) =
        ((rowTop snapshot (i + 1 + k) - rowTop snapshot (i + 1) + r : Int) : ℚ) := by
      rw [hsucc, show i + (k + 1) = i + 1 + k by omega]
      push_cast
      ring
    have e2 : ((i : ℚ) + 1) = ((i + 1 : Nat) : ℚ) := by push_cast; ring
    have hib : ((i + 1 : Nat) : Int) < 2 ^ 24 := by omega
    have hhb := rowHeight_le_totalHeight hpos (i + 1)
    have hhp := rowHeight_pos hpos (show i + 1 < snapshot.length by omega)
    have hik2 : i + 1 + k = ⌊e⌋₊ := by omega
    rw [e1, e2, toFloat_natCast _ hib, ← rowHeight_of_getElem? hnext,
      toFloat_int_of_bounds _ hhp.le (by omega),
      toFloat_int_of_bounds _ (by rw [show i + (k + 1) = i + 1 + k by omega] at hmono; omega)
        (by rw [hik2]; omega)]
    exact ih (i + 1) hik2

/-- Backward over whole rows down to a `float` position `d` in row `n`: entered
at row `n + k` with `desired` at that row's bottom edge and the pixel distance
to `d` as delta, the loop stops at `d` exactly. -/
theorem wheelUpLoopFloat_to_position {snapshot : Snapshot}
    (hpos : ∀ row ∈ snapshot, 0 < row.getHeight) (hsize : totalHeight snapshot < 2 ^ 24)
    {d : ℚ} {n : Nat} {c : Int} (h1 : (n : ℚ) ≤ d) (h2 : d < n + 1)
    (hd : toFloat d = d) (hsf : toFloat (1 - (d - n)) = 1 - (d - n))
    (hc : (d - n) * rowHeight snapshot n = c) :
    ∀ k : Nat, n + k < snapshot.length →
      wheelUpLoopFloat snapshot (n + k)
        ((rowTop snapshot (n + k + 1) - rowTop snapshot n - c : Int) : ℚ)
        ((n + k + 1 : Nat) : ℚ) 1 ((rowHeight snapshot (n + k) : Int) : ℚ) = some d := by
  have hlenb := length_le_totalHeight hpos
  intro k
  induction k with
  | zero =>
    intro hn
    rw [add_zero] at hn
    have hh := rowHeight_pos hpos hn
    obtain ⟨hc0, hc1⟩ := pixel_count_bounds (show (0 : ℚ) ≤ d - n by linarith)
      (show d - n < 1 by linarith) hh hc
    have hhq : (0 : ℚ) < ((rowHeight snapshot n : Int) : ℚ) := by exact_mod_cast hh
    have hsucc := rowTop_succ snapshot n
    have hdelta : ((rowTop snapshot (n + 0 + 1) - rowTop snapshot n - c : Int) : ℚ) =
        ((rowHeight snapshot n - c : Int) : ℚ) := by
      rw [add_zero, hsucc]
      push_cast
      ring
    rw [hdelta]
    simp only [add_zero]
    by_cases hcz : c = 0
    · subst hcz
      have hdn : d = n := by
        have : (d - n) * ((rowHeight snapshot n : Int) : ℚ) = 0 := by simpa using hc
        rcases mul_eq_zero.mp this with h | h
        · linarith
        · exact absurd h hhq.ne'
      have hge : ((rowHeight snapshot n : Int) : ℚ) ≤ ((rowHeight snapshot n - 0 : Int) : ℚ) := by
        simp
      cases n with
      | zero =>
        rw [wheelUpLoopFloat_head _ _ _ _ _ hge, hdn]
        simp
      | succ j =>
        obtain ⟨prev, hprev, -⟩ := getElem?_of_lt (show j < snapshot.length by omega)
        have hhj := rowHeight_pos hpos (show j < snapshot.length by omega)
        have hhjb := rowHeight_le_totalHeight hpos j
        rw [wheelUpLoopFloat_next _ _ _ _ _ _ prev hprev hge]
        have e1 : (((rowHeight snapshot (j + 1) - 0 : Int) : ℚ) -
            ((rowHeight snapshot (j + 1) : Int) : ℚ)) = 0 := by simp
        have e2 : (((j + 1 + 1 : Nat) : ℚ) - 1) = ((j + 1 : Nat) : ℚ) := by push_cast; ring
        have hjb : ((j + 1 : Nat) : Int) < 2 ^ 24 := by omega
        rw [e1, e2, toFloat_zero, toFloat_natCast _ hjb, ← rowHeight_of_getElem? hprev,
          toFloat_int_of_bounds _ hhj.le (by omega)]
        rw [wheelUpLoopFloat_stop _ _ _ _ _ _ (by exact_mod_cast hhj)]
        simp only [zero_div, toFloat_zero, mul_zero, sub_zero, toFloat_natCast _ hjb]
        rw [hdn]
    · have hcpos : 0 < c := lt_of_le_of_ne hc0 (Ne.symm hcz)
      have hlt : ((rowHeight snapshot n - c : Int) : ℚ) < ((rowHeight snapshot n : Int) : ℚ) := by
        exact_mod_cast (show rowHeight snapshot n - c < rowHeight snapshot n by omega)
      rw [wheelUpLoopFloat_stop _ _ _ _ _ _ hlt]
      have hq : ((rowHeight snapshot n - c : Int) : ℚ) / ((rowHeight snapshot n : Int) : ℚ) =
          1 - (d - n) := by
        rw [div_eq_iff hhq.ne']
        push_cast
        rw [← hc]
        ring
      have hfin : ((n + 1 : Nat) : ℚ) - (1 - (d - n)) = d := by push_cast; ring
      rw [hq, hsf, one_mul, hsf, hfin, hd]
  | succ k ih =>
    intro hn
    obtain ⟨prev, hprev, -⟩ := getElem?_of_lt (show n + k < snapshot.length by omega)
    have hh := rowHeight_pos hpos (show n < snapshot.length by omega)
    obtain ⟨hc0, hc1⟩ := pixel_count_bounds (show (0 : ℚ) ≤ d - n by linarith)
      (show d - n < 1 by linarith) hh hc
    have hsucc := rowTop_succ snapshot (n + k + 1)
    have hsuccn := rowTop_succ snapshot n
    have hmono := rowTop_mono hpos (show n + 1 ≤ n + k + 1 by omega)
    have htop := rowTop_le_totalHeight hpos (n + k + 1)
    have hnn := rowTop_nonneg hpos n
    have hhk := rowHeight_pos hpos (show n + k < snapshot.length by omega)
    have hhkb := rowHeight_le_totalHeight hpos (n + k)
    have hge : ((rowHeight snapshot (n + (k + 1)) : Int) : ℚ) ≤
        ((rowTop snapshot (n + (k + 1) + 1) - rowTop snapshot n - c : Int) : ℚ) := by
      rw [show n + (k + 1) = n + k + 1 by omega]
      exact_mod_cast (show rowHeight snapshot (n + k + 1) ≤
        rowTop snapshot (n + k + 1 + 1) - rowTop snapshot n - c by omega)
    rw [show n + (k + 1) = n + k + 1 by omega] at hge ⊢
    rw [wheelUpLoopFloat_next _ _ _ _ _ _ prev hprev hge]
    have e1 : (((rowTop snapshot (n + k + 1 + 1) - rowTop snapshot n - c : Int) : ℚ) -
        ((rowHeight snapshot (n + k + 1) : Int) : ℚ)) =
        ((rowTop snapshot (n + k + 1) - rowTop snapshot n - c : Int) : ℚ) := by
      rw [hsucc]
      push_cast
      ring
    have e2 : (((n + k + 1 + 1 : Nat) : ℚ) - 1) = ((n + k + 1 : Nat) : ℚ) := by
      push_cast
      ring
    have hib : ((n + k + 1 : Nat) : Int) < 2 ^ 24 := by omega
    rw [e1, e2, toFloat_natCast _ hib, ← rowHeight_of_getElem? hprev,
      toFloat_int_of_bounds _ hhk.le (by omega),
      toFloat_int_of_bounds _ (by omega) (by omega)]
    exact ih (by omega)

/-- The pixel distance between two whole-pixel positions in different rows,
as an integer with its bounds. -/
theorem pixel_distance {snapshot : Snapshot}
    (hpos : ∀ row ∈ snapshot, 0 < row.getHeight) {d e : ℚ} {c r : Int}
    (hrows : ⌊d⌋₊ < ⌊e⌋₊) (he : ⌊e⌋₊ < snapshot.length)
    (hc : Int.fract d * rowHeight snapshot ⌊d⌋₊ = c)
    (hr : Int.fract e * rowHeight snapshot ⌊e⌋₊ = r) :
    pixelPos snapshot e - pixelPos snapshot d =
        ((rowTop snapshot ⌊e⌋₊ + r - rowTop snapshot ⌊d⌋₊ - c : Int) : ℚ) ∧
      0 ≤ c ∧ c < rowHeight snapshot ⌊d⌋₊ ∧ 0 ≤ r ∧ r < rowHeight snapshot ⌊e⌋₊ ∧
      rowTop snapshot ⌊d⌋₊ + rowHeight snapshot ⌊d⌋₊ ≤ rowTop snapshot ⌊e⌋₊ ∧
      0 ≤ rowTop snapshot ⌊d⌋₊ ∧
      rowTop snapshot ⌊e⌋₊ + rowHeight snapshot ⌊e⌋₊ ≤ totalHeight snapshot := by
  obtain ⟨hc0, hc1⟩ := pixel_count_bounds (Int.fract_nonneg d) (Int.fract_lt_one d)
    (rowHeight_pos hpos (show ⌊d⌋₊ < snapshot.length by omega)) hc
  obtain ⟨hr0, hr1⟩ := pixel_count_bounds (Int.fract_nonneg e) (Int.fract_lt_one e)
    (rowHeight_pos hpos he) hr
  have hmono := rowTop_mono hpos (show ⌊d⌋₊ + 1 ≤ ⌊e⌋₊ by omega)
  rw [rowTop_succ] at hmono
  have htop := rowTop_le_totalHeight hpos (⌊e⌋₊ + 1)
  rw [rowTop_succ] at htop
  refine ⟨?_, hc0, hc1, hr0, hr1, hmono, rowTop_nonneg hpos _, htop⟩
  unfold pixelPos
  rw [hc, hr]
  push_cast
  ring

/-- The forward walk between two `float` positions on whole pixels of different
rows is exact. -/
theorem wheelWalkFloat_forward_exact {snapshot : Snapshot}
    (hpos : ∀ row ∈ snapshot, 0 < row.getHeight) (hsize : totalHeight snapshot < 2 ^ 24)
    {d e : ℚ} (h0 : 0 ≤ d) (hrows : ⌊d⌋₊ < ⌊e⌋₊) (he : ⌊e⌋₊ < snapshot.length)
    (hd : toFloat d = d) (hsf : toFloat (1 - Int.fract d) = 1 - Int.fract d)
    (hald : PixelAligned snapshot d)
    (hef : toFloat e = e) (hfe : toFloat (Int.fract e) = Int.fract e)
    (hale : PixelAligned snapshot e) :
    wheelWalkFloat snapshot d (-(pixelPos snapshot e - pixelPos snapshot d)) = some e := by
  obtain ⟨c, hc⟩ := pixelAligned_iff.mp hald
  obtain ⟨r, hr⟩ := pixelAligned_iff.mp hale
  obtain ⟨hD, hc0, hc1, hr0, hr1, hmono, hnn, htop⟩ := pixel_distance hpos hrows he hc hr
  have he0 : 0 ≤ e := by
    have : 1 ≤ e := Nat.floor_pos.mp (by omega)
    linarith
  have hn : ⌊d⌋₊ < snapshot.length := by omega
  obtain ⟨row, hrow, hw⟩ := wheelWalkFloat_entry h0 hn hd
  have hrh := rowHeight_of_getElem? hrow
  obtain ⟨next, hnext, -⟩ := getElem?_of_lt (show ⌊d⌋₊ + 1 < snapshot.length by omega)
  have hhb := rowHeight_le_totalHeight hpos ⌊d⌋₊
  have hhnb := rowHeight_le_totalHeight hpos (⌊d⌋₊ + 1)
  have hhn := rowHeight_pos hpos (show ⌊d⌋₊ + 1 < snapshot.length by omega)
  have hsuccn := rowTop_succ snapshot ⌊d⌋₊
  have hlenb := length_le_totalHeight hpos
  rw [hw, hD]
  have hneg : -(((rowTop snapshot ⌊e⌋₊ + r - rowTop snapshot ⌊d⌋₊ - c : Int)) : ℚ) =
      ((-(rowTop snapshot ⌊e⌋₊ + r - rowTop snapshot ⌊d⌋₊ - c) : Int) : ℚ) := by
    push_cast
    ring
  have hfl : toFloat (-(((rowTop snapshot ⌊e⌋₊ + r - rowTop snapshot ⌊d⌋₊ - c : Int)) : ℚ)) =
      -(((rowTop snapshot ⌊e⌋₊ + r - rowTop snapshot ⌊d⌋₊ - c : Int)) : ℚ) := by
    rw [hneg]
    exact toFloat_intCast _ (by rw [abs_lt]; constructor <;> omega)
  have hnotpos : ¬ (-(((rowTop snapshot ⌊e⌋₊ + r - rowTop snapshot ⌊d⌋₊ - c : Int)) : ℚ) > 0) := by
    have : (0 : ℚ) < ((rowTop snapshot ⌊e⌋₊ + r - rowTop snapshot ⌊d⌋₊ - c : Int) : ℚ) := by
      exact_mod_cast (show 0 < rowTop snapshot ⌊e⌋₊ + r - rowTop snapshot ⌊d⌋₊ - c by omega)
    linarith
  simp only [hfl, if_neg hnotpos, neg_neg]
  have hprod : (1 - Int.fract d) * ((row.getHeight : Int) : ℚ) =
      ((rowHeight snapshot ⌊d⌋₊ - c : Int) : ℚ) := by
    rw [← hrh]
    push_cast
    rw [← hc]
    ring
  have hrow0 : 0 ≤ row.getHeight := by rw [← hrh]; omega
  have hrowb : row.getHeight < 2 ^ 24 := by rw [← hrh]; omega
  have hcsl : toFloat (truncQ (toFloat (toFloat (toDouble (1 - Int.fract d)) *
      toFloat (row.getHeight : ℚ)))) = ((rowHeight snapshot ⌊d⌋₊ - c : Int) : ℚ) := by
    rw [toDouble_of_toFloat hsf, hsf, toFloat_int_of_bounds row.getHeight hrow0 hrowb,
      hprod, toFloat_int_of_bounds (rowHeight snapshot ⌊d⌋₊ - c) (by omega) (by omega),
      truncQ_intCast,
      toFloat_int_of_bounds (rowHeight snapshot ⌊d⌋₊ - c) (by omega) (by omega)]
  rw [hcsl, toDouble_of_toFloat hsf, hsf]
  have hge : ((rowHeight snapshot ⌊d⌋₊ - c : Int) : ℚ) ≤
      ((rowTop snapshot ⌊e⌋₊ + r - rowTop snapshot ⌊d⌋₊ - c : Int) : ℚ) := by
    exact_mod_cast (show rowHeight snapshot ⌊d⌋₊ - c ≤
      rowTop snapshot ⌊e⌋₊ + r - rowTop snapshot ⌊d⌋₊ - c by omega)
  rw [wheelDownLoopFloat_next _ _ _ _ _ _ next hnext hge]
  obtain ⟨k, hk⟩ : ∃ k, ⌊d⌋₊ + 1 + k = ⌊e⌋₊ := ⟨⌊e⌋₊ - (⌊d⌋₊ + 1), by omega⟩
  have e1 : (((rowTop snapshot ⌊e⌋₊ + r - rowTop snapshot ⌊d⌋₊ - c : Int) : ℚ) -
      ((rowHeight snapshot ⌊d⌋₊ - c : Int) : ℚ)) =
      ((rowTop snapshot (⌊d⌋₊ + 1 + k) - rowTop snapshot (⌊d⌋₊ + 1) + r : Int) : ℚ) := by
    rw [hk, hsuccn]
    push_cast
    ring
  have e2 : d + (1 - Int.fract d) = ((⌊d⌋₊ + 1 : Nat) : ℚ) := by
    have := floor_add_fract_nat h0
    push_cast
    linarith
  have hib : ((⌊d⌋₊ + 1 : Nat) : Int) < 2 ^ 24 := by omega
  rw [e1, e2, toFloat_natCast _ hib, ← rowHeight_of_getElem? hnext,
    toFloat_int_of_bounds _ hhn.le (by omega),
    toFloat_int_of_bounds _ (by rw [hk, hsuccn]; omega) (by rw [hk, hsuccn]; omega)]
  exact wheelDownLoopFloat_to_position hpos hsize he0 he hef hfe hr k (⌊d⌋₊ + 1) hk

/-- The backward walk between two `float` positions on whole pixels of
different rows is exact. -/
theorem wheelWalkFloat_backward_exact {snapshot : Snapshot}
    (hpos : ∀ row ∈ snapshot, 0 < row.getHeight) (hsize : totalHeight snapshot < 2 ^ 24)
    {d e : ℚ} (h0 : 0 ≤ d) (hrows : ⌊d⌋₊ < ⌊e⌋₊) (he : ⌊e⌋₊ < snapshot.length)
    (hd : toFloat d = d) (hsf : toFloat (1 - Int.fract d) = 1 - Int.fract d)
    (hald : PixelAligned snapshot d)
    (hef : toFloat e = e) (hfe : toFloat (Int.fract e) = Int.fract e)
    (hale : PixelAligned snapshot e) :
    wheelWalkFloat snapshot e (pixelPos snapshot e - pixelPos snapshot d) = some d := by
  obtain ⟨c, hc⟩ := pixelAligned_iff.mp hald
  obtain ⟨r, hr⟩ := pixelAligned_iff.mp hale
  obtain ⟨hD, hc0, hc1, hr0, hr1, hmono, hnn, htop⟩ := pixel_distance hpos hrows he hc hr
  have he0 : 0 ≤ e := by
    have : 1 ≤ e := Nat.floor_pos.mp (by omega)
    linarith
  obtain ⟨row, hrow, hw⟩ := wheelWalkFloat_entry he0 he hef
  have hrh := rowHeight_of_getElem? hrow
  have hhb := rowHeight_le_totalHeight hpos ⌊e⌋₊
  have hlenb := length_le_totalHeight hpos
  rw [hw, hD]
  have hfl : toFloat (((rowTop snapshot ⌊e⌋₊ + r - rowTop snapshot ⌊d⌋₊ - c : Int)) : ℚ) =
      (((rowTop snapshot ⌊e⌋₊ + r - rowTop snapshot ⌊d⌋₊ - c : Int)) : ℚ) :=
    toFloat_int_of_bounds _ (by omega) (by omega)
  have hposD : ((rowTop snapshot ⌊e⌋₊ + r - rowTop snapshot ⌊d⌋₊ - c : Int) : ℚ) > 0 := by
    exact_mod_cast (show 0 < rowTop snapshot ⌊e⌋₊ + r - rowTop snapshot ⌊d⌋₊ - c by omega)
  simp only [hfl, if_pos hposD]
  have hprod : Int.fract e * ((row.getHeight : Int) : ℚ) = ((r : Int) : ℚ) := by
    rw [← hrh]
    exact hr
  have hrow0 : 0 ≤ row.getHeight := by rw [← hrh]; omega
  have hrowb : row.getHeight < 2 ^ 24 := by rw [← hrh]; omega
  have hcsl : toFloat (truncQ (toFloat (toFloat (Int.fract e) *
      toFloat (row.getHeight : ℚ)))) = ((r : Int) : ℚ) := by
    rw [hfe, toFloat_int_of_bounds row.getHeight hrow0 hrowb,
      hprod, toFloat_int_of_bounds r hr0 (by omega), truncQ_intCast,
      toFloat_int_of_bounds r hr0 (by omega)]
  rw [hcsl, hfe]
  obtain ⟨k, hk⟩ : ∃ k, ⌊d⌋₊ + k + 1 = ⌊e⌋₊ := ⟨⌊e⌋₊ - (⌊d⌋₊ + 1), by omega⟩
  obtain ⟨prev, hprev, -⟩ := getElem?_of_lt (show ⌊d⌋₊ + k < snapshot.length by omega)
  have hhk := rowHeight_pos hpos (show ⌊d⌋₊ + k < snapshot.length by omega)
  have hhkb := rowHeight_le_totalHeight hpos (⌊d⌋₊ + k)
  have hge : ((r : Int) : ℚ) ≤
      ((rowTop snapshot ⌊e⌋₊ + r - rowTop snapshot ⌊d⌋₊ - c : Int) : ℚ) := by
    exact_mod_cast (show r ≤ rowTop snapshot ⌊e⌋₊ + r - rowTop snapshot ⌊d⌋₊ - c by omega)
  have hefl : e - Int.fract e = ((⌊d⌋₊ + k + 1 : Nat) : ℚ) := by
    have := floor_add_fract_nat he0
    rw [hk]
    linarith
  have e1 : (((rowTop snapshot ⌊e⌋₊ + r - rowTop snapshot ⌊d⌋₊ - c : Int) : ℚ) -
      ((r : Int) : ℚ)) =
      ((rowTop snapshot (⌊d⌋₊ + k + 1) - rowTop snapshot ⌊d⌋₊ - c : Int) : ℚ) := by
    rw [hk]
    push_cast
    ring
  have hib : ((⌊d⌋₊ + k + 1 : Nat) : Int) < 2 ^ 24 := by omega
  rw [← hk, wheelUpLoopFloat_next _ _ _ _ _ _ prev hprev (by rw [hk]; exact hge), hk, e1,
    hefl, toFloat_natCast _ hib, ← rowHeight_of_getElem? hprev,
    toFloat_int_of_bounds _ hhk.le (by omega),
    toFloat_int_of_bounds _ (by rw [hk]; omega) (by rw [hk]; omega)]
  have hfr : Int.fract d = d - (⌊d⌋₊ : ℚ) := by
    have := floor_add_fract_nat h0
    linarith
  have h1 : ((⌊d⌋₊ : Nat) : ℚ) ≤ d := Nat.floor_le h0
  have h2 : d < ((⌊d⌋₊ : Nat) : ℚ) + 1 := Nat.lt_floor_add_one d
  rw [hfr] at hsf hc
  exact wheelUpLoopFloat_to_position hpos hsize h1 h2 hd hsf hc k (by omega)

/-- The row `tryGetMessageAt` returns, in terms of the row edges of the painting
walk. -/
theorem hit_test_rows (view : ChannelView) (p : QPoint)
    (hnn : ∀ row ∈ passRows view, 0 ≤ row.getHeight)
    (hcur : 0 ≤ view.scrollBar.currentValue) (hy : 0 ≤ p.y) :
    ((ChannelView.tryGetMessageAt view p).2.isSome = true ↔
      passStart view < (passRows view).length ∧
        p.y < rowBottomEdge view ((passRows view).length - 1)) ∧
    (∀ layout relativePos i,
      (ChannelView.tryGetMessageAt view p).2 = some (layout, relativePos, i) →
      passStart view ≤ i ∧ i < (passRows view).length ∧
      p.y < rowBottomEdge view i ∧
      (∀ j, passStart view ≤ j → j < i → rowBottomEdge view j ≤ p.y) ∧
      (passRows view)[i]? = some layout ∧
      relativePos = ⟨p.x, p.y - rowTopEdge view i⟩ ∧
      0 ≤ relativePos.y ∧ relativePos.y < rowHeight (passRows view) i) := by
  have heq := tryGetMessageAt_eq view p
  unfold rowTopEdge rowBottomEdge yAfter passStart passRows at *
  generalize hs : ChannelView.startRow view.scrollBar.currentValue = start at *
  generalize hsn : view.getMessagesSnapshot.2 = snap at *
  have hy0 : truncQ (-(toDouble ((rowHeight snap start : ℚ) * fmod1 view.scrollBar.currentValue))) ≤ 0 := by
    apply truncQ_nonpos
    have h1 : (0 : ℚ) ≤ rowHeight snap start := by
      exact_mod_cast rowHeight_nonneg_of_nonneg hnn start
    have h2 : 0 ≤ fmod1 view.scrollBar.currentValue := by
      rw [fmod1_of_nonneg hcur]
      exact Int.fract_nonneg _
    have := toDouble_nonneg (mul_nonneg h1 h2)
    linarith
  generalize truncQ (-(toDouble ((rowHeight snap start : ℚ) * fmod1 view.scrollBar.currentValue))) = y0
    at *
  have hnnd : ∀ row ∈ snap.drop start, 0 ≤ row.getHeight :=
    fun row hrow => hnn row (List.mem_of_mem_drop hrow)
  rw [heq]
  by_cases hge : start ≥ snap.length
  · rw [if_pos hge]
    refine ⟨⟨fun h => absurd h (by simp), fun h => absurd h.1 (not_lt.mpr hge)⟩, ?_⟩
    intro layout rel i h
    exact Option.noConfusion h
  · rw [if_neg hge]
    have hlt : start < snap.length := not_le.mp hge
    have hdl : (snap.drop start).length = snap.length - start := List.length_drop _ _
    constructor
    · constructor
      · intro hsome
        refine ⟨hlt, ?_⟩
        obtain ⟨⟨m, rel, idx⟩, hres⟩ := Option.isSome_iff_exists.mp hsome
        obtain ⟨k, hk, -, -, hbelow, -, -⟩ := hitLoop_eq_some p _ _ _ m rel idx hres
        have := sum_take_heights_mono (snap.drop start) hnnd (k + 1)
          (snap.length - 1 + 1 - start) (by omega)
        omega
      · rintro ⟨-, hbelow⟩
        by_contra hnone
        rw [Bool.not_eq_true, Option.not_isSome, Option.isNone_iff_eq_none] at hnone
        have := (hitLoop_eq_none_iff p _ _ _).mp hnone (snap.length - 1 - start) (by omega)
        have e1 : snap.length - 1 - start + 1 = snap.length - 1 + 1 - start := by omega
        rw [e1] at this
        omega
    · intro layout rel i hres
      obtain ⟨k, hk, hidx, hget, hbelow, hbefore, hrel⟩ := hitLoop_eq_some p _ _ _ layout rel i hres
      have hgeti : snap[i]? = some layout := by
        rw [List.getElem?_drop] at hget
        rw [hidx]
        exact hget
      have hsucc := sum_take_succ_heights _ k layout hget
      have e1 : i + 1 - start = k + 1 := by omega
      have hrh := rowHeight_of_getElem? hgeti
      have htop : y0 + ((List.take k (snap.drop start)).map MessageLayout.getHeight).sum ≤ p.y := by
        cases k with
        | zero => simp; omega
        | succ k' => exact hbefore k' (by omega)
      refine ⟨by omega, by omega, ?_, ?_, hgeti, ?_, ?_, ?_⟩
      · rw [e1]; exact hbelow
      · intro j hj hji
        have := hbefore (j - start) (by omega)
        have e2 : j - start + 1 = j + 1 - start := by omega
        rw [e2] at this
        exact this
      · rw [hrel, e1, hrh, hsucc]
        simp only [QPoint.mk.injEq, true_and]
        omega
      · rw [hrel]
        simp only
        omega
      · rw [hrel, hrh]
        simp only
        omega


theorem truncQ_neg (q : ℚ) : truncQ (-q) = -truncQ q := by
  unfold truncQ
  rcases lt_trichotomy q 0 with h | h | h
  · rw [if_pos (by linarith), if_neg (by linarith), Int.floor_neg]
  · subst h
    simp
  · rw [if_neg (by linarith), if_pos (by linarith), Int.ceil_neg]

/-- The row edges of the painting walk: it starts at row `floor(current)`, whose
top is at `-trunc(height(start) * frac(current))` with the `double` product of
the source, and each next row is directly below the one before. -/
theorem painting_walk_edges (view : ChannelView) (hcur : 0 ≤ view.scrollBar.currentValue) :
    passStart view = ⌊view.scrollBar.currentValue⌋₊ ∧
    (passStart view < (passRows view).length →
      rowTopEdge view (passStart view) =
        -truncQ (toDouble ((rowHeight (passRows view) (passStart view) : ℚ) *
          Int.fract view.scrollBar.currentValue))) ∧
    (∀ j, passStart view ≤ j → j + 1 < (passRows view).length →
      rowTopEdge view (j + 1) = rowBottomEdge view j) := by
  have hs : passStart view = ⌊view.scrollBar.currentValue⌋₊ := by
    unfold passStart ChannelView.startRow
    rw [truncQ_of_nonneg hcur]
    exact Int.floor_toNat _
  refine ⟨hs, ?_, ?_⟩
  · intro hlt
    obtain ⟨m, hm, -⟩ := getElem?_of_lt hlt
    have hd : ((passRows view).drop (passStart view))[0]? = some m := by
      rw [List.getElem?_drop]
      simpa using hm
    have hsum := sum_take_succ_heights ((passRows view).drop (passStart view)) 0 m hd
    unfold rowTopEdge rowBottomEdge yAfter
    simp only [passStart] at hsum hm ⊢
    rw [show ChannelView.startRow view.scrollBar.currentValue + 1 -
        ChannelView.startRow view.scrollBar.currentValue = 0 + 1 by omega, hsum,
      rowHeight_of_getElem? hm, ← truncQ_neg, fmod1_of_nonneg hcur]
    simp
  · intro j hj hlt
    obtain ⟨m, hm, -⟩ := getElem?_of_lt hlt
    have hd : ((passRows view).drop (passStart view))[j + 1 - passStart view]? = some m := by
      rw [List.getElem?_drop, show passStart view + (j + 1 - passStart view) = j + 1 by omega]
      exact hm
    have hsum := sum_take_succ_heights ((passRows view).drop (passStart view))
      (j + 1 - passStart view) m hd
    unfold rowTopEdge rowBottomEdge yAfter
    simp only [passStart] at hsum hm hj ⊢
    rw [show j + 1 + 1 - ChannelView.startRow view.scrollBar.currentValue =
        j + 1 - ChannelView.startRow view.scrollBar.currentValue + 1 by omega, hsum,
      rowHeight_of_getElem? hm]
    ring

/-! # Properties of the view -/

/-- C3 (as stated, refuted), in the `float` arithmetic of the source and with
no walk reaching an end. Three rows of height 16, `desired = 1/32`: the forward
walk by `15` gives `1` (the start row's extent `15.5` is truncated to `15`) and
the backward walk by `15` gives `1/16`, not `1/32`; every value here is a
`float`, so no rounding is involved. Three rows of height 10, the whole
position `desired = 1` and the whole distance `3`: the forward walk gives the
`float` nearest to `1.3`, `5452595 / 2^22`, which lies below `1.3`; on the way
back its extent `0.29999995 * 10` is truncated to `2` instead of `3`, and the
walk returns `7549747 / 2^23` (about `0.9`), not `1`. Three rows of height 16
again, the `float` position `desired = 3/8` (6 pixels into row 0) and the whole
distance `7` inside the same row: the forward walk gives `13/16` exactly, and
the backward walk computes `13/16 - 13/16 * (7/13)` with the quotient and the
product rounded to `float`, which gives `12582911 / 2^25`, one unit in the last
place below `3/8`. -/
theorem wheelWalkFloat_roundtrip_inexact :
    (wheelWalkFloat (rowsOfHeights [16, 16, 16]) (1 / 32) (-15) = some 1 ∧
      wheelWalkFloat (rowsOfHeights [16, 16, 16]) 1 15 = some (1 / 16) ∧
      (1 / 16 : ℚ) ≠ 1 / 32) ∧
    (wheelWalkFloat (rowsOfHeights [10, 10, 10]) 1 (-3) = some (5452595 / 4194304) ∧
      wheelWalkFloat (rowsOfHeights [10, 10, 10]) (5452595 / 4194304) 3 =
        some (7549747 / 8388608) ∧
      (7549747 / 8388608 : ℚ) ≠ 1) ∧
    (wheelWalkFloat (rowsOfHeights [16, 16, 16]) (3 / 8) (-7) = some (13 / 16) ∧
      wheelWalkFloat (rowsOfHeights [16, 16, 16]) (13 / 16) 7 =
        some (12582911 / 33554432) ∧
      (12582911 / 33554432 : ℚ) ≠ 3 / 8) := by
  have f0 : toFloat 0 = 0 := toFloat_zero
  have d0 : toDouble 0 = 0 := toDouble_zero
  have f1 : toFloat 1 = 1 := toFloat_of_repr _ 1 0 (by norm_num) (by norm_num) (by norm_num)
  have d1 : toDouble 1 = 1 := toDouble_of_toFloat f1
  have f2 : toFloat 2 = 2 := toFloat_of_repr _ 2 0 (by norm_num) (by norm_num) (by norm_num)
  have f3 : toFloat 3 = 3 := toFloat_of_repr _ 3 0 (by norm_num) (by norm_num) (by norm_num)
  have fm3 : toFloat (-3) = -3 :=
    toFloat_of_repr _ (-3) 0 (by norm_num) (by norm_num) (by norm_num)
  have f10 : toFloat 10 = 10 :=
    toFloat_of_repr _ 10 0 (by norm_num) (by norm_num) (by norm_num)
  have f15 : toFloat 15 = 15 :=
    toFloat_of_repr _ 15 0 (by norm_num) (by norm_num) (by norm_num)
  have fm15 : toFloat (-15) = -15 :=
    toFloat_of_repr _ (-15) 0 (by norm_num) (by norm_num) (by norm_num)
  have f16 : toFloat 16 = 16 :=
    toFloat_of_repr _ 16 0 (by norm_num) (by norm_num) (by norm_num)
  have fa : toFloat (1 / 32) = 1 / 32 :=
    toFloat_of_repr _ 1 (-5) (by norm_num) (by norm_num) (by norm_num)
  have fb : toFloat (31 / 32) = 31 / 32 :=
    toFloat_of_repr _ 31 (-5) (by norm_num) (by norm_num) (by norm_num)
  have db : toDouble (31 / 32) = 31 / 32 := toDouble_of_toFloat fb
  have fc : toFloat (31 / 2) = 31 / 2 :=
    toFloat_of_repr _ 31 (-1) (by norm_num) (by norm_num) (by norm_num)
  have tc : truncQ (31 / 2) = 15 := truncQ_eq_of _ _ (by norm_num) (by norm_num) (by norm_num)
  have fe : toFloat (15 / 16) = 15 / 16 :=
    toFloat_of_repr _ 15 (-4) (by norm_num) (by norm_num) (by norm_num)
  have fg : toFloat (1 / 16) = 1 / 16 :=
    toFloat_of_repr _ 1 (-4) (by norm_num) (by norm_num) (by norm_num)
  have u0 : truncQ 0 = 0 := truncQ_intCast 0
  have u10 : truncQ 10 = 10 := truncQ_intCast 10
  have dq : toDouble (3 / 10) = 5404319552844595 / 18014398509481984 :=
    toDouble_eval _ _ (-2) 5404319552844595 (by norm_num) (by norm_num) (by norm_num)
      (by norm_num) (by norm_num) (by norm_num)
  have dq2 : toDouble (5404319552844595 / 18014398509481984) =
      5404319552844595 / 18014398509481984 :=
    toDouble_of_repr _ 5404319552844595 (-54) (by norm_num) (by norm_num) (by norm_num)
  have ds : toDouble (23418718062326579 / 18014398509481984) =
      5854679515581645 / 4503599627370496 :=
    toDouble_eval _ _ 0 5854679515581645 (by norm_num) (by norm_num) (by norm_num)
      (by norm_num) (by norm_num) (by norm_num)
  have fs : toFloat (5854679515581645 / 4503599627370496) = 5452595 / 4194304 :=
    toFloat_eval _ _ 0 10905190 (by norm_num) (by norm_num) (by norm_num)
      (by norm_num) (by norm_num) (by norm_num)
  have fd1 : toFloat (5452595 / 4194304) = 5452595 / 4194304 :=
    toFloat_of_repr _ 5452595 (-22) (by norm_num) (by norm_num) (by norm_num)
  have ffr : toFloat (1258291 / 4194304) = 1258291 / 4194304 :=
    toFloat_of_repr _ 1258291 (-22) (by norm_num) (by norm_num) (by norm_num)
  have fpr : toFloat (6291455 / 2097152) = 6291455 / 2097152 :=
    toFloat_of_repr _ 6291455 (-21) (by norm_num) (by norm_num) (by norm_num)
  have tpr : truncQ (6291455 / 2097152) = 2 :=
    truncQ_eq_of _ _ (by norm_num) (by norm_num) (by norm_num)
  have ft : toFloat (1 / 10) = 13421773 / 134217728 :=
    toFloat_eval _ _ (-4) 13421773 (by norm_num) (by norm_num) (by norm_num)
      (by norm_num) (by norm_num) (by norm_num)
  have ft2 : toFloat (13421773 / 134217728) = 13421773 / 134217728 :=
    toFloat_of_repr _ 13421773 (-27) (by norm_num) (by norm_num) (by norm_num)
  have fr : toFloat (120795955 / 134217728) = 7549747 / 8388608 :=
    toFloat_eval _ _ (-1) 15099494 (by norm_num) (by norm_num) (by norm_num)
      (by norm_num) (by norm_num) (by norm_num)
  have f7 : toFloat 7 = 7 := toFloat_of_repr _ 7 0 (by norm_num) (by norm_num) (by norm_num)
  have fm7 : toFloat (-7) = -7 :=
    toFloat_of_repr _ (-7) 0 (by norm_num) (by norm_num) (by norm_num)
  have f13 : toFloat 13 = 13 :=
    toFloat_of_repr _ 13 0 (by norm_num) (by norm_num) (by norm_num)
  have u13 : truncQ 13 = 13 := truncQ_intCast 13
  have fh : toFloat (3 / 8) = 3 / 8 :=
    toFloat_of_repr _ 3 (-3) (by norm_num) (by norm_num) (by norm_num)
  have fi : toFloat (5 / 8) = 5 / 8 :=
    toFloat_of_repr _ 5 (-3) (by norm_num) (by norm_num) (by norm_num)
  have di : toDouble (5 / 8) = 5 / 8 := toDouble_of_toFloat fi
  have fj : toFloat (13 / 16) = 13 / 16 :=
    toFloat_of_repr _ 13 (-4) (by norm_num) (by norm_num) (by norm_num)
  have dj : toDouble (13 / 16) = 13 / 16 := toDouble_of_toFloat fj
  have dk : toDouble (7 / 10) = 3152519739159347 / 4503599627370496 :=
    toDouble_eval _ _ (-1) 6305039478318694 (by norm_num) (by norm_num) (by norm_num)
      (by norm_num) (by norm_num) (by norm_num)
  have dl : toDouble (15762598695796735 / 36028797018963968) = 7 / 16 :=
    toDouble_eval_tie _ _ (-2) 7881299347898368 (by norm_num) (by norm_num) (by norm_num)
      (by norm_num) (by norm_num) (by norm_num)
  have fk : toFloat (7 / 13) = 4516943 / 8388608 :=
    toFloat_eval _ _ (-1) 9033886 (by norm_num) (by norm_num) (by norm_num)
      (by norm_num) (by norm_num) (by norm_num)
  have fl : toFloat (58720259 / 134217728) = 14680065 / 33554432 :=
    toFloat_eval _ _ (-2) 14680065 (by norm_num) (by norm_num) (by norm_num)
      (by norm_num) (by norm_num) (by norm_num)
  have fm : toFloat (12582911 / 33554432) = 12582911 / 33554432 :=
    toFloat_of_repr _ 12582911 (-25) (by norm_num) (by norm_num) (by norm_num)
  refine ⟨⟨?_, ?_, by norm_num⟩, ⟨?_, ?_, by norm_num⟩, ⟨?_, ?_, by norm_num⟩⟩
  · rw [wheelWalkFloat_eval_down _ (1 / 32) (-15) 0 (mkRow 0 16) (by norm_num) (by norm_num)
      fa rfl (by rw [fm15]; norm_num)]
    norm_num [mkRow, MessageLayout.getHeight, fm15, fb, db, f16, fc, tc, f15]
    rw [wheelDownLoopFloat_next _ 0 15 _ _ 15 (mkRow 1 16) rfl (le_refl _)]
    norm_num [mkRow, MessageLayout.getHeight, f0, f1, f16]
    rw [wheelDownLoopFloat_stop _ _ _ _ _ _ (by simp [rowsOfHeights, rowsFrom]) (by norm_num)]
    norm_num [d0, d1, f1]
  · rw [wheelWalkFloat_eval_up _ 1 15 1 (mkRow 1 16) (by norm_num) (by norm_num) f1 rfl
      (by rw [f15]; norm_num)]
    norm_num [mkRow, MessageLayout.getHeight, f15, f0, f16, u0]
    rw [wheelUpLoopFloat_next _ 0 15 1 0 0 (mkRow 0 16) rfl (by norm_num)]
    norm_num [mkRow, MessageLayout.getHeight, f15, f1, f16]
    rw [wheelUpLoopFloat_stop _ _ _ _ _ _ (by norm_num)]
    norm_num [fe, fg]
  · rw [wheelWalkFloat_eval_down _ 1 (-3) 1 (mkRow 1 10) (by norm_num) (by norm_num) f1 rfl
      (by rw [fm3]; norm_num)]
    norm_num [mkRow, MessageLayout.getHeight, fm3, d1, f1, f10, u10]
    rw [wheelDownLoopFloat_stop _ _ _ _ _ _ (by simp [rowsOfHeights, rowsFrom]) (by norm_num)]
    norm_num [dq, dq2, ds, fs]
  · rw [wheelWalkFloat_eval_up _ (5452595 / 4194304) 3 1 (mkRow 1 10) (by norm_num)
      (by norm_num) fd1 rfl (by rw [f3]; norm_num)]
    norm_num [mkRow, MessageLayout.getHeight, f3, ffr, f10, fpr, tpr, f2]
    rw [wheelUpLoopFloat_next _ 0 3 _ _ 2 (mkRow 0 10) rfl (by norm_num)]
    norm_num [mkRow, MessageLayout.getHeight, f1, f10]
    rw [wheelUpLoopFloat_stop _ _ _ _ _ _ (by norm_num)]
    norm_num [ft, ft2, fr]
  · rw [wheelWalkFloat_eval_down _ (3 / 8) (-7) 0 (mkRow 0 16) (by norm_num) (by norm_num)
      fh rfl (by rw [fm7]; norm_num)]
    norm_num [mkRow, MessageLayout.getHeight, fm7, fi, di, f16, f10, u10]
    rw [wheelDownLoopFloat_stop _ _ _ _ _ _ (by simp [rowsOfHeights, rowsFrom]) (by norm_num)]
    norm_num [dk, dl, dj, fj]
  · rw [wheelWalkFloat_eval_up _ (13 / 16) 7 0 (mkRow 0 16) (by norm_num) (by norm_num) fj rfl
      (by rw [f7]; norm_num)]
    norm_num [mkRow, MessageLayout.getHeight, f7, fj, f16, f13, u13]
    rw [wheelUpLoopFloat_stop _ _ _ _ _ _ (by norm_num)]
    norm_num [fk, fl, fm]

/-- C3 (amended): for every snapshot with positive, possibly non-uniform row
heights and total height below `2^24` pixels, and every two positions `d` and
`e` in different rows (`floor(d) < floor(e) < length`) that sit on a whole
pixel of their row and are `float` values together with `1 - frac(d)` and
`frac(e)` (so that no step of either walk rounds): with `D = pos(e) - pos(d)`,
a positive whole number of pixels, the wheel walk of `ChannelView::wheelEvent`
with effective delta `-D` applied to `d` gives exactly `e`, and the walk with
effective delta `+D` applied to that result returns exactly `d`. -/
theorem wheelWalkFloat_roundtrip_of_exact (snapshot : Snapshot) (d e : ℚ)
    (hpos : ∀ row ∈ snapshot, 0 < row.getHeight) (hsize : totalHeight snapshot < 2 ^ 24)
    (h0 : 0 ≤ d) (hrows : ⌊d⌋₊ < ⌊e⌋₊) (he : ⌊e⌋₊ < snapshot.length)
    (hd : toFloat d = d) (hsf : toFloat (1 - Int.fract d) = 1 - Int.fract d)
    (hald : PixelAligned snapshot d)
    (hef : toFloat e = e) (hfe : toFloat (Int.fract e) = Int.fract e)
    (hale : PixelAligned snapshot e) :
    0 < pixelPos snapshot e - pixelPos snapshot d ∧
    wheelWalkFloat snapshot d (-(pixelPos snapshot e - pixelPos snapshot d)) = some e ∧
    wheelWalkFloat snapshot e (pixelPos snapshot e - pixelPos snapshot d) = some d := by
  refine ⟨?_, wheelWalkFloat_forward_exact hpos hsize h0 hrows he hd hsf hald hef hfe hale,
    wheelWalkFloat_backward_exact hpos hsize h0 hrows he hd hsf hald hef hfe hale⟩
  obtain ⟨c, hc⟩ := pixelAligned_iff.mp hald
  obtain ⟨r, hr⟩ := pixelAligned_iff.mp hale
  obtain ⟨hD, hc0, hc1, hr0, hr1, hmono, -, -⟩ := pixel_distance hpos hrows he hc hr
  rw [hD]
  exact_mod_cast (show 0 < rowTop snapshot ⌊e⌋₊ + r - rowTop snapshot ⌊d⌋₊ - c by omega)

/-- C3 witness: rows of heights 10, 20, 30, `d = 1/2` (5 pixels into row 0) and
`e = 5/2` (15 pixels into row 2), 40 pixels apart. -/
theorem wheelWalkFloat_roundtrip_of_exact_witness :
    0 < pixelPos (rowsOfHeights [10, 20, 30]) (5 / 2) -
        pixelPos (rowsOfHeights [10, 20, 30]) (1 / 2) ∧
    wheelWalkFloat (rowsOfHeights [10, 20, 30]) (1 / 2)
        (-(pixelPos (rowsOfHeights [10, 20, 30]) (5 / 2) -
          pixelPos (rowsOfHeights [10, 20, 30]) (1 / 2))) = some (5 / 2) ∧
    wheelWalkFloat (rowsOfHeights [10, 20, 30]) (5 / 2)
        (pixelPos (rowsOfHeights [10, 20, 30]) (5 / 2) -
          pixelPos (rowsOfHeights [10, 20, 30]) (1 / 2)) = some (1 / 2) := by
  have fh : toFloat (1 / 2) = 1 / 2 :=
    toFloat_of_repr _ 1 (-1) (by norm_num) (by norm_num) (by norm_num)
  have fe : toFloat (5 / 2) = 5 / 2 :=
    toFloat_of_repr _ 5 (-1) (by norm_num) (by norm_num) (by norm_num)
  have hfd : ⌊(1 / 2 : ℚ)⌋₊ = 0 := natFloor_eq_of _ 0 (by norm_num) (by norm_num)
  have hfe : ⌊(5 / 2 : ℚ)⌋₊ = 2 := natFloor_eq_of _ 2 (by norm_num) (by norm_num)
  have hrd : Int.fract (1 / 2 : ℚ) = 1 / 2 := by
    rw [fract_eq_of _ 0 (by norm_num) (by norm_num)]
    norm_num
  have hre : Int.fract (5 / 2 : ℚ) = 1 / 2 := by
    rw [fract_eq_of _ 2 (by norm_num) (by norm_num)]
    norm_num
  refine wheelWalkFloat_roundtrip_of_exact (rowsOfHeights [10, 20, 30]) (1 / 2) (5 / 2)
    (by simp [rowsOfHeights, rowsFrom, mkRow, MessageLayout.getHeight]) (by decide)
    (by norm_num) (by rw [hfd, hfe]; norm_num) (by rw [hfe]; simp [rowsOfHeights, rowsFrom])
    fh ?_ ?_ fe ?_ ?_
  · rw [hrd]
    norm_num [fh]
  · rw [pixelAligned_iff, hrd, hfd]
    exact ⟨5, by norm_num [rowHeight, rowsOfHeights, rowsFrom, mkRow, MessageLayout.getHeight]⟩
  · rw [hre]
    exact fh
  · rw [pixelAligned_iff, hre, hfe]
    exact ⟨15, by norm_num [rowHeight, rowsOfHeights, rowsFrom, mkRow, MessageLayout.getHeight]⟩

/-- C4 (the code at the failing input): three rows of height 10 and the
desired value `3 - 2^-30`, a `double` inside `[0, length)`. The narrowing
`float desired = getDesiredValue()` rounds it to `3.0f`, so
`i = std::min((int)desired, snapshotLength) = 3` and both branches read
`snapshot[3]`, one past the last row, for every delta: no value in
`[0, length]` is handed to `setDesiredValue`. -/
theorem wheelWalkFloat_narrowed_out_of_range :
    (∀ row ∈ rowsOfHeights [10, 10, 10], 0 < row.getHeight) ∧
    (0 : ℚ) ≤ 3 - 1 / 2 ^ 30 ∧
    (3 - 1 / 2 ^ 30 : ℚ) < ((rowsOfHeights [10, 10, 10]).length : ℚ) ∧
    toDouble (3 - 1 / 2 ^ 30) = 3 - 1 / 2 ^ 30 ∧
    toFloat (3 - 1 / 2 ^ 30) = 3 ∧
    ∀ delta : ℚ, wheelWalkFloat (rowsOfHeights [10, 10, 10]) (3 - 1 / 2 ^ 30) delta = none := by
  have hf : toFloat (3 - 1 / 2 ^ 30) = 3 :=
    toFloat_eval _ _ 1 12582912 (by norm_num) (by norm_num) (by norm_num) (by norm_num)
      (by norm_num) (by norm_num)
  have t3 : truncQ 3 = 3 := truncQ_intCast 3
  refine ⟨by simp [rowsOfHeights, rowsFrom, mkRow, MessageLayout.getHeight], by norm_num,
    by norm_num [rowsOfHeights, rowsFrom], ?_, hf, ?_⟩
  · exact toDouble_of_repr _ 3221225471 (-30) (by norm_num) (by norm_num) (by norm_num)
  · intro delta
    simp only [wheelWalkFloat, hf, t3]
    simp [rowsOfHeights, rowsFrom]

/-- C5: handling a "message removed from start" event decrements the
`messageIndex` of each of `selection.start`, `selection.end`, `selection.min`
and `selection.max` by exactly one and leaves every `charIndex` unchanged (so
an anchor at `(5, 3)` becomes `(4, 3)`). -/
theorem messageRemovedFromStart_selection (settings : Settings) (view : ChannelView) :
    (ChannelView.messageRemovedFromStart settings view).selection =
      { start := ⟨view.selection.start.messageIndex - 1, view.selection.start.charIndex⟩
        end_ := ⟨view.selection.end_.messageIndex - 1, view.selection.end_.charIndex⟩
        min := ⟨view.selection.min.messageIndex - 1, view.selection.min.charIndex⟩
        max := ⟨view.selection.max.messageIndex - 1, view.selection.max.charIndex⟩ } ∧
    (ChannelView.messageRemovedFromStart settings
        (viewOf (rowsOfHeights [10, 10, 10, 10, 10, 10]) 100 0 [] ⟨5, 3⟩)).selection =
      ⟨⟨4, 3⟩, ⟨4, 3⟩, ⟨4, 3⟩, ⟨4, 3⟩⟩ := by
  refine ⟨selection_after_removal settings view, ?_⟩
  rw [selection_after_removal]
  rfl

/-- C6 (the code at the failing input): a view whose selection anchors are all
at `(5, 3)` handles a "messages added at start" event with a batch of two
records; afterwards every anchor is still at `(5, 3)`, not at `(7, 3)`. The
handler never touches the selection, whatever the batch. -/
theorem messagesAddedAtStart_selection_unchanged :
    (∀ (settings : Settings) (view : ChannelView) (messages : List Message),
      (ChannelView.messagesAddedAtStart settings view messages).selection = view.selection) ∧
    (ChannelView.messagesAddedAtStart ⟨false, 1⟩
        (viewOf (rowsOfHeights [10, 10, 10, 10, 10, 10]) 100 0 [] ⟨5, 3⟩)
        [⟨0, false, 10⟩, ⟨0, false, 10⟩]).selection =
      ⟨⟨5, 3⟩, ⟨5, 3⟩, ⟨5, 3⟩, ⟨5, 3⟩⟩ := by
  have hgen : ∀ (settings : Settings) (view : ChannelView) (messages : List Message),
      (ChannelView.messagesAddedAtStart settings view messages).selection = view.selection := by
    intro settings view messages
    unfold ChannelView.messagesAddedAtStart
    simp only [layoutMessages_selection]
    split_ifs <;> rfl
  exact ⟨hgen, by rw [hgen]; rfl⟩

/-- C7 (as stated, refuted): a selection whose anchors are all at message index
`0` handles one "message removed from start" event; afterwards every stored
`messageIndex` is `-1`: nothing clamps it at `0`. -/
theorem messageRemovedFromStart_not_clamped :
    (ChannelView.messageRemovedFromStart ⟨false, 1⟩
        (viewOf (rowsOfHeights [10, 10]) 100 0 [] ⟨0, 0⟩)).selection =
      ⟨⟨-1, 0⟩, ⟨-1, 0⟩, ⟨-1, 0⟩, ⟨-1, 0⟩⟩ ∧
    (ChannelView.messageRemovedFromStart ⟨false, 1⟩
        (viewOf (rowsOfHeights [10, 10]) 100 0 [] ⟨0, 0⟩)).selection.start.messageIndex < 0 := by
  rw [selection_after_removal]
  exact ⟨rfl, by decide⟩

/-- C7 (amended): for every selection state whose message indices are all at
least `n`, after handling `n` "message removed from start" events every stored
selection `messageIndex` (start, end, min, max) is still `>= 0`; each is
exactly `n` less than before (the handler subtracts and never clamps). -/
theorem messageRemovedFromStart_iterate_nonneg (settings : Settings) (view : ChannelView)
    (n : Nat) (hstart : (n : Int) ≤ view.selection.start.messageIndex)
    (hend : (n : Int) ≤ view.selection.end_.messageIndex)
    (hmin : (n : Int) ≤ view.selection.min.messageIndex)
    (hmax : (n : Int) ≤ view.selection.max.messageIndex) :
    ((ChannelView.messageRemovedFromStart settings)^[n] view).selection =
      { start := ⟨view.selection.start.messageIndex - n, view.selection.start.charIndex⟩
        end_ := ⟨view.selection.end_.messageIndex - n, view.selection.end_.charIndex⟩
        min := ⟨view.selection.min.messageIndex - n, view.selection.min.charIndex⟩
        max := ⟨view.selection.max.messageIndex - n, view.selection.max.charIndex⟩ } ∧
    0 ≤ ((ChannelView.messageRemovedFromStart settings)^[n] view).selection.start.messageIndex ∧
    0 ≤ ((ChannelView.messageRemovedFromStart settings)^[n] view).selection.end_.messageIndex ∧
    0 ≤ ((ChannelView.messageRemovedFromStart settings)^[n] view).selection.min.messageIndex ∧
    0 ≤ ((ChannelView.messageRemovedFromStart settings)^[n] view).selection.max.messageIndex := by
  rw [selection_after_removals]
  refine ⟨rfl, ?_, ?_, ?_, ?_⟩ <;> simp only <;> omega

/-- C7 witness: anchors at `(5, 3)`, three events. -/
theorem messageRemovedFromStart_iterate_nonneg_witness :
    ((ChannelView.messageRemovedFromStart ⟨false, 1⟩)^[3]
        (viewOf (rowsOfHeights [10, 10, 10, 10, 10, 10]) 100 0 [] ⟨5, 3⟩)).selection =
      ⟨⟨2, 3⟩, ⟨2, 3⟩, ⟨2, 3⟩, ⟨2, 3⟩⟩ :=
  (messageRemovedFromStart_iterate_nonneg ⟨false, 1⟩
    (viewOf (rowsOfHeights [10, 10, 10, 10, 10, 10]) 100 0 [] ⟨5, 3⟩) 3
    (by decide) (by decide) (by decide) (by decide)).1

/-- C8 (the code at the failing input): twelve rows of height 10 in a viewport
of height 65; the previous pass had rows 5 to 11 on screen and the view is
scrolled up to row 3. The pass paints rows 3 to 9 and leaves exactly them in
`messagesOnScreen`; rows 10 and 11 were on screen before and are not after, yet
`deleteBuffer` is called on no layout at all: the erase loop runs to the end
of the snapshot instead of stopping at `end`. -/
theorem drawMessages_keeps_buffers_below_window :
    10 ∈ scrolledUpView.messagesOnScreen ∧ 11 ∈ scrolledUpView.messagesOnScreen ∧
    (ChannelView.drawMessages scrolledUpView).painted = [3, 4, 5, 6, 7, 8, 9] ∧
    (ChannelView.drawMessages scrolledUpView).view.messagesOnScreen = [9, 8, 7, 6, 5, 4, 3] ∧
    (ChannelView.drawMessages scrolledUpView).buffersDeleted = [] := by
  obtain ⟨h1, h2, h3⟩ := drawMessages_eq scrolledUpView
  rw [h1, h2, h3, scrolledUpView_drawPass]
  exact ⟨by decide, by decide, rfl, rfl, rfl⟩

/-- C9: after `ChannelView::drawMessages` on a snapshot (of distinct layout
objects) with `current >= 0` and `floor(current) < length`, the pass starts at
row `floor(current)` and `messagesOnScreen` is exactly the set of layouts
painted in that pass, whatever the set held before: the contiguous rows from
`floor(current)` up to and including the first row `e` after which the
accumulated `y` exceeds the viewport height (or the last row of the snapshot
if that never happens); and no layout in the new set has `deleteBuffer` called
during the pass. The accumulated `y` starts from the source's
`-(getHeight() * fmod(current, 1))`, its `double` product rounded before the
conversion to `int`. -/
theorem drawMessages_onScreen_eq_painted (view : ChannelView)
    (hcur : 0 ≤ view.scrollBar.currentValue)
    (hstart : ⌊view.scrollBar.currentValue⌋₊ < view.getMessagesSnapshot.2.length)
    (hnodup : (view.getMessagesSnapshot.2.map MessageLayout.id).Nodup) :
    ChannelView.startRow view.scrollBar.currentValue = ⌊view.scrollBar.currentValue⌋₊ ∧
    ∃ e, ⌊view.scrollBar.currentValue⌋₊ ≤ e ∧
      e < view.getMessagesSnapshot.2.length ∧
      (∀ j, ⌊view.scrollBar.currentValue⌋₊ ≤ j → j < e →
        yAfter view.getMessagesSnapshot.2 view.scrollBar.currentValue j ≤ view.height) ∧
      (view.height < yAfter view.getMessagesSnapshot.2 view.scrollBar.currentValue e ∨
        e + 1 = view.getMessagesSnapshot.2.length) ∧
      (ChannelView.drawMessages view).painted =
        ((view.getMessagesSnapshot.2.drop ⌊view.scrollBar.currentValue⌋₊).take
          (e + 1 - ⌊view.scrollBar.currentValue⌋₊)).map MessageLayout.id ∧
      (∀ x, x ∈ (ChannelView.drawMessages view).view.messagesOnScreen ↔
        x ∈ (ChannelView.drawMessages view).painted) ∧
      (∀ x ∈ (ChannelView.drawMessages view).view.messagesOnScreen,
        x ∉ (ChannelView.drawMessages view).buffersDeleted) := by
  have hs : ChannelView.startRow view.scrollBar.currentValue =
      ⌊view.scrollBar.currentValue⌋₊ := by
    unfold ChannelView.startRow
    rw [truncQ_of_nonneg hcur]
    exact Int.floor_toNat _
  refine ⟨hs, ?_⟩
  obtain ⟨h1, h2, h3⟩ := drawMessages_eq view
  rw [h1, h2, h3, ← hs]
  exact drawPass_spec _ _ _ _ (by rw [hs]; exact hstart) hnodup

/-- C9 witness: twelve rows of height 10 in a viewport of height 67, scrolled
to the `double` nearest to `0.3`; the pass paints rows 0 to 7. -/
theorem drawMessages_onScreen_eq_painted_witness :
    (ChannelView.drawMessages fractionalView).painted = [0, 1, 2, 3, 4, 5, 6, 7] ∧
    ChannelView.startRow fractionalView.scrollBar.currentValue =
      ⌊fractionalView.scrollBar.currentValue⌋₊ ∧
    ∃ e, ⌊fractionalView.scrollBar.currentValue⌋₊ ≤ e ∧
      e < fractionalView.getMessagesSnapshot.2.length ∧
      (∀ j, ⌊fractionalView.scrollBar.currentValue⌋₊ ≤ j → j < e →
        yAfter fractionalView.getMessagesSnapshot.2 fractionalView.scrollBar.currentValue j ≤
          fractionalView.height) ∧
      (fractionalView.height <
          yAfter fractionalView.getMessagesSnapshot.2 fractionalView.scrollBar.currentValue e ∨
        e + 1 = fractionalView.getMessagesSnapshot.2.length) ∧
      (ChannelView.drawMessages fractionalView).painted =
        ((fractionalView.getMessagesSnapshot.2.drop
            ⌊fractionalView.scrollBar.currentValue⌋₊).take
          (e + 1 - ⌊fractionalView.scrollBar.currentValue⌋₊)).map MessageLayout.id ∧
      (∀ x, x ∈ (ChannelView.drawMessages fractionalView).view.messagesOnScreen ↔
        x ∈ (ChannelView.drawMessages fractionalView).painted) ∧
      (∀ x ∈ (ChannelView.drawMessages fractionalView).view.messagesOnScreen,
        x ∉ (ChannelView.drawMessages fractionalView).buffersDeleted) := by
  have hfl : ⌊fractionalView.scrollBar.currentValue⌋₊ = 0 := by
    show ⌊(5404319552844595 / 18014398509481984 : ℚ)⌋₊ = 0
    exact natFloor_eq_of _ 0 (by norm_num) (by norm_num)
  refine ⟨?_, drawMessages_onScreen_eq_painted fractionalView ?_ ?_ (by decide)⟩
  · rw [(drawMessages_eq fractionalView).2.1, fractionalView_drawPass]
  · show (0 : ℚ) ≤ 5404319552844595 / 18014398509481984
    norm_num
  · rw [hfl]
    decide

/-- C10 (as stated, refuted): one row of height 95 in a viewport of height
100. The total height `95` is at most the viewport height, yet after
`actuallyLayoutMessages` the scrollbar is visible: the pass compares against
`height() - 8 = 92`. -/
theorem actuallyLayoutMessages_visible_though_fits :
    totalHeight (rowsOfHeights [95]) ≤ (viewOf (rowsOfHeights [95]) 100 0 [] ⟨0, 0⟩).height ∧
    (ChannelView.actuallyLayoutMessages ⟨false, 1⟩
      (viewOf (rowsOfHeights [95]) 100 0 [] ⟨0, 0⟩)).scrollBar.visible = true := by
  refine ⟨by decide, ?_⟩
  have hiff := scrollBar_hidden_iff_fits ⟨false, 1⟩
    (viewOf (rowsOfHeights [95]) 100 0 [] ⟨0, 0⟩) (by decide) (by decide)
  have hnot : ¬ totalHeight (viewOf (rowsOfHeights [95]) 100 0 [] ⟨0, 0⟩).getMessagesSnapshot.2 ≤
      (viewOf (rowsOfHeights [95]) 100 0 [] ⟨0, 0⟩).height - 8 := by decide
  cases hv : (ChannelView.actuallyLayoutMessages ⟨false, 1⟩
      (viewOf (rowsOfHeights [95]) 100 0 [] ⟨0, 0⟩)).scrollBar.visible with
  | true => rfl
  | false => exact absurd (hiff.mp hv) hnot

/-- C10 (amended): for every non-empty snapshot with non-negative row heights,
after `ChannelView::actuallyLayoutMessages` the scrollbar is hidden whenever
the total height of all rows is less than or equal to `height() - 8`, and only
then. -/
theorem actuallyLayoutMessages_hidden_iff (settings : Settings) (view : ChannelView)
    (hne : view.getMessagesSnapshot.2 ≠ [])
    (hnn : ∀ row ∈ view.getMessagesSnapshot.2, 0 ≤ row.getHeight) :
    (ChannelView.actuallyLayoutMessages settings view).scrollBar.visible = false ↔
      totalHeight view.getMessagesSnapshot.2 ≤ view.height - 8 :=
  scrollBar_hidden_iff_fits settings view hne hnn

/-- C10 witness: rows of heights 40 and 50 in a viewport of height 100. -/
theorem actuallyLayoutMessages_hidden_iff_witness :
    (ChannelView.actuallyLayoutMessages ⟨false, 1⟩
        (viewOf (rowsOfHeights [40, 50]) 100 0 [] ⟨0, 0⟩)).scrollBar.visible = false ↔
      totalHeight (viewOf (rowsOfHeights [40, 50]) 100 0 [] ⟨0, 0⟩).getMessagesSnapshot.2 ≤
        (viewOf (rowsOfHeights [40, 50]) 100 0 [] ⟨0, 0⟩).height - 8 :=
  actuallyLayoutMessages_hidden_iff ⟨false, 1⟩ (viewOf (rowsOfHeights [40, 50]) 100 0 [] ⟨0, 0⟩)
    (by decide) (by decide)

/-- C11 (the code at the failing input): `clearMessages` on a view scrolled to
row 3 empties the store and runs a layout pass on the empty snapshot. That
pass makes the single scrollbar call `setVisible(false)` and returns: the
scrollbar is hidden but its desired value is still `3`, not `0`. A pass that
hides the scrollbar for a non-empty snapshot does call `setDesiredValue(0)`
and leaves the desired value at `0`. -/
theorem layout_pass_on_empty_keeps_desired :
    (ChannelView.clearMessages ⟨false, 1⟩ scrolledUpView).scrollBar.visible = false ∧
    (ChannelView.clearMessages ⟨false, 1⟩ scrolledUpView).scrollBar.desiredValue = 3 ∧
    ChannelView.layoutCalls ⟨false, 1⟩
        { scrolledUpView with messages := scrolledUpView.messages.clear } =
      [ScrollbarCall.setVisible false] ∧
    (∀ (settings : Settings) (view : ChannelView), view.getMessagesSnapshot.2 ≠ [] →
      (ChannelView.actuallyLayoutMessages settings view).scrollBar.visible = false →
      ScrollbarCall.setDesiredValue 0 false ∈ ChannelView.layoutCalls settings view ∧
      (ChannelView.actuallyLayoutMessages settings view).scrollBar.desiredValue = 0) := by
  obtain ⟨h1, h2⟩ := layoutCalls_of_empty ⟨false, 1⟩
    { scrolledUpView with messages := scrolledUpView.messages.clear } rfl
  refine ⟨?_, ?_, h1, hidden_pass_resets_desired⟩
  · show (ChannelView.actuallyLayoutMessages ⟨false, 1⟩
      { scrolledUpView with messages := scrolledUpView.messages.clear }).scrollBar.visible = false
    rw [h2]
    rfl
  · show (ChannelView.actuallyLayoutMessages ⟨false, 1⟩
      { scrolledUpView with messages := scrolledUpView.messages.clear }).scrollBar.desiredValue = 3
    rw [h2]
    rfl

/-- C12: with scrolling-to-bottom enabled, a pass of
`ChannelView::actuallyLayoutMessages` on a non-empty snapshot calls
`scrollBar.scrollToBottom` if and only if, at the start of the pass, the
scrollbar was at the bottom or was hidden, and the pass decides to show the
scrollbar; the `animate` argument of the call is
`messageWasAdded && enableSmoothScrollingNewMessages`, and `messageWasAdded`
is false after the call. -/
theorem layout_pass_scrollToBottom_iff (settings : Settings) (view : ChannelView)
    (henable : view.enableScrollingToBottom = true)
    (hne : view.getMessagesSnapshot.2 ≠ []) :
    ((∃ a, ScrollbarCall.scrollToBottom a ∈ ChannelView.layoutCalls settings view) ↔
      ((view.scrollBar.isAtBottom = true ∨ view.scrollBar.visible = false) ∧
        (ChannelView.actuallyLayoutMessages settings view).scrollBar.visible = true)) ∧
    (∀ a, ScrollbarCall.scrollToBottom a ∈ ChannelView.layoutCalls settings view →
      a = (view.messageWasAdded && settings.enableSmoothScrollingNewMessages) ∧
      (ChannelView.actuallyLayoutMessages settings view).messageWasAdded = false) := by
  have hvis := actuallyLayoutMessages_visible settings view hne
  have hadded := (actuallyLayoutMessages_of_nonempty settings view hne).2
  constructor
  · rw [hvis]
    constructor
    · rintro ⟨a, ha⟩
      have := ((scrollToBottom_mem_layoutCalls settings view hne a).mp ha).1
      rw [henable] at this
      simpa using this
    · intro h
      refine ⟨_, (scrollToBottom_mem_layoutCalls settings view hne _).mpr ⟨?_, rfl⟩⟩
      rw [henable]
      simpa using h
  · intro a ha
    obtain ⟨hcond, harg⟩ := (scrollToBottom_mem_layoutCalls settings view hne a).mp ha
    refine ⟨harg, ?_⟩
    rw [hadded, if_pos hcond]

/-- C12 witness: two rows of height 60 in a viewport of height 100, the
scrollbar hidden before the pass. -/
theorem layout_pass_scrollToBottom_iff_witness :
    ((∃ a, ScrollbarCall.scrollToBottom a ∈ ChannelView.layoutCalls ⟨true, 1⟩
        { viewOf (rowsOfHeights [60, 60]) 100 0 [] ⟨0, 0⟩ with
          scrollBar := ⟨false, 0, 0, 0, 0, []⟩ }) ↔
      (((⟨false, 0, 0, 0, 0, []⟩ : Scrollbar).isAtBottom = true ∨
          (⟨false, 0, 0, 0, 0, []⟩ : Scrollbar).visible = false) ∧
        (ChannelView.actuallyLayoutMessages ⟨true, 1⟩
          { viewOf (rowsOfHeights [60, 60]) 100 0 [] ⟨0, 0⟩ with
            scrollBar := ⟨false, 0, 0, 0, 0, []⟩ }).scrollBar.visible = true)) ∧
    (∀ a, ScrollbarCall.scrollToBottom a ∈ ChannelView.layoutCalls ⟨true, 1⟩
        { viewOf (rowsOfHeights [60, 60]) 100 0 [] ⟨0, 0⟩ with
          scrollBar := ⟨false, 0, 0, 0, 0, []⟩ } →
      a = (false && true) ∧
      (ChannelView.actuallyLayoutMessages ⟨true, 1⟩
        { viewOf (rowsOfHeights [60, 60]) 100 0 [] ⟨0, 0⟩ with
          scrollBar := ⟨false, 0, 0, 0, 0, []⟩ }).messageWasAdded = false) :=
  layout_pass_scrollToBottom_iff ⟨true, 1⟩
    { viewOf (rowsOfHeights [60, 60]) 100 0 [] ⟨0, 0⟩ with
      scrollBar := ⟨false, 0, 0, 0, 0, []⟩ } rfl (by decide)

/-- C13: when the view is not paused, `ChannelView::getMessagesSnapshot` returns,
and caches, the store's current snapshot; while the view is paused afterwards
it returns that cached snapshot, with the same length and contents, and keeps
it cached, whatever state `store` the calls of `pushBack`, `replaceItem` or
`clear` in between have left the store in. -/
theorem getMessagesSnapshot_paused_returns_cached (view : ChannelView)
    (store : LimitedQueue MessageLayout) (hunpaused : view.paused = false) :
    view.getMessagesSnapshot.2 = view.messages.getSnapshot ∧
    view.getMessagesSnapshot.1.snapshot = view.messages.getSnapshot ∧
    ({ view.getMessagesSnapshot.1 with paused := true, messages := store }
        : ChannelView).getMessagesSnapshot.2 = view.messages.getSnapshot ∧
    ({ view.getMessagesSnapshot.1 with paused := true, messages := store }
        : ChannelView).getMessagesSnapshot.1.snapshot = view.messages.getSnapshot := by
  have hfirst : view.getMessagesSnapshot =
      ({ view with snapshot := view.messages.getSnapshot }, view.messages.getSnapshot) := by
    unfold ChannelView.getMessagesSnapshot
    rw [hunpaused]
    rfl
  rw [hfirst]
  refine ⟨rfl, rfl, ?_, ?_⟩ <;>
    · unfold ChannelView.getMessagesSnapshot
      rfl

/-- C13 witness: the twelve-row view, then paused with the store cleared. -/
theorem getMessagesSnapshot_paused_returns_cached_witness :
    scrolledUpView.getMessagesSnapshot.2 = scrolledUpView.messages.getSnapshot ∧
    scrolledUpView.getMessagesSnapshot.1.snapshot = scrolledUpView.messages.getSnapshot ∧
    ({ scrolledUpView.getMessagesSnapshot.1 with
        paused := true, messages := scrolledUpView.messages.clear }
        : ChannelView).getMessagesSnapshot.2 = scrolledUpView.messages.getSnapshot ∧
    ({ scrolledUpView.getMessagesSnapshot.1 with
        paused := true, messages := scrolledUpView.messages.clear }
        : ChannelView).getMessagesSnapshot.1.snapshot = scrolledUpView.messages.getSnapshot :=
  getMessagesSnapshot_paused_returns_cached scrolledUpView scrolledUpView.messages.clear rfl

/-- C14 (the code at the failing input): a paused view over twelve rows handles
a "messages added at start" event with a batch of two records. The handler
calls `pushFront` only when the view is not paused, so the store is unchanged,
and the first snapshot after the pause is lifted is the old twelve rows,
without the batch. A "message appended" event does reach the store through
`pushBack`, paused or not. -/
theorem messagesAddedAtStart_drops_batch_while_paused :
    pausedView.paused = true ∧
    (ChannelView.messagesAddedAtStart ⟨false, 1⟩ pausedView
      [⟨1, false, 10⟩, ⟨2, false, 10⟩]).messages = pausedView.messages ∧
    (ChannelView.leaveEvent (ChannelView.messagesAddedAtStart ⟨false, 1⟩ pausedView
      [⟨1, false, 10⟩, ⟨2, false, 10⟩])).getMessagesSnapshot.2 =
        rowsOfHeights [10, 10, 10, 10, 10, 10, 10, 10, 10, 10, 10, 10] ∧
    (∀ (settings : Settings) (view : ChannelView) (message : Message),
      (ChannelView.messageAppended settings view message).messages =
        (view.messages.pushBack ⟨view.nextLayoutId, message⟩).1) := by
  obtain ⟨h1, -⟩ := messagesAddedAtStart_paused ⟨false, 1⟩ pausedView
    [⟨1, false, 10⟩, ⟨2, false, 10⟩] rfl
  refine ⟨rfl, h1, ?_, messageAppended_messages⟩
  simp only [ChannelView.leaveEvent, ChannelView.getMessagesSnapshot, Bool.not_false, if_true,
    h1]
  rfl

/-- C15 (the code at the failing input): the same paused view and batch of two
records. The handler adds two highlight markers to the scrollbar while it
inserts no record into the store (twelve rows before and after): markers and
rows are no longer in step. -/
theorem messagesAddedAtStart_highlights_without_rows :
    pausedView.paused = true ∧
    (ChannelView.messagesAddedAtStart ⟨false, 1⟩ pausedView
      [⟨1, false, 10⟩, ⟨2, false, 10⟩]).scrollBar.highlights =
        [1, 2] ++ pausedView.scrollBar.highlights ∧
    (ChannelView.messagesAddedAtStart ⟨false, 1⟩ pausedView
      [⟨1, false, 10⟩, ⟨2, false, 10⟩]).messages.items.length =
        pausedView.messages.items.length ∧
    (∀ (settings : Settings) (view : ChannelView) (message : Message),
      (ChannelView.messageAppended settings view message).scrollBar.highlights =
        view.scrollBar.highlights ++ [message.scrollBarHighlight]) := by
  refine ⟨rfl, ?_, ?_, messageAppended_highlights⟩
  · rw [messagesAddedAtStart_highlights]
    rfl
  · rw [(messagesAddedAtStart_paused ⟨false, 1⟩ pausedView _ rfl).1]

/-- C16 (the code at the failing input): the view over twelve rows handles a
"message replaced" event with index `12`. The handler evaluates
`getSnapshot()[12]`, an out-of-range access, after calling `replaceHighlight`
unguarded; it does so for every index at or past the store length. -/
theorem messageReplaced_out_of_range :
    scrolledUpView.messages.items.length = 12 ∧
    ChannelView.messageReplaced ⟨false, 1⟩ scrolledUpView 12 ⟨0, false, 10⟩ = none ∧
    (∀ (settings : Settings) (view : ChannelView) (index : Nat) (replacement : Message),
      view.messages.items.length ≤ index →
      ChannelView.messageReplaced settings view index replacement = none) := by
  refine ⟨rfl, messageReplaced_of_le _ _ _ _ (by decide), messageReplaced_of_le⟩

/-- C17: for non-negative row heights, a scroll position `current >= 0` and
every point `p` with `p.y >= 0`. The painting walk starts at row
`floor(current)`, whose top is at `-trunc(height(start) * frac(current))` (the
product being the `double` product `getHeight() * fmod(current, 1)` of the
source, rounded before the conversion to `int`), and puts each next row
directly below. `ChannelView::tryGetMessageAt` returns true exactly when
`floor(current) < length` and `p.y` lies above the bottom edge of the last row
so positioned; when it returns true with index `i`, then
`floor(current) <= i < length`, `i` is the first row whose bottom edge is below
`p.y`, the returned layout is row `i`, and `relativePos = (p.x, p.y - top(i))`
with `0 <= relativePos.y < height(i)`. -/
theorem tryGetMessageAt_spec (view : ChannelView) (p : QPoint)
    (hnn : ∀ row ∈ passRows view, 0 ≤ row.getHeight)
    (hcur : 0 ≤ view.scrollBar.currentValue) (hy : 0 ≤ p.y) :
    (passStart view = ⌊view.scrollBar.currentValue⌋₊ ∧
      (passStart view < (passRows view).length →
        rowTopEdge view (passStart view) =
          -truncQ (toDouble ((rowHeight (passRows view) (passStart view) : ℚ) *
            Int.fract view.scrollBar.currentValue))) ∧
      (∀ j, passStart view ≤ j → j + 1 < (passRows view).length →
        rowTopEdge view (j + 1) = rowBottomEdge view j)) ∧
    ((ChannelView.tryGetMessageAt view p).2.isSome = true ↔
      passStart view < (passRows view).length ∧
        p.y < rowBottomEdge view ((passRows view).length - 1)) ∧
    (∀ layout relativePos i,
      (ChannelView.tryGetMessageAt view p).2 = some (layout, relativePos, i) →
      passStart view ≤ i ∧ i < (passRows view).length ∧
      p.y < rowBottomEdge view i ∧
      (∀ j, passStart view ≤ j → j < i → rowBottomEdge view j ≤ p.y) ∧
      (passRows view)[i]? = some layout ∧
      relativePos = ⟨p.x, p.y - rowTopEdge view i⟩ ∧
      0 ≤ relativePos.y ∧ relativePos.y < rowHeight (passRows view) i) :=
  ⟨painting_walk_edges view hcur, hit_test_rows view p hnn hcur hy⟩

/-- C17 witness: twelve rows of height 10 scrolled to the `double` nearest to
`0.3`, the point `(0, 0)`; the call returns row 0 with `relativePos = (0, 3)`. -/
theorem tryGetMessageAt_spec_witness :
    (ChannelView.tryGetMessageAt fractionalView ⟨0, 0⟩).2 = some (mkRow 0 10, ⟨0, 3⟩, 0) ∧
    (passStart fractionalView = ⌊fractionalView.scrollBar.currentValue⌋₊ ∧
      (passStart fractionalView < (passRows fractionalView).length →
        rowTopEdge fractionalView (passStart fractionalView) =
          -truncQ (toDouble
            ((rowHeight (passRows fractionalView) (passStart fractionalView) : ℚ) *
              Int.fract fractionalView.scrollBar.currentValue))) ∧
      (∀ j, passStart fractionalView ≤ j → j + 1 < (passRows fractionalView).length →
        rowTopEdge fractionalView (j + 1) = rowBottomEdge fractionalView j)) ∧
    ((ChannelView.tryGetMessageAt fractionalView ⟨0, 0⟩).2.isSome = true ↔
      passStart fractionalView < (passRows fractionalView).length ∧
        (⟨0, 0⟩ : QPoint).y <
          rowBottomEdge fractionalView ((passRows fractionalView).length - 1)) ∧
    (∀ layout relativePos i,
      (ChannelView.tryGetMessageAt fractionalView ⟨0, 0⟩).2 =
        some (layout, relativePos, i) →
      passStart fractionalView ≤ i ∧ i < (passRows fractionalView).length ∧
      (⟨0, 0⟩ : QPoint).y < rowBottomEdge fractionalView i ∧
      (∀ j, passStart fractionalView ≤ j → j < i →
        rowBottomEdge fractionalView j ≤ (⟨0, 0⟩ : QPoint).y) ∧
      (passRows fractionalView)[i]? = some layout ∧
      relativePos = ⟨(⟨0, 0⟩ : QPoint).x, (⟨0, 0⟩ : QPoint).y - rowTopEdge fractionalView i⟩ ∧
      0 ≤ relativePos.y ∧ relativePos.y < rowHeight (passRows fractionalView) i) :=
  ⟨fractionalView_hit, tryGetMessageAt_spec fractionalView ⟨0, 0⟩ (by decide)
    (by show (0 : ℚ) ≤ 5404319552844595 / 18014398509481984; norm_num) (by decide)⟩

/-- C18: for every selection state, after `ChannelView::clearSelection()` the
stored selection has `start == end` and `ChannelView::hasSelection()` returns
false. -/
theorem clearSelection_hasSelection (settings : Settings) (view : ChannelView) :
    (ChannelView.clearSelection settings view).selection.start =
      (ChannelView.clearSelection settings view).selection.end_ ∧
    (ChannelView.clearSelection settings view).hasSelection = false := by
  have h : (ChannelView.clearSelection settings view).selection = Selection.empty := by
    unfold ChannelView.clearSelection
    rw [layoutMessages_selection]
  unfold ChannelView.hasSelection
  rw [h]
  exact ⟨rfl, rfl⟩

/-- C19 (the code at the failing input): three rows, `desired = 3 = maximum`.
`i = min((int)desired, snapshotLength)` is `3`, and the first statement of
either branch reads `snapshot[3]`, one past the last row: the walk makes an
out-of-range access for every delta, as it does for every snapshot when
`desired` equals its length. -/
theorem wheelWalk_at_maximum_out_of_range :
    wheelWalk (rowsOfHeights [10, 10, 10]) 3 (-180) = none ∧
    wheelWalk (rowsOfHeights [10, 10, 10]) 3 180 = none ∧
    ChannelView.wheelEvent ⟨false, 1⟩ (viewOf (rowsOfHeights [10, 10, 10]) 25 3 [] ⟨0, 0⟩)
      (-120) = none ∧
    (∀ (snapshot : Snapshot) (delta : ℚ),
      wheelWalk snapshot (snapshot.length : ℚ) delta = none) := by
  have hgen : ∀ (snapshot : Snapshot) (delta : ℚ),
      wheelWalk snapshot (snapshot.length : ℚ) delta = none := by
    intro snapshot delta
    have ht : truncQ (snapshot.length : ℚ) = (snapshot.length : ℤ) := by
      have := truncQ_intCast (snapshot.length : ℤ)
      rwa [Int.cast_natCast] at this
    unfold wheelWalk
    simp only [ht, min_self, Int.toNat_ofNat, List.getElem?_eq_none (le_refl _)]
    split_ifs <;> rfl
  have h3 : ∀ delta : ℚ, wheelWalk (rowsOfHeights [10, 10, 10]) 3 delta = none := by
    intro delta
    have := hgen (rowsOfHeights [10, 10, 10]) delta
    have hl : ((rowsOfHeights [10, 10, 10]).length : ℚ) = 3 := by
      simp [rowsOfHeights, rowsFrom]
    rwa [hl] at this
  refine ⟨h3 _, h3 _, ?_, hgen⟩
  unfold ChannelView.wheelEvent
  simp only [viewOf, ChannelView.getMessagesSnapshot, LimitedQueue.getSnapshot, Bool.not_false,
    if_true, h3]

/-- C21 (the code at the failing input): five rows of height 10 in a viewport of
height 30, scrolled to the top. After row 2 the accumulated `y` is exactly
`30`: the visible-window loop of `actuallyLayoutMessages` breaks on
`y >= height()` and lays out rows 0 to 2, while `drawMessages` breaks on
`y > height()` and paints rows 0 to 3. Row 3 is painted without having been
laid out by that loop. In general the laid-out rows are an initial part of
the painted rows, and for positive row heights at most one row is missing. -/
theorem layoutWindow_misses_painted_row :
    ChannelView.layoutWindow (passRows boundaryView) boundaryView.scrollBar.currentValue
      boundaryView.height = [0, 1, 2] ∧
    (ChannelView.drawMessages boundaryView).painted = [0, 1, 2, 3] ∧
    (∀ (snapshot : Snapshot) (current : ℚ) (viewHeight : Int) (onScreen : List Nat),
      ∃ t, (ChannelView.drawPass snapshot current viewHeight onScreen).painted =
          ChannelView.layoutWindow snapshot current viewHeight ++ t ∧
        ((∀ row ∈ snapshot, 0 < row.getHeight) → t.length ≤ 1)) := by
  have t0 : truncQ 0 = 0 := truncQ_intCast 0
  have hs : ChannelView.startRow 0 = 0 := by simp [ChannelView.startRow, t0]
  have hf : fmod1 0 = 0 := by simp [fmod1, t0]
  have hsnap : passRows boundaryView = rowsOfHeights [10, 10, 10, 10, 10] := rfl
  have hsnap2 : boundaryView.getMessagesSnapshot.2 = rowsOfHeights [10, 10, 10, 10, 10] := rfl
  have hcur : boundaryView.scrollBar.currentValue = 0 := rfl
  have hh : boundaryView.height = 30 := rfl
  have hon : boundaryView.messagesOnScreen = [] := rfl
  refine ⟨?_, ?_, painted_eq_layoutWindow_append⟩
  · rw [hsnap, hcur, hh]
    unfold ChannelView.layoutWindow
    simp only [hs, hf, mul_zero, toDouble_zero, neg_zero, t0]
    decide
  · rw [(drawMessages_eq boundaryView).2.1, hsnap2, hcur, hh, hon]
    unfold ChannelView.drawPass
    simp only [hs, hf, mul_zero, toDouble_zero, neg_zero, t0]
    decide

/-- C22 (as stated, refuted): two rows of height 10 and an effective delta of
`0`. From `desired = 15/16` (a `float`) the extent of row 0 below `desired` is
the `float` product `0.0625 * 10 = 0.625`, truncated to `0`; `0 < 0` fails, so
the walk consumes the row and hands `setDesiredValue` the value `1`, not
`15/16`. From `desired = 1 + 2^-30` (a `double` that is not a `float`) the
narrowing `float desired = getDesiredValue()` gives `1`, and `1` is handed to
`setDesiredValue`. -/
theorem wheelWalkFloat_zero_delta_moves :
    (∀ row ∈ rowsOfHeights [10, 10], 0 < row.getHeight) ∧
    (wheelWalkFloat (rowsOfHeights [10, 10]) (15 / 16) 0 = some 1 ∧
      (1 : ℚ) ≠ 15 / 16) ∧
    (toDouble (1 + 1 / 2 ^ 30) = 1 + 1 / 2 ^ 30 ∧
      wheelWalkFloat (rowsOfHeights [10, 10]) (1 + 1 / 2 ^ 30) 0 = some 1 ∧
      (1 : ℚ) ≠ 1 + 1 / 2 ^ 30) := by
  have f0 : toFloat 0 = 0 := toFloat_zero
  have d0 : toDouble 0 = 0 := toDouble_zero
  have f1 : toFloat 1 = 1 := toFloat_of_repr _ 1 0 (by norm_num) (by norm_num) (by norm_num)
  have d1 : toDouble 1 = 1 := toDouble_of_toFloat f1
  have f10 : toFloat 10 = 10 :=
    toFloat_of_repr _ 10 0 (by norm_num) (by norm_num) (by norm_num)
  have fd : toFloat (15 / 16) = 15 / 16 :=
    toFloat_of_repr _ 15 (-4) (by norm_num) (by norm_num) (by norm_num)
  have fs : toFloat (1 / 16) = 1 / 16 :=
    toFloat_of_repr _ 1 (-4) (by norm_num) (by norm_num) (by norm_num)
  have ds : toDouble (1 / 16) = 1 / 16 := toDouble_of_toFloat fs
  have fp : toFloat (5 / 8) = 5 / 8 :=
    toFloat_of_repr _ 5 (-3) (by norm_num) (by norm_num) (by norm_num)
  have tp : truncQ (5 / 8) = 0 := truncQ_eq_of _ _ (by norm_num) (by norm_num) (by norm_num)
  have u10 : truncQ 10 = 10 := truncQ_intCast 10
  have fn : toFloat (1 + 1 / 2 ^ 30) = 1 :=
    toFloat_eval _ _ 0 8388608 (by norm_num) (by norm_num) (by norm_num) (by norm_num)
      (by norm_num) (by norm_num)
  refine ⟨by simp [rowsOfHeights, rowsFrom, mkRow, MessageLayout.getHeight],
    ⟨?_, by norm_num⟩, ⟨?_, ?_, by norm_num⟩⟩
  · rw [wheelWalkFloat_eval_down _ (15 / 16) 0 0 (mkRow 0 10) (by norm_num) (by norm_num) fd
      rfl (by rw [f0])]
    norm_num [mkRow, MessageLayout.getHeight, f0, f10, ds, fs, fp, tp]
    rw [wheelDownLoopFloat_next _ 0 0 _ _ 0 (mkRow 1 10) rfl (le_refl _)]
    norm_num [mkRow, MessageLayout.getHeight, f0, f1, f10]
    rw [wheelDownLoopFloat_stop _ _ _ _ _ _ (by simp [rowsOfHeights, rowsFrom]) (by norm_num)]
    norm_num [d0, d1, f1]
  · exact toDouble_of_repr _ 1073741825 (-30) (by norm_num) (by norm_num) (by norm_num)
  · rw [wheelWalkFloat_narrowed, fn,
      wheelWalkFloat_eval_down _ 1 0 1 (mkRow 1 10) (by norm_num) (by norm_num) f1 rfl
        (by rw [f0])]
    norm_num [mkRow, MessageLayout.getHeight, f0, d1, f1, f10, u10]
    rw [wheelDownLoopFloat_stop _ _ _ _ _ _ (by simp [rowsOfHeights, rowsFrom]) (by norm_num)]
    norm_num [d0, d1, f1]

/-- C22 (amended): for every snapshot and every starting desired value
`d >= 0` whose narrowing `d' = (float)d` (the source's
`float desired = getDesiredValue()`) is inside the snapshot
(`floor(d') < length`) and whose row has at least one whole pixel below `d'`
as `wheelEvent` computes it (the `float` product `scrollFactor * getHeight()`
truncated to `int` is positive), the wheel walk of `ChannelView::wheelEvent`
with an effective delta of `0` passes `d'` to `setDesiredValue`: the unchanged
desired value whenever that value is a `float`. -/
theorem wheelWalkFloat_zero_delta (snapshot : Snapshot) (d : ℚ) (h0 : 0 ≤ d)
    (hlen : ⌊toFloat d⌋₊ < snapshot.length)
    (hpix : 0 < forwardExtentFloat snapshot (toFloat d)) :
    wheelWalkFloat snapshot d 0 = some (toFloat d) ∧
    (toFloat d = d → wheelWalkFloat snapshot d 0 = some d) := by
  have h : wheelWalkFloat snapshot d 0 = some (toFloat d) := by
    rw [wheelWalkFloat_narrowed]
    exact wheelWalkFloat_zero_of_extent (toFloat_nonneg h0) hlen (toFloat_idem d) hpix
  refine ⟨h, fun hd => ?_⟩
  rw [h, hd]

/-- C22 witness: two rows of height 10, `desired = 1/2` (a `float`), with 5
pixels of row 0 below it. -/
theorem wheelWalkFloat_zero_delta_witness :
    wheelWalkFloat (rowsOfHeights [10, 10]) (1 / 2) 0 = some (toFloat (1 / 2)) ∧
    (toFloat (1 / 2) = 1 / 2 →
      wheelWalkFloat (rowsOfHeights [10, 10]) (1 / 2) 0 = some (1 / 2)) := by
  have f10 : toFloat 10 = 10 :=
    toFloat_of_repr _ 10 0 (by norm_num) (by norm_num) (by norm_num)
  have f5 : toFloat 5 = 5 := toFloat_of_repr _ 5 0 (by norm_num) (by norm_num) (by norm_num)
  have fh : toFloat (1 / 2) = 1 / 2 :=
    toFloat_of_repr _ 1 (-1) (by norm_num) (by norm_num) (by norm_num)
  have dh : toDouble (1 / 2) = 1 / 2 := toDouble_of_toFloat fh
  have t5 : truncQ 5 = 5 := truncQ_intCast 5
  have hfl : ⌊(1 / 2 : ℚ)⌋₊ = 0 := natFloor_eq_of _ 0 (by norm_num) (by norm_num)
  refine wheelWalkFloat_zero_delta (rowsOfHeights [10, 10]) (1 / 2) (by norm_num)
    (by rw [fh, hfl]; simp [rowsOfHeights, rowsFrom]) ?_
  rw [fh]
  unfold forwardExtentFloat
  rw [hfl, fract_eq_of _ 0 (by norm_num) (by norm_num)]
  norm_num [rowHeight, rowsOfHeights, rowsFrom, mkRow, MessageLayout.getHeight, f10, f5, fh,
    dh, t5]

end chatterino
